import Mathlib

set_option autoImplicit false

/-!
Verification development for the agent runtime (package adk and friends).

Shallow embedding of the run session / run context model of `adk/runctx.go` over
an explicit heap (pointers, slices and maps are references) and of the agent tool
of `adk/agent_tool.go`, together with models of the workflow state machine, of the
event pipe and of the generic serializer.

Part 1: definitions.  Part 2: lemmas and theorems.
-/

namespace Eino

/-! ## Data model -/

/-- Modelled from the spec: the declaration of `RunStep` is not among the source
files. It is "one path segment, identified by agent name", and `runctx.go` builds
it as `RunStep{agentName}`. -/
structure RunStep where
  agentName : String
  deriving DecidableEq, Repr

/-- Modelled from the spec: the roles of a chat message; the schema package is not
among the source files, the four roles are those `agent_tool.go` tests for. -/
inductive RoleType where
  | System
  | User
  | Assistant
  | Tool
  deriving DecidableEq, Repr

/-- Modelled from the spec: a tool call of an assistant message (schema package,
not among the source files), as `agent_tool_test.go` builds it. -/
structure ToolCall where
  ID : String
  Name : String
  Arguments : String
  deriving DecidableEq, Repr

/-- Modelled from the spec: a chat message (schema package, not among the source
files), with the fields the embedded code and its tests read. -/
structure Message where
  Role : RoleType
  Content : String
  ToolCalls : List ToolCall := []
  ToolCallID : String := ""
  ToolName : String := ""
  deriving DecidableEq, Repr

/-- Modelled from the spec: the input of an agent run, "the message history a
sub-agent is invoked with"; its declaration is not among the source files. -/
structure AgentInput where
  Messages : List Message
  EnableStreaming : Bool
  deriving DecidableEq, Repr

/-- Modelled from the spec: the dynamic values (`any`) held by the session value
store and by customized outputs, cut down to nil and three scalar kinds. -/
inductive GoAny where
  | nil
  | int (n : Int)
  | str (s : String)
  | bool (b : Bool)
  deriving DecidableEq, Repr

/-- Run context of `runctx.go`, `{RootInput, RunPath, Session}`, as read through a
`*runContext`: `RunPath` holds the elements of the slice, and the session pointer
is nil or the address of a session in memory, so that copies of a run context
share one session. -/
structure runContext where
  RootInput : Option AgentInput
  RunPath : List RunStep
  Session : Option Nat
  deriving DecidableEq, Repr

/-- Modelled from the spec: the interrupt payload `InterruptInfo{Data any}`; the
declarations are not among the source files, the fields are those of the spec's
data model and of `workflow_test.go`. `Data` is either a `*WorkflowInterruptInfo`
(constructor `workflow`, with the fields of that record) or a value of another
dynamic type, of which only the Go type name is kept. -/
inductive InterruptInfo where
  | data (goType : String)
  | workflow (OrigInput : Option AgentInput) (SequentialInterruptIndex : Nat)
      (SequentialInterruptInfo : Option InterruptInfo) (LoopIterations : Nat)
      (ParallelInterruptInfo : List (Nat × InterruptInfo))

/-- Modelled from the spec: the action variant BreakLoop (originating agent, done
flag, iteration count), with the field names of `workflow_test.go`. -/
structure BreakLoopAction where
  From : String
  Done : Bool
  CurrentIterations : Nat
  deriving DecidableEq, Repr

/-- Modelled from the spec: the action carried by an event (`AgentAction`), with the
fields the source files read. -/
structure AgentAction where
  Exit : Bool
  Interrupted : Option InterruptInfo
  BreakLoop : Option BreakLoopAction

/-- Modelled from the spec: the message output of an event (`MessageVariant`); the
stream of a streaming output is kept as the list of its chunks. -/
structure MessageVariant where
  IsStreaming : Bool
  Message : Option Message
  Role : RoleType
  MessageStream : List Eino.Message := []
  deriving DecidableEq, Repr

/-- Modelled from the spec: the output of an event (`AgentOutput`). -/
structure AgentOutput where
  MessageOutput : Option MessageVariant
  CustomizedOutput : GoAny
  deriving DecidableEq, Repr

/-- Modelled from the spec: the event emitted by an agent (`AgentEvent`), with the
fields the source files read; `Err` keeps the error message. -/
structure AgentEvent where
  AgentName : String
  Output : Option AgentOutput
  Action : Option AgentAction
  Err : Option String

/-- Wrapper of a logged event (`agentEventWrapper`), without its mutex. -/
structure agentEventWrapper where
  AgentEvent : AgentEvent
  concatenatedMessage : Option Message

/-- Run session of `runctx.go`. `Events` is the event log, `Values` the reference to
the key/value store (a Go map is a reference: nil, or the address of a map object
in memory), and `interruptRunCtxs` the pending-interrupt run contexts. The mutex is
not modelled: every method is one atomic state transformer. -/
structure runSession where
  Events : List agentEventWrapper
  Values : Option Nat
  interruptRunCtxs : List runContext

/-- The struct literal `runSession{Values: m}` of `newRunSession`, for the map at
address `m`: no event, no pending interrupt. -/
def sessionOfMap (m : Nat) : runSession :=
  { Events := [], Values := some m, interruptRunCtxs := [] }

/-- Modelled from the spec: `belongToRunPath` is called by
`replaceInterruptRunCtx` as `belongToRunPath(interruptRunCtx.RunPath, rc.RunPath)`
but its body is not among the source files. The spec says that the entries removed
are those "whose RunPath is a prefix of (or equal to) the new one's RunPath", so
with the argument order of the call the helper holds iff its second argument is a
prefix of its first. -/
def belongToRunPath (newPath rcPath : List RunStep) : Bool :=
  rcPath.isPrefixOf newPath

/-- The loop of `replaceInterruptRunCtx` (lines 160-166): `i` runs over the slice;
when the helper holds of entry `i` the entry is cut out
(`append(s[:i], s[i+1:]...)`) and `i--` followed by the loop's `i++` leaves the
index where it is, otherwise the index advances. The helper is a parameter. -/
def replaceLoop (belongs : List RunStep → List RunStep → Bool) (newPath : List RunStep)
    (xs : List runContext) (i : Nat) : List runContext :=
  if h : i < xs.length then
    if belongs newPath (xs.get ⟨i, h⟩).RunPath then
      replaceLoop belongs newPath (xs.take i ++ xs.drop (i + 1)) i
    else
      replaceLoop belongs newPath xs (i + 1)
  else xs
termination_by xs.length - i
decreasing_by
  · simp only [List.length_append, List.length_take, List.length_drop]
    omega
  · omega

/-- Method `(rs *runSession) replaceInterruptRunCtx`, with the helper
`belongToRunPath` as a parameter: run the removal loop from index 0, then append
the new run context. -/
def runSession.replaceInterruptRunCtxWith
    (belongs : List RunStep → List RunStep → Bool)
    (rs : runSession) (interruptRunCtx : runContext) : runSession :=
  { rs with
    interruptRunCtxs :=
      replaceLoop belongs interruptRunCtx.RunPath rs.interruptRunCtxs 0 ++ [interruptRunCtx] }

/-- Method `(rs *runSession) replaceInterruptRunCtx` with the helper read from the
spec. -/
def runSession.replaceInterruptRunCtx
    (rs : runSession) (interruptRunCtx : runContext) : runSession :=
  rs.replaceInterruptRunCtxWith belongToRunPath interruptRunCtx

/-- The session reached from a new session (the literal of `newRunSession`) by
calling `replaceInterruptRunCtx` on the run contexts `ns` in order (helper as
parameter). -/
def insertAllWith (belongs : List RunStep → List RunStep → Bool)
    (ns : List runContext) : runSession :=
  ns.foldl (fun rs n => rs.replaceInterruptRunCtxWith belongs n) (sessionOfMap 0)

/-- The session reached from a new session by calling `replaceInterruptRunCtx` on
the run contexts `ns` in order. -/
def insertAll (ns : List runContext) : runSession :=
  ns.foldl (fun rs n => rs.replaceInterruptRunCtx n) (sessionOfMap 0)

/-- No two entries of the list have RunPaths of which one is a prefix of (or equal
to) the other. -/
def NoLineageOverlap (xs : List runContext) : Prop :=
  xs.Pairwise (fun a b => ¬ a.RunPath <+: b.RunPath ∧ ¬ b.RunPath <+: a.RunPath)

/-- Run context with the given agent names as path, no root input, session 0. -/
def ctxOfPath (names : List String) : runContext :=
  { RootInput := none, RunPath := names.map RunStep.mk, Session := some 0 }

/-! ## Memory model

Pointers, slices and maps of Go are references. The run contexts, the backing
arrays of their `RunPath` slices, the sessions and the maps live in a heap, each
kind under its own addresses; allocation takes the next free address. -/

/-- Header of a `[]RunStep` slice: the address of its backing array (the slices of
`runctx.go` all start at the first element of their array), its length and its
capacity. -/
structure Slice where
  array : Nat
  len : Nat
  cap : Nat
  deriving DecidableEq, Repr

/-- The nil slice: length and capacity 0. -/
def Slice.nil : Slice := { array := 0, len := 0, cap := 0 }

/-- The struct `runContext` as it lies in memory: `RunPath` is a slice header, the
session a pointer (nil or an address). -/
structure runContextCell where
  RootInput : Option AgentInput
  RunPath : Slice
  Session : Option Nat
  deriving DecidableEq, Repr

/-- A map object `map[string]any`: finitely many entries, one per key. -/
abbrev GoMap := AList (fun _ : String => GoAny)

/-- The heap: backing arrays of `RunStep` slices, run contexts, sessions and map
objects, each with the next free address; `spare` is the growth policy of
`append`, the number of spare slots it adds when it has to move a slice of the
given capacity to a new array. -/
structure Heap where
  arrays : Nat → List RunStep
  nextArray : Nat
  runCtxs : Nat → runContextCell
  nextRunCtx : Nat
  sessions : Nat → runSession
  nextSession : Nat
  maps : Nat → GoMap
  nextMap : Nat
  spare : Nat → Nat

/-- Store `x` at address `p`. -/
def upd {α : Type} (f : Nat → α) (p : Nat) (x : α) : Nat → α :=
  fun q => if q = p then x else f q

/-- The heap in which nothing is allocated. -/
def Heap.empty (spare : Nat → Nat) : Heap :=
  { arrays := fun _ => [], nextArray := 0,
    runCtxs := fun _ => { RootInput := none, RunPath := Slice.nil, Session := none },
    nextRunCtx := 0,
    sessions := fun _ => { Events := [], Values := none, interruptRunCtxs := [] },
    nextSession := 0,
    maps := fun _ => ∅, nextMap := 0, spare := spare }

/-- The elements of a slice: the first `len` elements of its backing array. -/
def Heap.sliceElems (h : Heap) (s : Slice) : List RunStep :=
  (h.arrays s.array).take s.len

/-- Go `make([]RunStep, n)`: a new array of `n` zero values, and the slice of length
and capacity `n` over it. -/
def Heap.makeSlice (h : Heap) (n : Nat) : Heap × Slice :=
  let zeros : List RunStep := List.replicate n { agentName := "" }
  ({ h with arrays := upd h.arrays h.nextArray zeros, nextArray := h.nextArray + 1 },
   { array := h.nextArray, len := n, cap := n })

/-- Go `copy(dst, src)`: the first `min(len(dst), len(src))` elements of `src` are
written over those of `dst`, in the backing array of `dst`. -/
def Heap.sliceCopy (h : Heap) (dst src : Slice) : Heap :=
  let n := min dst.len src.len
  let written : List RunStep := (h.arrays src.array).take n ++ (h.arrays dst.array).drop n
  { h with arrays := upd h.arrays dst.array written }

/-- Go `append(s, x)`: with spare capacity the element is written in place, after
the last element, in the backing array of `s`; without, the elements move to a new
array which also gets `x` and the spare slots of the growth policy. -/
def Heap.sliceAppend (h : Heap) (s : Slice) (x : RunStep) : Heap × Slice :=
  if s.len < s.cap then
    let written : List RunStep := (h.arrays s.array).set s.len x
    ({ h with arrays := upd h.arrays s.array written }, { s with len := s.len + 1 })
  else
    let zeros : List RunStep := List.replicate (h.spare s.cap) { agentName := "" }
    let moved : List RunStep := h.sliceElems s ++ x :: zeros
    ({ h with arrays := upd h.arrays h.nextArray moved, nextArray := h.nextArray + 1 },
     { array := h.nextArray, len := s.len + 1, cap := s.len + 1 + h.spare s.cap })

/-- Allocation of a run context (`&runContext{...}`). -/
def Heap.newRunCtx (h : Heap) (c : runContextCell) : Heap × Nat :=
  ({ h with runCtxs := upd h.runCtxs h.nextRunCtx c, nextRunCtx := h.nextRunCtx + 1 },
   h.nextRunCtx)

/-- Go `make(map[string]any)`: a new empty map object. -/
def Heap.makeMap (h : Heap) : Heap × Nat :=
  ({ h with maps := upd h.maps h.nextMap ∅, nextMap := h.nextMap + 1 }, h.nextMap)

/-- Go `m[key] = value` on the map object at address `m`. -/
def Heap.mapAssign (h : Heap) (m : Nat) (key : String) (value : GoAny) : Heap :=
  { h with maps := upd h.maps m ((h.maps m).insert key value) }

/-- Go `delete(m, key)` on the map object at address `m`. -/
def Heap.mapDelete (h : Heap) (m : Nat) (key : String) : Heap :=
  { h with maps := upd h.maps m ((h.maps m).erase key) }

/-- Go `v, ok := m[key]` on a map reference: the zero value and false for a key
that is absent, and for every key of the nil map. -/
def Heap.mapIndex (h : Heap) (m : Option Nat) (key : String) : GoAny × Bool :=
  match m with
  | none => (GoAny.nil, false)
  | some a =>
    match (h.maps a).lookup key with
    | some v => (v, true)
    | none => (GoAny.nil, false)

/-- The entries a `range` over a map reference visits: none for the nil map. The
order of a `range` is not specified; the order of the stored entries stands for
it. -/
def Heap.mapRange (h : Heap) (m : Option Nat) : List (Sigma (fun _ : String => GoAny)) :=
  match m with
  | none => []
  | some a => (h.maps a).entries

/-- The run path of the run context at address `p`, read from memory. -/
def Heap.RunPathOf (h : Heap) (p : Nat) : List RunStep :=
  h.sliceElems (h.runCtxs p).RunPath

/-- The run context at address `p` as read through the pointer. -/
def Heap.readRunCtx (h : Heap) (p : Nat) : runContext :=
  { RootInput := (h.runCtxs p).RootInput, RunPath := h.RunPathOf p,
    Session := (h.runCtxs p).Session }

/-! ## Run context and session operations (`runctx.go`) -/

/-- Function `newRunSession`: a new session with a new empty map. -/
def newRunSession (h : Heap) : Heap × Nat :=
  let made := h.makeMap
  let session := sessionOfMap made.2
  ({ made.1 with sessions := upd h.sessions h.nextSession session,
                 nextSession := h.nextSession + 1 },
   h.nextSession)

/-- Method `(rc *runContext) isRoot`: `len(rc.RunPath) == 1`. -/
def runContextCell.isRoot (rc : runContextCell) : Bool :=
  rc.RunPath.len == 1

/-- Method `(rc *runContext) deepCopy`: a new run context with the same `RootInput`
and `Session` and with a `RunPath` made afresh, of the length of the old one, into
which the old one is copied. -/
def runContext.deepCopy (h : Heap) (rc : Nat) : Heap × Nat :=
  let made := h.makeSlice (h.runCtxs rc).RunPath.len
  let copied := made.1.newRunCtx
    { RootInput := (h.runCtxs rc).RootInput, RunPath := made.2,
      Session := (h.runCtxs rc).Session }
  (copied.1.sliceCopy made.2 (h.runCtxs rc).RunPath, copied.2)

/-- Keys of context values: `runCtxKey{}` of `runctx.go`, and the keys of other
packages. -/
inductive ContextKey where
  | runCtxKey
  | other (name : String)
  deriving DecidableEq, Repr

/-- Values held by a context: the untyped nil, a `*runContext` (nil or an address),
or a value of another type. -/
inductive ContextValue where
  | nil
  | runContext (p : Option Nat)
  | other (v : GoAny)
  deriving DecidableEq, Repr

/-- A `context.Context`, as far as its values go: the key/value pairs attached by
`context.WithValue`, the latest first. -/
structure Context where
  values : List (ContextKey × ContextValue)
  deriving DecidableEq, Repr

/-- Go `context.Background()`. -/
def Context.Background : Context := { values := [] }

/-- Go `context.WithValue(ctx, key, val)`. -/
def Context.WithValue (ctx : Context) (key : ContextKey) (val : ContextValue) : Context :=
  { values := (key, val) :: ctx.values }

/-- Go `ctx.Value(key)`: the value attached latest under the key, nil when there is
none. -/
def Context.Value (ctx : Context) (key : ContextKey) : ContextValue :=
  match ctx.values.lookup key with
  | some v => v
  | none => ContextValue.nil

/-- Function `getRunCtx`: the value under `runCtxKey{}` when it is a `*runContext`,
nil otherwise. -/
def getRunCtx (ctx : Context) : Option Nat :=
  match ctx.Value ContextKey.runCtxKey with
  | ContextValue.runContext p => p
  | _ => none

/-- Function `setRunCtx`. -/
def setRunCtx (ctx : Context) (runCtx : Nat) : Context :=
  ctx.WithValue ContextKey.runCtxKey (ContextValue.runContext (some runCtx))

/-- The run context `initRunCtx` starts from: the deep copy of the ambient one, or
`&runContext{Session: newRunSession()}` when there is none. -/
def initRunCtxStart (h : Heap) (ctx : Context) : Heap × Nat :=
  match getRunCtx ctx with
  | some runCtx => runContext.deepCopy h runCtx
  | none =>
    (newRunSession h).1.newRunCtx
      { RootInput := none, RunPath := Slice.nil, Session := some (newRunSession h).2 }

/-- Function `initRunCtx`: from the start run context, append `RunStep{agentName}`
to its `RunPath`, set `RootInput` when it is root, and return the context carrying
it together with it. -/
def initRunCtx (h : Heap) (ctx : Context) (agentName : String) (input : Option AgentInput) :
    Heap × Context × Nat :=
  let start := initRunCtxStart h ctx
  let runCtx := start.2
  let app := start.1.sliceAppend (start.1.runCtxs runCtx).RunPath { agentName := agentName }
  let c1 : runContextCell := { start.1.runCtxs runCtx with RunPath := app.2 }
  let c2 : runContextCell := if c1.isRoot then { c1 with RootInput := input } else c1
  ({ app.1 with runCtxs := upd app.1.runCtxs runCtx c2 }, setRunCtx ctx runCtx, runCtx)

/-- Function `ClearRunCtx`: the untyped nil under `runCtxKey{}`. -/
def ClearRunCtx (ctx : Context) : Context :=
  ctx.WithValue ContextKey.runCtxKey ContextValue.nil

/-- Function `ctxWithNewRunCtx`. -/
def ctxWithNewRunCtx (h : Heap) (ctx : Context) : Heap × Context :=
  let made := (newRunSession h).1.newRunCtx
    { RootInput := none, RunPath := Slice.nil, Session := some (newRunSession h).2 }
  (made.1, setRunCtx ctx made.2)

/-- Function `getSession`: the session of the run context of the context, nil
without a run context. -/
def getSession (h : Heap) (ctx : Context) : Option Nat :=
  match getRunCtx ctx with
  | some runCtx => (h.runCtxs runCtx).Session
  | none => none

/-- Method `(rs *runSession) getValues`: a new map holding a copy of every entry of
the store; the new map is returned. -/
def runSession.getValues (h : Heap) (rs : Nat) : Heap × Nat :=
  ((h.mapRange (h.sessions rs).Values).foldl
      (fun acc e => acc.mapAssign (h.makeMap).2 e.1 e.2) (h.makeMap).1,
   (h.makeMap).2)

/-- Method `(rs *runSession) addValue`: `rs.Values[key] = value`. An assignment to
an entry of the nil map is a run-time panic, the result `none`. -/
def runSession.addValue (h : Heap) (rs : Nat) (key : String) (value : GoAny) : Option Heap :=
  match (h.sessions rs).Values with
  | some m => some (h.mapAssign m key value)
  | none => none

/-- Method `(rs *runSession) addValues`: `rs.Values[k] = v` for every entry of
`kvs`, the map of the caller, which is only read. -/
def runSession.addValues (h : Heap) (rs : Nat) (kvs : GoMap) : Option Heap :=
  kvs.entries.foldl
    (fun acc e =>
      match acc with
      | some h1 => runSession.addValue h1 rs e.1 e.2
      | none => none)
    (some h)

/-- Method `(rs *runSession) getValue`: `value, ok := rs.Values[key]`. -/
def runSession.getValue (h : Heap) (rs : Nat) (key : String) : GoAny × Bool :=
  h.mapIndex (h.sessions rs).Values key

/-- Function `GetSessionValues`: a new empty map without a session. -/
def GetSessionValues (h : Heap) (ctx : Context) : Heap × Nat :=
  match getSession h ctx with
  | none => h.makeMap
  | some session => runSession.getValues h session

/-- Function `AddSessionValue`: nothing without a session. -/
def AddSessionValue (h : Heap) (ctx : Context) (key : String) (value : GoAny) : Option Heap :=
  match getSession h ctx with
  | none => some h
  | some session => runSession.addValue h session key value

/-- Function `AddSessionValues`: nothing without a session. -/
def AddSessionValues (h : Heap) (ctx : Context) (kvs : GoMap) : Option Heap :=
  match getSession h ctx with
  | none => some h
  | some session => runSession.addValues h session kvs

/-- Function `GetSessionValue`: `(nil, false)` without a session. -/
def GetSessionValue (h : Heap) (ctx : Context) (key : String) : GoAny × Bool :=
  match getSession h ctx with
  | none => (GoAny.nil, false)
  | some session => runSession.getValue h session key

/-- Well-formed heap: every allocated run context has a slice within its backing
array, which is allocated unless the slice has capacity 0, and a session pointer
that is nil or allocated; every allocated session has an allocated map, as
`newRunSession` makes it. -/
structure Heap.WF (h : Heap) : Prop where
  slice_len : ∀ p, p < h.nextRunCtx → (h.runCtxs p).RunPath.len ≤ (h.runCtxs p).RunPath.cap
  slice_cap : ∀ p, p < h.nextRunCtx →
    (h.runCtxs p).RunPath.cap ≤ (h.arrays (h.runCtxs p).RunPath.array).length
  slice_arr : ∀ p, p < h.nextRunCtx →
    (h.runCtxs p).RunPath.cap = 0 ∨ (h.runCtxs p).RunPath.array < h.nextArray
  session_valid : ∀ p, p < h.nextRunCtx → ∀ s, (h.runCtxs p).Session = some s →
    s < h.nextSession
  map_valid : ∀ s, s < h.nextSession → ∃ m, (h.sessions s).Values = some m ∧ m < h.nextMap

/-- A write to a map object by its holder: Go `m[key] = value` (adds the key or
overwrites it) or `delete(m, key)`. -/
inductive MapOp where
  | assign (key : String) (value : GoAny)
  | delete (key : String)

/-- The writes `ops`, in order, on the map object at address `m`. -/
def Heap.applyMapOps (h : Heap) (m : Nat) : List MapOp → Heap
  | [] => h
  | MapOp.assign key value :: ops => (h.mapAssign m key value).applyMapOps m ops
  | MapOp.delete key :: ops => (h.mapDelete m key).applyMapOps m ops

/-- The calls `addValue(k, v)` on the session `rs` for the pairs of the list, in
order. -/
def addValueAll (h : Heap) (rs : Nat) : List (Sigma (fun _ : String => GoAny)) → Option Heap
  | [] => some h
  | e :: kvs =>
    match runSession.addValue h rs e.1 e.2 with
    | some h1 => addValueAll h1 rs kvs
    | none => none

/-- A root run: `initRunCtx` on the background context in an empty heap, for the
agent "A" with an input of one user message. -/
def rootRun : Heap × Context × Nat :=
  initRunCtx (Heap.empty (fun cap => cap)) Context.Background "A"
    (some { Messages := [{ Role := RoleType.User, Content := "Test input" }],
            EnableStreaming := false })

/-- The run of a sub-agent "B" inside the root run. -/
def childRun : Heap × Context × Nat :=
  initRunCtx rootRun.1 rootRun.2.1 "B" none

/-- The root run with two values in the store of its session: "user" and "n". -/
def storeRun : Heap :=
  (rootRun.1.mapAssign 0 "user" (GoAny.str "Ann")).mapAssign 0 "n" (GoAny.int 1)

/-- Two runs derived from the same context, first for the agent `a`, then for the
agent `b`: the heap after both, and the two derived contexts. -/
def deriveTwo (h : Heap) (ctx : Context) (a b : String) (ia ib : Option AgentInput) :
    Heap × Context × Context :=
  ((initRunCtx (initRunCtx h ctx a ia).1 ctx b ib).1,
   (initRunCtx h ctx a ia).2.1,
   (initRunCtx (initRunCtx h ctx a ia).1 ctx b ib).2.1)

/-- Method `(rs *runSession) addEvent`: the log gets one more element, a new wrapper
of the event. -/
def runSession.addEvent (h : Heap) (rs : Nat) (event : AgentEvent) : Heap :=
  let logged : runSession :=
    { h.sessions rs with
      Events := (h.sessions rs).Events ++ [{ AgentEvent := event, concatenatedMessage := none }] }
  { h with sessions := upd h.sessions rs logged }

/-- Method `(rs *runSession) getEvents`. -/
def runSession.getEvents (h : Heap) (rs : Nat) : List agentEventWrapper :=
  (h.sessions rs).Events

/-- Method `(rs *runSession) getInterruptRunCtxs`. A Go slice is kept as the list of
its elements, so the nil slice is the empty list. -/
def runSession.getInterruptRunCtxs (h : Heap) (rs : Nat) : List runContext :=
  (h.sessions rs).interruptRunCtxs

/-- Method `(rs *runSession) appendInterruptRunCtx`; the run context behind the
pointer is kept as it reads at the call. -/
def runSession.appendInterruptRunCtx (h : Heap) (rs : Nat) (runCtx : Nat) : Heap :=
  let appended : runSession :=
    { h.sessions rs with
      interruptRunCtxs := (h.sessions rs).interruptRunCtxs ++ [h.readRunCtx runCtx] }
  { h with sessions := upd h.sessions rs appended }

/-- Method `(rs *runSession) replaceInterruptRunCtx` on the session at address `rs`,
with the helper `belongToRunPath` as a parameter. -/
def runSession.replaceInterruptRunCtxAt (belongs : List RunStep → List RunStep → Bool)
    (h : Heap) (rs : Nat) (interruptRunCtx : Nat) : Heap :=
  let replaced : runSession :=
    (h.sessions rs).replaceInterruptRunCtxWith belongs (h.readRunCtx interruptRunCtx)
  { h with sessions := upd h.sessions rs replaced }

/-- Function `getInterruptRunCtxs`: nil without a session. -/
def getInterruptRunCtxs (h : Heap) (ctx : Context) : List runContext :=
  match getSession h ctx with
  | none => []
  | some session => runSession.getInterruptRunCtxs h session

/-- Function `appendInterruptRunCtx`: nothing without a session. -/
def appendInterruptRunCtx (h : Heap) (ctx : Context) (interruptRunCtx : Nat) : Heap :=
  match getSession h ctx with
  | none => h
  | some session => runSession.appendInterruptRunCtx h session interruptRunCtx

/-- Function `replaceInterruptRunCtx`: nothing without a session (helper as
parameter). -/
def replaceInterruptRunCtxWith (belongs : List RunStep → List RunStep → Bool)
    (h : Heap) (ctx : Context) (interruptRunCtx : Nat) : Heap :=
  match getSession h ctx with
  | none => h
  | some session => runSession.replaceInterruptRunCtxAt belongs h session interruptRunCtx

/-- The removal loop of `replaceInterruptRunCtx` with a record of the entries the
helper is asked about, in the order of the calls: the same loop as `replaceLoop`,
returning the record beside the slice. -/
def replaceLoopExamined (belongs : List RunStep → List RunStep → Bool)
    (newPath : List RunStep) (xs : List runContext) (i : Nat) :
    List runContext × List runContext :=
  if h : i < xs.length then
    if belongs newPath (xs.get ⟨i, h⟩).RunPath then
      let r := replaceLoopExamined belongs newPath (xs.take i ++ xs.drop (i + 1)) i
      (r.1, xs.get ⟨i, h⟩ :: r.2)
    else
      let r := replaceLoopExamined belongs newPath xs (i + 1)
      (r.1, xs.get ⟨i, h⟩ :: r.2)
  else (xs, [])
termination_by xs.length - i
decreasing_by
  · simp only [List.length_append, List.length_take, List.length_drop]
    omega
  · omega

/-- What the comment of `replaceInterruptRunCtx` says it does: "remove runctx whose
path belongs to the new run ctx, and append the new run ctx". -/
def replaceSpec (belongs : List RunStep → List RunStep → Bool) (xs : List runContext)
    (n : runContext) : List runContext :=
  xs.filter (fun rc => !belongs n.RunPath rc.RunPath) ++ [n]

/-- One operation of a session: the methods of `runctx.go` that write to it or
hand out its value store. -/
inductive SessionOp where
  | addValue (key : String) (value : GoAny)
  | addValues (kvs : GoMap)
  | getValues
  | appendInterruptRunCtx (runCtx : Nat)
  | replaceInterruptRunCtx (runCtx : Nat)
  | addEvent (event : AgentEvent)

/-- The heap after one operation on the session at address `rs` (`none`: the
operation faults), with the helper of `replaceInterruptRunCtx` as a parameter. -/
def SessionOp.apply (belongs : List RunStep → List RunStep → Bool) (h : Heap) (rs : Nat) :
    SessionOp → Option Heap
  | SessionOp.addValue key value => runSession.addValue h rs key value
  | SessionOp.addValues kvs => runSession.addValues h rs kvs
  | SessionOp.getValues => some (runSession.getValues h rs).1
  | SessionOp.appendInterruptRunCtx runCtx => some (runSession.appendInterruptRunCtx h rs runCtx)
  | SessionOp.replaceInterruptRunCtx runCtx =>
    some (runSession.replaceInterruptRunCtxAt belongs h rs runCtx)
  | SessionOp.addEvent event => some (runSession.addEvent h rs event)

/-- The heap after a sequence of operations on the session at address `rs`. -/
def applySessionOps (belongs : List RunStep → List RunStep → Bool) (rs : Nat) :
    Heap → List SessionOp → Option Heap
  | h, [] => some h
  | h, op :: ops =>
    match op.apply belongs h rs with
    | some h1 => applySessionOps belongs rs h1 ops
    | none => none

/-- The events logged by the operations of a sequence, in order. -/
def loggedEvents : List SessionOp → List agentEventWrapper
  | [] => []
  | SessionOp.addEvent event :: ops =>
    { AgentEvent := event, concatenatedMessage := none } :: loggedEvents ops
  | _ :: ops => loggedEvents ops

/-! ## Event pipe -/

/-- Modelled from the spec: the event pipe (`NewAsyncIteratorPair`, `Send`, `Close`,
`Next`) is not among the source files. A producer is described by the operations it
performs on its generator handle, in order, before it returns. -/
inductive GenOp where
  | send (e : AgentEvent)
  | close

/-- Modelled from the spec: answer of one call of `Next` on the consumer handle: a value, end of stream
(`hasValue = false`), or no answer at all (the producer has returned without
closing, so the call blocks for ever). -/
inductive NextResult where
  | value (e : AgentEvent)
  | done
  | blocked

/-- Modelled from the spec: the answer of call number `k` (from 0) of `Next` on a
pipe whose producer performs `ops`. Values come out in the order sent; once the pipe
is closed and drained every call answers end of stream. -/
def AsyncIterator.Next : List GenOp → Nat → NextResult
  | [], _ => NextResult.blocked
  | GenOp.close :: _, _ => NextResult.done
  | GenOp.send e :: _, 0 => NextResult.value e
  | GenOp.send _ :: ops, k + 1 => AsyncIterator.Next ops k

/-- Modelled from the spec: what a consumer collects by calling `Next` until end of stream: the events sent
before the close, or `none` when the pipe is never closed (the loop never ends). -/
def drain : List GenOp → Option (List AgentEvent)
  | [] => none
  | GenOp.close :: _ => some []
  | GenOp.send e :: ops => (drain ops).map (fun es => e :: es)

/-! ## Agents -/

/-- Modelled from the spec: Resume request `ResumeInfo{EnableStreaming, InterruptInfo}`. -/
structure ResumeInfo where
  EnableStreaming : Bool
  InterruptInfo : InterruptInfo

/-- Modelled from the spec: what a call of `Run` or `Resume` of a sub-agent does: it panics before handing
back a stream, or it hands back a stream that delivers finitely many events and is
then closed. -/
inductive RunOutcome where
  | panics (msg : String)
  | stream (events : List AgentEvent)

/-- Modelled from the spec: the events of an outcome (none for a panic). -/
def RunOutcome.events : RunOutcome → List AgentEvent
  | RunOutcome.panics _ => []
  | RunOutcome.stream es => es

/-- Modelled from the spec: the `Agent` and `ResumableAgent` capabilities
(`Name`, `Description`, `Run`, optional `Resume`). An agent may keep state between
calls, so `Run` also receives the number of iterations of the enclosing workflow
completed so far (0 outside a loop). -/
structure Agent where
  name : String
  description : String
  Run : Nat → Option AgentInput → RunOutcome
  Resume : Option (ResumeInfo → RunOutcome)

/-- The event carries the Exit action. -/
def AgentEvent.hasExit (e : AgentEvent) : Bool :=
  match e.Action with
  | some a => a.Exit
  | none => false

/-- A normal event: no error, and no Exit, Interrupted or BreakLoop action. -/
def AgentEvent.isNormal (e : AgentEvent) : Bool :=
  e.Err.isNone &&
    match e.Action with
    | none => true
    | some a => !a.Exit && a.Interrupted.isNone && a.BreakLoop.isNone

/-- The goroutine of `mockAgent.Run` (workflow_test.go lines 46-57): send the
responses in order and stop after the first one that carries the Exit action. -/
def mockAgentSends : List AgentEvent → List AgentEvent
  | [] => []
  | e :: es => if e.hasExit then [e] else e :: mockAgentSends es

/-- The agent `mockAgent` of workflow_test.go: `Run` ignores its arguments. -/
def newMockAgent (name description : String) (responses : List AgentEvent) : Agent :=
  { name := name, description := description,
    Run := fun _ _ => RunOutcome.stream (mockAgentSends responses),
    Resume := none }

/-- The agent `panicMockAgent` of workflow_test.go: `Run` panics. -/
def panicMockAgent (name description : String) : Agent :=
  { name := name, description := description,
    Run := fun _ _ => RunOutcome.panics "test panic in agent",
    Resume := none }

/-- The agent `mockResumableAgent` of workflow_test.go: `Run` of `mockAgent`, and
a `Resume` that panics. -/
def mockResumableAgent (name description : String) (responses : List AgentEvent) : Agent :=
  { name := name, description := description,
    Run := fun _ _ => RunOutcome.stream (mockAgentSends responses),
    Resume := some (fun _ => RunOutcome.panics "test panic in resume") }

/-- Modelled from the spec: `NewBreakLoopAction(agentName)` is not among the source
files; it builds the BreakLoop action naming the originating agent. -/
def NewBreakLoopAction (agentName : String) : AgentAction :=
  { Exit := false, Interrupted := none,
    BreakLoop := some { From := agentName, Done := false, CurrentIterations := 0 } }

/-- Modelled from the spec: an event with only an error. -/
def errorEvent (msg : String) : AgentEvent :=
  { AgentName := "", Output := none, Action := none, Err := some msg }

/-- Modelled from the spec: the event a recovered panic becomes, "a single Failed
event with a distinguishable panic marker". -/
def panicEvent (msg : String) : AgentEvent :=
  errorEvent ("panic error: " ++ msg)

/-! ## Workflow state machine

Modelled from the spec: `workflow.go` is not among the source files (only its test
file is). The definitions of this section follow section 4.3 and 4.4 of the spec
and the configurations of `workflow_test.go`. -/

/-- Modelled from the spec: mode of a workflow agent: `workflowAgentMode` is an integer type with three
named values; any other value is kept as `other`. -/
inductive workflowAgentMode where
  | Sequential
  | Loop
  | Parallel
  | other (n : Int)

/-- Record `workflowAgent` as built in workflow_test.go, with the loop bound. -/
structure workflowAgent where
  name : String
  description : String
  subAgents : List Agent
  mode : workflowAgentMode
  maxIterations : Nat

/-- Modelled from the spec: how the body of a producer ended: every sub-agent completed, a stop condition
was met (error event, Exit, Interrupted, BreakLoop), or a sub-agent panicked. -/
inductive PassEnd where
  | completed
  | stopped
  | panicked (msg : String)

/-- Modelled from the spec: relay of one sub-agent stream in a sequential pass.
Every event is relayed unchanged until a stop condition: an error event (relayed,
stop), an Exit action (relayed, stop), an Interrupted action (relayed with the
workflow coordinate `wrap` around the nested interrupt info, stop) and, inside a
loop, a BreakLoop action (relayed with Done set and the iteration count, stop).
The flag tells whether a stop condition was met. -/
def relayEvents (wrap : InterruptInfo → InterruptInfo) (inLoop : Bool) (iterations : Nat) :
    List AgentEvent → List AgentEvent × Bool
  | [] => ([], false)
  | e :: es =>
    if e.Err.isSome then ([e], true)
    else
      match e.Action with
      | none => (e :: (relayEvents wrap inLoop iterations es).1,
                 (relayEvents wrap inLoop iterations es).2)
      | some a =>
        if a.Exit then ([e], true)
        else
          match a.Interrupted with
          | some info =>
            ([{ e with Action := some { a with Interrupted := some (wrap info) } }], true)
          | none =>
            match inLoop, a.BreakLoop with
            | true, some b =>
              let b1 : BreakLoopAction := { b with Done := true, CurrentIterations := iterations }
              ([{ e with Action := some { a with BreakLoop := some b1 } }], true)
            | _, _ => (e :: (relayEvents wrap inLoop iterations es).1,
                       (relayEvents wrap inLoop iterations es).2)

/-- Modelled from the spec: call of the active sub-agent: `Resume` with the nested interrupt info when it is
the resumed branch, a fresh `Run` otherwise. A resumed agent without the `Resume`
capability is a protocol error, reported as one error event. -/
def invokeSubAgent (a : Agent) (iterations : Nat) (input : Option AgentInput) :
    Option ResumeInfo → RunOutcome
  | none => a.Run iterations input
  | some info =>
    match a.Resume with
    | some f => f info
    | none => RunOutcome.stream [errorEvent ("agent is not resumable: " ++ a.name)]

/-- Modelled from the spec: the sequential pass over the sub-agents from index
`idx` on. The active sub-agent is invoked and its events relayed; on its clean
completion the pass advances to the next index, and past the last index the pass is
completed. A stop condition ends the pass without running further sub-agents, and
so does a panic of the sub-agent. -/
def runSequentialFrom (inLoop : Bool) (iterations : Nat) (input : Option AgentInput) :
    Nat → Option ResumeInfo → List Agent → List AgentEvent × PassEnd
  | _, _, [] => ([], PassEnd.completed)
  | idx, resume, a :: rest =>
    match invokeSubAgent a iterations input resume with
    | RunOutcome.panics msg => ([], PassEnd.panicked msg)
    | RunOutcome.stream es =>
      let r := relayEvents
        (fun info => InterruptInfo.workflow input idx (some info) iterations [])
        inLoop iterations es
      if r.2 then (r.1, PassEnd.stopped)
      else
        ((r.1 ++ (runSequentialFrom inLoop iterations input (idx + 1) none rest).1),
         (runSequentialFrom inLoop iterations input (idx + 1) none rest).2)

/-- Modelled from the spec: the loop runs one sequential pass per iteration,
`remaining` more times from iteration count `iterations`; the count is incremented
only when a pass completes, and any other end of a pass ends the loop. -/
def runLoopFrom (agents : List Agent) (input : Option AgentInput) :
    Nat → Nat → List AgentEvent × PassEnd
  | 0, _ => ([], PassEnd.completed)
  | remaining + 1, iterations =>
    match runSequentialFrom true iterations input 0 none agents with
    | (out, PassEnd.completed) =>
      (out ++ (runLoopFrom agents input remaining (iterations + 1)).1,
       (runLoopFrom agents input remaining (iterations + 1)).2)
    | r => r

/-- Modelled from the spec: events a parallel branch relays: the events before its first Interrupted
action. -/
def branchRelayed : List AgentEvent → List AgentEvent
  | [] => []
  | e :: es =>
    match e.Action.bind (fun a => a.Interrupted) with
    | some _ => []
    | none => e :: branchRelayed es

/-- Modelled from the spec: interrupt info of a parallel branch: that of its first Interrupted action. -/
def branchInterrupt : List AgentEvent → Option InterruptInfo
  | [] => none
  | e :: es =>
    match e.Action.bind (fun a => a.Interrupted) with
    | some info => some info
    | none => branchInterrupt es

/-- Modelled from the spec: stream of one parallel branch producer: the events of the sub-agent, or the one
panic event its recovery boundary sends. -/
def branchStream (a : Agent) (input : Option AgentInput) (resume : Option ResumeInfo) :
    List AgentEvent :=
  match invokeSubAgent a 0 input resume with
  | RunOutcome.panics msg => [panicEvent msg]
  | RunOutcome.stream es => es

/-- Modelled from the spec: the fan-in stage. The schedule names, step by step, the
branch whose next event arrives first; a step naming a branch with nothing left is
skipped, and when the schedule is used up the remaining branches are drained in
branch order. The schedule stands for the arrival order, which the spec leaves
open. -/
def fanIn : List Nat → List (List AgentEvent) → List AgentEvent
  | [], branches => branches.flatten
  | i :: sched, branches =>
    match branches.get? i with
    | some (e :: es) => e :: fanIn sched (branches.set i es)
    | _ => fanIn sched branches

/-- Modelled from the spec: pairs (branch index, interrupt info) of the branches that interrupted. -/
def parallelInterrupts : Nat → List (List AgentEvent) → List (Nat × InterruptInfo)
  | _, [] => []
  | i, b :: bs =>
    match branchInterrupt b with
    | some info => (i, info) :: parallelInterrupts (i + 1) bs
    | none => parallelInterrupts (i + 1) bs

/-- Modelled from the spec: the parallel mode over the branch streams. All
branches are drained through the fan-in; once all have ended, one Interrupted event
with the recorded branch coordinates is sent if some branch interrupted. -/
def runParallelStreams (name : String) (input : Option AgentInput) (sched : List Nat)
    (streams : List (List AgentEvent)) : List AgentEvent × PassEnd :=
  match parallelInterrupts 0 streams with
  | [] => (fanIn sched (streams.map branchRelayed), PassEnd.completed)
  | ints =>
    let act : AgentAction :=
      { Exit := false, BreakLoop := none,
        Interrupted := some (InterruptInfo.workflow input 0 none 0 ints) }
    (fanIn sched (streams.map branchRelayed) ++
      [{ AgentName := name, Output := none, Err := none, Action := some act }],
     PassEnd.stopped)

/-- Modelled from the spec: parallel mode of a fresh run: one branch per sub-agent. -/
def runParallel (name : String) (agents : List Agent) (input : Option AgentInput)
    (sched : List Nat) : List AgentEvent × PassEnd :=
  runParallelStreams name input sched (agents.map (fun a => branchStream a input none))

/-- Modelled from the spec: the recovery boundary of a producer entry point. The
events of the body are sent; a panic becomes one more event, the panic event; the
stream is then closed on every path. -/
def recoverBoundary (r : List AgentEvent × PassEnd) : List GenOp :=
  r.1.map GenOp.send ++
    (match r.2 with
     | PassEnd.panicked msg => [GenOp.send (panicEvent msg)]
     | _ => []) ++ [GenOp.close]

/-- Modelled from the spec: body of `Run`: dispatch on the mode. -/
def workflowAgent.runBody (a : workflowAgent) (sched : List Nat) (input : Option AgentInput) :
    List AgentEvent × PassEnd :=
  match a.mode with
  | workflowAgentMode.Sequential => runSequentialFrom false 0 input 0 none a.subAgents
  | workflowAgentMode.Loop => runLoopFrom a.subAgents input a.maxIterations 0
  | workflowAgentMode.Parallel => runParallel a.name a.subAgents input sched
  | workflowAgentMode.other n =>
    ([errorEvent ("unsupported workflow agent mode: " ++ toString n)], PassEnd.stopped)

/-- Modelled from the spec: `workflowAgent.Run`, as the operations its producer
performs on the event pipe. `sched` is the arrival order of parallel branches. -/
def workflowAgent.Run (a : workflowAgent) (sched : List Nat) (input : Option AgentInput) :
    List GenOp :=
  recoverBoundary (a.runBody sched input)

/-- Modelled from the spec: Go type name of the coordinate record expected by `Resume`. -/
def expectedInterruptType : String := "*adk.WorkflowInterruptInfo"

/-- Modelled from the spec: body of `Resume` once the coordinate record is at hand. Sequential: re-enter at
the recorded index, the sub-agent there is resumed with its nested info. Loop: the
same for the interrupted pass, then the remaining iterations. Parallel: only the
branches recorded as interrupted are restarted, through their `Resume`. -/
def workflowAgent.resumeBody (a : workflowAgent) (sched : List Nat) (streaming : Bool)
    (origInput : Option AgentInput) (idx : Nat) (nested : Option InterruptInfo)
    (loopIterations : Nat) (parallel : List (Nat × InterruptInfo)) :
    List AgentEvent × PassEnd :=
  match a.mode with
  | workflowAgentMode.Sequential =>
    match nested with
    | none => ([errorEvent "sequential interrupt info is missing"], PassEnd.stopped)
    | some info =>
      runSequentialFrom false 0 origInput idx
        (some { EnableStreaming := streaming, InterruptInfo := info }) (a.subAgents.drop idx)
  | workflowAgentMode.Loop =>
    match nested with
    | none => ([errorEvent "sequential interrupt info is missing"], PassEnd.stopped)
    | some info =>
      match runSequentialFrom true loopIterations origInput idx
          (some { EnableStreaming := streaming, InterruptInfo := info })
          (a.subAgents.drop idx) with
      | (out, PassEnd.completed) =>
        (out ++ (runLoopFrom a.subAgents origInput
            (a.maxIterations - (loopIterations + 1)) (loopIterations + 1)).1,
         (runLoopFrom a.subAgents origInput
            (a.maxIterations - (loopIterations + 1)) (loopIterations + 1)).2)
      | r => r
  | workflowAgentMode.Parallel =>
    runParallelStreams a.name origInput sched
      (parallel.filterMap (fun p =>
        (a.subAgents.get? p.1).map (fun sub =>
          branchStream sub origInput
            (some { EnableStreaming := streaming, InterruptInfo := p.2 }))))
  | workflowAgentMode.other n =>
    ([errorEvent ("unsupported workflow agent mode: " ++ toString n)], PassEnd.stopped)

/-- Modelled from the spec: `workflowAgent.Resume`. When `Data` is not the
coordinate record the producer sends one error event naming the expected and the
actual type and closes; otherwise the body runs inside the recovery boundary. -/
def workflowAgent.Resume (a : workflowAgent) (sched : List Nat) (info : ResumeInfo) :
    List GenOp :=
  match info.InterruptInfo with
  | InterruptInfo.data goType =>
    [GenOp.send (errorEvent ("type of InterruptInfo.Data is expected to " ++
        expectedInterruptType ++ ", actual: " ++ goType)), GenOp.close]
  | InterruptInfo.workflow origInput idx nested loopIterations parallel =>
    recoverBoundary
      (a.resumeBody sched info.EnableStreaming origInput idx nested loopIterations parallel)

/-- Configuration records of the three constructors (workflow_test.go). -/
structure SequentialAgentConfig where
  Name : String
  Description : String
  SubAgents : List Agent

/-- Configuration of a parallel workflow agent. -/
structure ParallelAgentConfig where
  Name : String
  Description : String
  SubAgents : List Agent

/-- Configuration of a loop workflow agent. -/
structure LoopAgentConfig where
  Name : String
  Description : String
  SubAgents : List Agent
  MaxIterations : Nat

/-- Modelled from the spec: constructor `NewSequentialAgent`. -/
def NewSequentialAgent (config : SequentialAgentConfig) : workflowAgent :=
  { name := config.Name, description := config.Description, subAgents := config.SubAgents,
    mode := workflowAgentMode.Sequential, maxIterations := 0 }

/-- Modelled from the spec: constructor `NewParallelAgent`. -/
def NewParallelAgent (config : ParallelAgentConfig) : workflowAgent :=
  { name := config.Name, description := config.Description, subAgents := config.SubAgents,
    mode := workflowAgentMode.Parallel, maxIterations := 0 }

/-- Modelled from the spec: constructor `NewLoopAgent`. -/
def NewLoopAgent (config : LoopAgentConfig) : workflowAgent :=
  { name := config.Name, description := config.Description, subAgents := config.SubAgents,
    mode := workflowAgentMode.Loop, maxIterations := config.MaxIterations }

/-- The outcome is a stream of normal events only (in particular not a panic). -/
def RunOutcome.isNormal : RunOutcome → Bool
  | RunOutcome.panics _ => false
  | RunOutcome.stream es => es.all AgentEvent.isNormal

/-- Events of one sequential pass in which every sub-agent is run afresh with
iteration count `k`: the concatenation of the streams in sub-agent order. -/
def passEvents (agents : List Agent) (k : Nat) (input : Option AgentInput) : List AgentEvent :=
  agents.flatMap (fun a => (a.Run k input).events)

/-- Event of workflow_test.go: a message `content` from agent `agentName`, with an
optional action. -/
def testEvent (agentName content : String) (action : Option AgentAction) : AgentEvent :=
  { AgentName := agentName,
    Output := some
      { MessageOutput := some
          { IsStreaming := false,
            Message := some { Role := RoleType.Assistant, Content := content },
            Role := RoleType.Assistant },
        CustomizedOutput := GoAny.nil },
    Action := action,
    Err := none }

/-- The Exit action of TestSequentialAgentWithExit. -/
def exitAction : AgentAction :=
  { Exit := true, Interrupted := none, BreakLoop := none }

/-- Events of the loop iterations `k0, k0 + 1, ..., k0 + n - 1` when every pass
runs all sub-agents: the passes one after the other. -/
def loopEvents (agents : List Agent) (input : Option AgentInput) : Nat → Nat → List AgentEvent
  | 0, _ => []
  | n + 1, k0 => passEvents agents k0 input ++ loopEvents agents input n (k0 + 1)

/-- The event `x` as a loop forwards it when it breaks the loop after `iterations`
completed iterations: Done is set and the iteration count recorded, the rest of the
event (its originating agent in `From` included) is unchanged. -/
def breakLoopForwarded (x : AgentEvent) (act : AgentAction) (b : BreakLoopAction)
    (iterations : Nat) : AgentEvent :=
  let b1 : BreakLoopAction := { b with Done := true, CurrentIterations := iterations }
  { x with Action := some { act with BreakLoop := some b1 } }

/-! ## Generic serializer

Modelled from the spec: package `internal/serialization` is not among the source
files (only `serialization_test.go` is). The definitions of this section follow
section 4.5 of the spec; the hooks and the registrations are those of the test
file. -/

/-- Modelled from the spec: Go types of the values the serializer handles. `named` is a struct type given by
its name, `any` an interface type. -/
inductive GoType where
  | int
  | int32
  | int64
  | string
  | bool
  | named (name : String)
  | ptr (elem : GoType)
  | any
  | slice (elem : GoType)
  | map (key val : GoType)
  deriving DecidableEq, Repr

/-- Modelled from the spec: Go values, each carrying what is needed to know its type; a struct holds its
exported fields in declaration order, a map its entries as a list. -/
inductive GoValue where
  | int (t : GoType) (n : Int)
  | str (s : String)
  | bool (b : Bool)
  | struct (name : String) (fields : List (String × GoValue))
  | nil (t : GoType)
  | ptr (v : GoValue)
  | iface (v : GoValue)
  | slice (elem : GoType) (vs : List GoValue)
  | map (key val : GoType) (kvs : List (GoValue × GoValue))

/-- Modelled from the spec: type of a value (`reflect.TypeOf`). -/
def GoValue.typeOf : GoValue → GoType
  | GoValue.int t _ => t
  | GoValue.str _ => GoType.string
  | GoValue.bool _ => GoType.bool
  | GoValue.struct name _ => GoType.named name
  | GoValue.nil t => t
  | GoValue.ptr v => GoType.ptr v.typeOf
  | GoValue.iface _ => GoType.any
  | GoValue.slice elem _ => GoType.slice elem
  | GoValue.map key val _ => GoType.map key val

/-- Modelled from the spec: the encoded form of a value. The spec calls the encoding
opaque, so it is kept as a tree rather than as bytes: every node carries its type,
an interface value carries "an explicit dynamic-type tag", and a value of a type
with custom hooks is the output of its encode hook. -/
inductive Payload where
  | int (t : GoType) (n : Int)
  | str (s : String)
  | bool (b : Bool)
  | hooked (name : String) (bytes : String)
  | struct (name : String) (fields : List (String × Payload))
  | nil (t : GoType)
  | ptr (p : Payload)
  | iface (tag : GoType) (p : Payload)
  | slice (elem : GoType) (ps : List Payload)
  | map (key val : GoType) (kvs : List (Payload × Payload))

/-- Modelled from the spec: custom encode and decode hooks of a type (`MarshalJSON` on the value,
`UnmarshalJSON` into a fresh value), on the fields of the struct. -/
structure Hooks where
  MarshalJSON : List (String × GoValue) → String
  UnmarshalJSON : String → List (String × GoValue)

/-- Modelled from the spec: the registry (the names registered with
`GenericRegister`) and the types that define custom hooks. -/
structure TypeEnv where
  registered : List String
  hooks : String → Option Hooks

/-- Modelled from the spec: the concrete type can be recovered behind an interface: its struct types are
registered. -/
def GoType.isRegistered (env : TypeEnv) : GoType → Bool
  | GoType.named name => env.registered.contains name
  | GoType.ptr elem => elem.isRegistered env
  | GoType.slice elem => elem.isRegistered env
  | GoType.map key val => key.isRegistered env && val.isRegistered env
  | _ => true

mutual
/-- Modelled from the spec: encoding of a value. Hooks "take precedence over
default field-by-field traversal"; a concrete type that is not registered fails
when reached through an interface. -/
def marshalValue (env : TypeEnv) : GoValue → Except String Payload
  | GoValue.int t n => Except.ok (Payload.int t n)
  | GoValue.str s => Except.ok (Payload.str s)
  | GoValue.bool b => Except.ok (Payload.bool b)
  | GoValue.struct name fields =>
    match env.hooks name with
    | some h => Except.ok (Payload.hooked name (h.MarshalJSON fields))
    | none =>
      match marshalFields env fields with
      | Except.ok ps => Except.ok (Payload.struct name ps)
      | Except.error e => Except.error e
  | GoValue.nil t => Except.ok (Payload.nil t)
  | GoValue.ptr v =>
    match marshalValue env v with
    | Except.ok p => Except.ok (Payload.ptr p)
    | Except.error e => Except.error e
  | GoValue.iface v =>
    if v.typeOf.isRegistered env then
      match marshalValue env v with
      | Except.ok p => Except.ok (Payload.iface v.typeOf p)
      | Except.error e => Except.error e
    else Except.error "unknown type"
  | GoValue.slice elem vs =>
    match marshalList env vs with
    | Except.ok ps => Except.ok (Payload.slice elem ps)
    | Except.error e => Except.error e
  | GoValue.map key val kvs =>
    match marshalPairs env kvs with
    | Except.ok ps => Except.ok (Payload.map key val ps)
    | Except.error e => Except.error e
/-- Modelled from the spec: encoding of the exported fields of a struct, in order. -/
def marshalFields (env : TypeEnv) : List (String × GoValue) → Except String (List (String × Payload))
  | [] => Except.ok []
  | (n, v) :: fs =>
    match marshalValue env v with
    | Except.ok p =>
      match marshalFields env fs with
      | Except.ok ps => Except.ok ((n, p) :: ps)
      | Except.error e => Except.error e
    | Except.error e => Except.error e
/-- Modelled from the spec: encoding of the elements of a slice. -/
def marshalList (env : TypeEnv) : List GoValue → Except String (List Payload)
  | [] => Except.ok []
  | v :: vs =>
    match marshalValue env v with
    | Except.ok p =>
      match marshalList env vs with
      | Except.ok ps => Except.ok (p :: ps)
      | Except.error e => Except.error e
    | Except.error e => Except.error e
/-- Modelled from the spec: encoding of the entries of a map. -/
def marshalPairs (env : TypeEnv) : List (GoValue × GoValue) → Except String (List (Payload × Payload))
  | [] => Except.ok []
  | (k, v) :: kvs =>
    match marshalValue env k with
    | Except.ok pk =>
      match marshalValue env v with
      | Except.ok pv =>
        match marshalPairs env kvs with
        | Except.ok ps => Except.ok ((pk, pv) :: ps)
        | Except.error e => Except.error e
      | Except.error e => Except.error e
    | Except.error e => Except.error e
end

mutual
/-- Modelled from the spec: decoding of an encoded value; the dynamic-type tag of an
interface value is looked up in the registry and a hooked payload goes through the
decode hook of its type. -/
def unmarshalValue (env : TypeEnv) : Payload → Except String GoValue
  | Payload.int t n => Except.ok (GoValue.int t n)
  | Payload.str s => Except.ok (GoValue.str s)
  | Payload.bool b => Except.ok (GoValue.bool b)
  | Payload.hooked name bytes =>
    match env.hooks name with
    | some h => Except.ok (GoValue.struct name (h.UnmarshalJSON bytes))
    | none => Except.error ("no decode hook for type " ++ name)
  | Payload.struct name fields =>
    match unmarshalFields env fields with
    | Except.ok vs => Except.ok (GoValue.struct name vs)
    | Except.error e => Except.error e
  | Payload.nil t => Except.ok (GoValue.nil t)
  | Payload.ptr p =>
    match unmarshalValue env p with
    | Except.ok v => Except.ok (GoValue.ptr v)
    | Except.error e => Except.error e
  | Payload.iface tag p =>
    if tag.isRegistered env then
      match unmarshalValue env p with
      | Except.ok v => Except.ok (GoValue.iface v)
      | Except.error e => Except.error e
    else Except.error "unknown type"
  | Payload.slice elem ps =>
    match unmarshalList env ps with
    | Except.ok vs => Except.ok (GoValue.slice elem vs)
    | Except.error e => Except.error e
  | Payload.map key val kvs =>
    match unmarshalPairs env kvs with
    | Except.ok vs => Except.ok (GoValue.map key val vs)
    | Except.error e => Except.error e
/-- Modelled from the spec: decoding of the fields of a struct. -/
def unmarshalFields (env : TypeEnv) :
    List (String × Payload) → Except String (List (String × GoValue))
  | [] => Except.ok []
  | (n, p) :: fs =>
    match unmarshalValue env p with
    | Except.ok v =>
      match unmarshalFields env fs with
      | Except.ok vs => Except.ok ((n, v) :: vs)
      | Except.error e => Except.error e
    | Except.error e => Except.error e
/-- Modelled from the spec: decoding of the elements of a slice. -/
def unmarshalList (env : TypeEnv) : List Payload → Except String (List GoValue)
  | [] => Except.ok []
  | p :: ps =>
    match unmarshalValue env p with
    | Except.ok v =>
      match unmarshalList env ps with
      | Except.ok vs => Except.ok (v :: vs)
      | Except.error e => Except.error e
    | Except.error e => Except.error e
/-- Modelled from the spec: decoding of the entries of a map. -/
def unmarshalPairs (env : TypeEnv) :
    List (Payload × Payload) → Except String (List (GoValue × GoValue))
  | [] => Except.ok []
  | (pk, pv) :: kvs =>
    match unmarshalValue env pk with
    | Except.ok k =>
      match unmarshalValue env pv with
      | Except.ok v =>
        match unmarshalPairs env kvs with
        | Except.ok vs => Except.ok ((k, v) :: vs)
        | Except.error e => Except.error e
      | Except.error e => Except.error e
    | Except.error e => Except.error e
end

/-- Modelled from the spec: width of an integer kind (`int` taken as 64 bits). -/
def GoType.intBits : GoType → Option Nat
  | GoType.int => some 64
  | GoType.int32 => some 32
  | GoType.int64 => some 64
  | _ => none

/-- Modelled from the spec: two's-complement wrap of an integer to the given width. -/
def wrapInt (bits : Nat) (n : Int) : Int :=
  (n + 2 ^ (bits - 1)) % 2 ^ bits - 2 ^ (bits - 1)

/-- Modelled from the spec: conversion between convertible scalar kinds (the integer kinds). -/
def convertScalar (v : GoValue) (t : GoType) : Option GoValue :=
  match v, t.intBits with
  | GoValue.int _ n, some bits => some (GoValue.int t (wrapInt bits n))
  | _, _ => none

/-- Modelled from the spec: assignment of a decoded value to a destination type,
allocating "through nested pointer indirection as needed", wrapping into an
interface, converting between convertible scalar kinds, and failing with
"cannot assign" otherwise. -/
def assignAlloc (v : GoValue) : GoType → Except String GoValue
  | GoType.ptr elem =>
    if v.typeOf = GoType.ptr elem then Except.ok v
    else
      match assignAlloc v elem with
      | Except.ok w => Except.ok (GoValue.ptr w)
      | Except.error e => Except.error e
  | GoType.any =>
    if v.typeOf = GoType.any then Except.ok v else Except.ok (GoValue.iface v)
  | t =>
    if v.typeOf = t then Except.ok v
    else
      match convertScalar v t with
      | some w => Except.ok w
      | none => Except.error "cannot assign"

/-- Modelled from the spec: assignment of a decoded value to the destination's element type: a pointer whose
type does not fit a non-pointer destination is dereferenced first. -/
def assignValue : GoValue → GoType → Except String GoValue
  | GoValue.ptr w, t =>
    if (GoValue.ptr w).typeOf = t then Except.ok (GoValue.ptr w)
    else
      match t with
      | GoType.ptr _ => assignAlloc (GoValue.ptr w) t
      | GoType.any => assignAlloc (GoValue.ptr w) t
      | _ => assignValue w t
  | v, t => assignAlloc v t

/-- Modelled from the spec: destination argument of `Unmarshal`: not a pointer, a nil pointer, or a
non-nil pointer to a variable of type `elem`. -/
inductive Destination where
  | notPointer (t : GoType)
  | nilPointer (elem : GoType)
  | pointer (elem : GoType)

/-- Modelled from the spec: `InternalSerializer.Marshal` (the serializer is not
among the source files, only its test file is). -/
def InternalSerializer.Marshal (env : TypeEnv) (v : GoValue) : Except String Payload :=
  marshalValue env v

/-- Modelled from the spec: `InternalSerializer.Unmarshal`; the result is the value
stored in the destination. It "requires a non-nil pointer destination". -/
def InternalSerializer.Unmarshal (env : TypeEnv) (data : Payload) :
    Destination → Except String GoValue
  | Destination.notPointer _ => Except.error "value must be a non-nil pointer"
  | Destination.nilPointer _ => Except.error "value must be a non-nil pointer"
  | Destination.pointer elem =>
    match unmarshalValue env data with
    | Except.ok v => assignValue v elem
    | Except.error e => Except.error e

mutual
/-- The values the encoding of the model succeeds on: every concrete type reached
through an interface is registered (fields of a value with custom hooks are not
traversed). The registry is not consulted for a struct that is not behind an
interface. -/
def GoValue.encodable (env : TypeEnv) : GoValue → Bool
  | GoValue.struct name fields =>
    match env.hooks name with
    | some _ => true
    | none => encodableFields env fields
  | GoValue.ptr v => v.encodable env
  | GoValue.iface v => v.typeOf.isRegistered env && v.encodable env
  | GoValue.slice _ vs => encodableList env vs
  | GoValue.map _ _ kvs => encodablePairs env kvs
  | _ => true
/-- Encodable, for the fields of a struct. -/
def encodableFields (env : TypeEnv) : List (String × GoValue) → Bool
  | [] => true
  | (_, v) :: fs => v.encodable env && encodableFields env fs
/-- Encodable, for the elements of a slice. -/
def encodableList (env : TypeEnv) : List GoValue → Bool
  | [] => true
  | v :: vs => v.encodable env && encodableList env vs
/-- Encodable, for the entries of a map. -/
def encodablePairs (env : TypeEnv) : List (GoValue × GoValue) → Bool
  | [] => true
  | (k, v) :: kvs => k.encodable env && v.encodable env && encodablePairs env kvs
end

mutual
/-- Modelled from the spec: the supported shapes of the round-trip property,
"scalars, registered structs, pointers/pointer-to-pointer, interfaces, struct-keyed
maps, slices of interfaces, custom-hook types". A struct value is of a custom-hook
type, or of a registered type and its fields are of supported shape; the concrete
type behind an interface is registered; a pointer, a slice and a map hold values of
supported shape. -/
def GoValue.supported (env : TypeEnv) : GoValue → Bool
  | GoValue.struct name fields =>
    match env.hooks name with
    | some _ => true
    | none => env.registered.contains name && supportedFields env fields
  | GoValue.ptr v => v.supported env
  | GoValue.iface v => v.typeOf.isRegistered env && v.supported env
  | GoValue.slice _ vs => supportedList env vs
  | GoValue.map _ _ kvs => supportedPairs env kvs
  | _ => true
/-- Modelled from the spec: supported shape, for the fields of a struct. -/
def supportedFields (env : TypeEnv) : List (String × GoValue) → Bool
  | [] => true
  | (_, v) :: fs => v.supported env && supportedFields env fs
/-- Modelled from the spec: supported shape, for the elements of a slice. -/
def supportedList (env : TypeEnv) : List GoValue → Bool
  | [] => true
  | v :: vs => v.supported env && supportedList env vs
/-- Modelled from the spec: supported shape, for the entries of a map. -/
def supportedPairs (env : TypeEnv) : List (GoValue × GoValue) → Bool
  | [] => true
  | (k, v) :: kvs => k.supported env && v.supported env && supportedPairs env kvs
end

mutual
/-- The value with every value of a custom-hook type replaced by what its decode
hook makes of the output of its encode hook. -/
def GoValue.throughHooks (env : TypeEnv) : GoValue → GoValue
  | GoValue.struct name fields =>
    match env.hooks name with
    | some h => GoValue.struct name (h.UnmarshalJSON (h.MarshalJSON fields))
    | none => GoValue.struct name (throughHooksFields env fields)
  | GoValue.ptr v => GoValue.ptr (v.throughHooks env)
  | GoValue.iface v => GoValue.iface (v.throughHooks env)
  | GoValue.slice elem vs => GoValue.slice elem (throughHooksList env vs)
  | GoValue.map key val kvs => GoValue.map key val (throughHooksPairs env kvs)
  | v => v
/-- Hook replacement in the fields of a struct. -/
def throughHooksFields (env : TypeEnv) : List (String × GoValue) → List (String × GoValue)
  | [] => []
  | (n, v) :: fs => (n, v.throughHooks env) :: throughHooksFields env fs
/-- Hook replacement in the elements of a slice. -/
def throughHooksList (env : TypeEnv) : List GoValue → List GoValue
  | [] => []
  | v :: vs => v.throughHooks env :: throughHooksList env vs
/-- Hook replacement in the entries of a map. -/
def throughHooksPairs (env : TypeEnv) : List (GoValue × GoValue) → List (GoValue × GoValue)
  | [] => []
  | (k, v) :: kvs => (k.throughHooks env, v.throughHooks env) :: throughHooksPairs env kvs
end

/-- Hooks of `myStruct4` (serialization_test.go lines 60-67): `MarshalJSON` gives the
bytes of `FieldA`, `UnmarshalJSON` sets `FieldA` to the bytes. -/
def myStruct4Hooks : Hooks :=
  { MarshalJSON := fun fields =>
      match fields with
      | [(_, GoValue.str s)] => s
      | _ => "",
    UnmarshalJSON := fun bytes => [("FieldA", GoValue.str bytes)] }

/-- Hooks of `myStruct5` (serialization_test.go lines 174-181): `MarshalJSON` gives
"1", `UnmarshalJSON` sets `FieldA` to "FieldA". -/
def myStruct5Hooks : Hooks :=
  { MarshalJSON := fun _ => "1",
    UnmarshalJSON := fun _ => [("FieldA", GoValue.str "FieldA")] }

/-- Registry and hook types of serialization_test.go. -/
def testEnv : TypeEnv :=
  { registered := ["myStruct", "myStruct2", "myInterface", "myStruct5", "unmarshalTestStruct"],
    hooks := fun name =>
      if name = "myStruct4" then some myStruct4Hooks
      else if name = "myStruct5" then some myStruct5Hooks
      else none }

mutual
/-- Every value of a custom-hook type inside the value is reproduced by its decode
hook from the output of its encode hook. -/
def GoValue.hooksInvert (env : TypeEnv) : GoValue → Prop
  | GoValue.struct name fields =>
    match env.hooks name with
    | some h => h.UnmarshalJSON (h.MarshalJSON fields) = fields
    | none => hooksInvertFields env fields
  | GoValue.ptr v => v.hooksInvert env
  | GoValue.iface v => v.hooksInvert env
  | GoValue.slice _ vs => hooksInvertList env vs
  | GoValue.map _ _ kvs => hooksInvertPairs env kvs
  | _ => True
/-- Hook inversion, for the fields of a struct. -/
def hooksInvertFields (env : TypeEnv) : List (String × GoValue) → Prop
  | [] => True
  | (_, v) :: fs => v.hooksInvert env ∧ hooksInvertFields env fs
/-- Hook inversion, for the elements of a slice. -/
def hooksInvertList (env : TypeEnv) : List GoValue → Prop
  | [] => True
  | v :: vs => v.hooksInvert env ∧ hooksInvertList env vs
/-- Hook inversion, for the entries of a map. -/
def hooksInvertPairs (env : TypeEnv) : List (GoValue × GoValue) → Prop
  | [] => True
  | (k, v) :: kvs => k.hooksInvert env ∧ v.hooksInvert env ∧ hooksInvertPairs env kvs
end

/-- The value `myStruct5{FieldA: "1"}` of TestMarshalStruct. -/
def myStruct5Value : GoValue :=
  GoValue.struct "myStruct5" [("FieldA", GoValue.str "1")]

/-- A value in the shape of the `myStruct2` value of TestSerialization, with the
fields whose struct types are registered or have custom hooks: interface fields, a
slice of interfaces, a struct-keyed map, a nil pointer and structs with custom hooks
(`myStruct4`). The fields of the type `myStruct3`, which the test never registers,
are left out. -/
def myStruct2Value : GoValue :=
  GoValue.struct "myStruct2"
    [("A", GoValue.iface (GoValue.str "123")),
     ("B", GoValue.iface (GoValue.ptr (GoValue.struct "myStruct" [("A", GoValue.str "test")]))),
     ("D", GoValue.map (GoType.named "myStruct") GoType.any
        [(GoValue.struct "myStruct" [("A", GoValue.str "a")],
          GoValue.iface (GoValue.int GoType.int 1))]),
     ("E", GoValue.slice GoType.any
        [GoValue.iface (GoValue.int GoType.int 1), GoValue.iface (GoValue.str "2"),
         GoValue.nil GoType.any]),
     ("H", GoValue.nil (GoType.ptr (GoType.named "myStruct4"))),
     ("K", GoValue.struct "myStruct4" [("FieldA", GoValue.str "1")]),
     ("L", GoValue.slice (GoType.ptr (GoType.named "myStruct4"))
        [GoValue.ptr (GoValue.struct "myStruct4" [("FieldA", GoValue.str "2")])])]

/-- The value `map[string]any` of TestMarshalStruct, in general: under every key of
`entries` a value of the struct type `name` with the given fields, held in the
interface-typed map value. -/
def hookedMapValue (name : String) (entries : List (String × List (String × GoValue))) :
    GoValue :=
  GoValue.map GoType.string GoType.any
    (entries.map (fun e => (GoValue.str e.1, GoValue.iface (GoValue.struct name e.2))))

/-- Modelled from the spec: assignability of Go types (`reflect.Type.AssignableTo`)
on the types of the model: the types are identical, or the target is the empty
interface, which every type implements. -/
def GoType.assignableTo (s t : GoType) : Bool :=
  decide (s = t) || decide (t = GoType.any)

/-- Modelled from the spec: convertibility of Go types on the types of the model:
the source is assignable to the target, or both are integer kinds ("convertible
scalar kinds"). -/
def GoType.convertibleTo (s t : GoType) : Bool :=
  s.assignableTo t || (s.intBits.isSome && t.intBits.isSome)

/-- The type is a pointer type. -/
def GoType.isPtr : GoType → Bool
  | GoType.ptr _ => true
  | _ => false

/-- The type without its leading pointer levels. -/
def GoType.stripPtr : GoType → GoType
  | GoType.ptr elem => elem.stripPtr
  | t => t

/-- The value `v` behind as many freshly allocated pointers as the type `t` has
leading pointer levels. -/
def allocThrough : GoType → GoValue → GoValue
  | GoType.ptr elem, v => GoValue.ptr (allocThrough elem v)
  | _, v => v

/-- An integer value carries an integer kind as its type. -/
def GoValue.kindOk : GoValue → Bool
  | GoValue.int t _ => t.intBits.isSome
  | _ => true

/-! ## Agent tool (`agent_tool.go`) -/

/-- What a call of a Go function does: it returns a value, or it ends in a run-time
panic. -/
inductive GoResult (α : Type) where
  | returns (v : α)
  | panics (msg : String)

/-- Record `agentToolInterruptInfo` kept in the state for an interrupted tool call:
the last event and the checkpoint bytes. -/
structure agentToolInterruptInfo where
  LastEvent : Option AgentEvent
  Data : String

/-- The fields of the state (`State`, declared in a file that is not among the
sources) that `agent_tool.go` reads and writes; the map from tool call id to
interrupt data is kept as an association list. -/
structure State where
  Messages : List Message
  AgentName : String
  AgentToolInterruptData : List (String × agentToolInterruptInfo)

/-- An option of an agent run (`AgentRunOption`, declared elsewhere), kept by a
label. -/
structure AgentRunOption where
  label : String
  deriving DecidableEq, Repr

/-- A tool option (`tool.Option`): one made by `withAgentToolOptions`, wrapping an
`agentToolOptions{agentName, opts}`, or an option of another implementation. -/
inductive toolOption where
  | agentToolOptions (agentName : String) (opts : List AgentRunOption)
  | other

/-- What a run of the runner of `newInvokableAgentToolRunner(agent, ms)` leaves: the
events its stream delivers before it is closed, and what `ms.Get(ctx,
mockCheckPointID)` answers afterwards (the data and whether it existed, or an
error). -/
structure RunnerOutcome where
  events : List AgentEvent
  stored : Except String (Option String)

/-- The functions `agent_tool.go` calls that are declared in files that are not
among the sources, as parameters: the JSON decoder on the default request schema
(`sonic.UnmarshalString` into `request{Request}`), `Runner.Run` and `Runner.Resume`
of the tool's runner, `schema.ConcatMessageStream`, `GenTransferMessages`,
`rewriteMessage`, and the error `compose.ProcessState` returns for a context
without state. -/
structure ToolDeps where
  UnmarshalRequest : String → Except String String
  RunnerRun : Agent → List Message → List AgentRunOption → RunnerOutcome
  RunnerResume : Agent → String → List AgentRunOption → Except String RunnerOutcome
  ConcatMessageStream : List Message → Except String Message
  GenTransferMessages : String → Message × Message
  rewriteMessage : Message → String → Message
  processStateError : String

/-- Record `agentTool`; the input schema is kept by a name (nil: the default
schema). -/
structure agentTool where
  agent : Agent
  fullChatHistoryAsInput : Bool
  inputSchema : Option String

/-- The error value `compose.InterruptAndRerun`, kept by its name. -/
def InterruptAndRerun : String := "interrupt and rerun"

/-- Go `schema.UserMessage(content)`. -/
def UserMessage (content : String) : Message :=
  { Role := RoleType.User, Content := content }

/-- Function `getOptionsByAgentName`: the run options of the tool options made for
the agent of that name, in order. -/
def getOptionsByAgentName (agentName : String) : List toolOption → List AgentRunOption
  | [] => []
  | toolOption.agentToolOptions name opts :: rest =>
    if name = agentName then opts ++ getOptionsByAgentName agentName rest
    else getOptionsByAgentName agentName rest
  | toolOption.other :: rest => getOptionsByAgentName agentName rest

/-- The loop of `getReactChatHistory` (lines 246-256) over the messages: a system
message is skipped, an assistant or tool message is rewritten, and the message is
appended to the history. -/
def historyLoop (deps : ToolDeps) (agentName : String) (history : List Message) :
    List Message → List Message
  | [] => history
  | msg :: rest =>
    if msg.Role = RoleType.System then historyLoop deps agentName history rest
    else if msg.Role = RoleType.Assistant ∨ msg.Role = RoleType.Tool then
      historyLoop deps agentName (history ++ [deps.rewriteMessage msg agentName]) rest
    else historyLoop deps agentName (history ++ [msg]) rest

/-- Function `getReactChatHistory`, on the state of the context (`none`: the context
has no state, `compose.ProcessState` returns an error and leaves `messages` nil).
Line 241 slices `messages[:len(messages)-1]`, a run-time panic on an empty slice;
then the history gets the messages, the two transfer messages, and what the loop
appends. -/
def getReactChatHistory (deps : ToolDeps) (st : Option State) (destAgentName : String) :
    GoResult (List Message × Option String) :=
  let messages : List Message :=
    match st with
    | some s => s.Messages
    | none => []
  let agentName : String :=
    match st with
    | some s => s.AgentName
    | none => ""
  let err : Option String :=
    match st with
    | some _ => none
    | none => some deps.processStateError
  if messages.length = 0 then
    GoResult.panics "slice bounds out of range [:-1]"
  else
    let cut := messages.take (messages.length - 1)
    let transfer := deps.GenTransferMessages destAgentName
    GoResult.returns
      (historyLoop deps agentName (cut ++ [transfer.1, transfer.2]) cut, err)

/-- The loop of `InvokableRun` over the stream (lines 150-162): an event with an
error ends the call with that error, without a further `Next`; otherwise the event
becomes the last event. -/
def lastEventLoop : Option AgentEvent → List AgentEvent → Except String (Option AgentEvent)
  | lastEvent, [] => Except.ok lastEvent
  | _, event :: rest =>
    match event.Err with
    | some err => Except.error err
    | none => lastEventLoop (some event) rest

/-- The event carries the Interrupted action. -/
def AgentEvent.isInterrupted (e : AgentEvent) : Bool :=
  match e.Action with
  | some a => a.Interrupted.isSome
  | none => false

/-- The first `ProcessState` of `InvokableRun` (lines 96-107): the interrupt data
recorded for the tool call, which is then deleted from the state; nothing is found
in a context without state. -/
def takeInterruptData (st : Option State) (toolCallID : String) :
    Option agentToolInterruptInfo × Option State :=
  match st with
  | none => (none, none)
  | some s =>
    match s.AgentToolInterruptData.lookup toolCallID with
    | some intData =>
      let kept := s.AgentToolInterruptData.filter (fun kv => !(kv.1 == toolCallID))
      (some intData, some { s with AgentToolInterruptData := kept })
    | none => (none, some s)

/-- Lines 109-148 of `InvokableRun`: resume the agent from the recorded data, or run
it on the chat history or on the request; an early return is `Except.error`. -/
def agentTool.start (deps : ToolDeps) (tool : agentTool) (st : Option State)
    (intData : Option agentToolInterruptInfo) (argumentsInJSON : String)
    (opts : List toolOption) : Except (GoResult (String × Option String)) RunnerOutcome :=
  let runOpts := getOptionsByAgentName tool.agent.name opts
  match intData with
  | some d =>
    match deps.RunnerResume tool.agent d.Data runOpts with
    | Except.error err => Except.error (GoResult.returns ("", some err))
    | Except.ok outcome => Except.ok outcome
  | none =>
    let withID := runOpts ++ [{ label := "WithCheckPointID" }]
    if tool.fullChatHistoryAsInput then
      match getReactChatHistory deps st tool.agent.name with
      | GoResult.panics msg => Except.error (GoResult.panics msg)
      | GoResult.returns (_, some err) => Except.error (GoResult.returns ("", some err))
      | GoResult.returns (history, none) => Except.ok (deps.RunnerRun tool.agent history withID)
    else
      match tool.inputSchema with
      | none =>
        match deps.UnmarshalRequest argumentsInJSON with
        | Except.error err => Except.error (GoResult.returns ("", some err))
        | Except.ok req => Except.ok (deps.RunnerRun tool.agent [UserMessage req] withID)
      | some _ => Except.ok (deps.RunnerRun tool.agent [UserMessage argumentsInJSON] withID)

/-- Lines 189-204 of `InvokableRun`: the content returned for the last event. A
message output that is not streaming is read through its `Message` pointer, a nil
pointer dereference when there is none. -/
def lastEventContent (deps : ToolDeps) (lastEvent : AgentEvent) :
    GoResult (String × Option String) :=
  match lastEvent.Output with
  | none => GoResult.returns ("", none)
  | some out =>
    match out.MessageOutput with
    | none => GoResult.returns ("", none)
    | some output =>
      if !output.IsStreaming then
        match output.Message with
        | some msg => GoResult.returns (msg.Content, none)
        | none => GoResult.panics "nil pointer dereference"
      else
        match deps.ConcatMessageStream output.MessageStream with
        | Except.error err => GoResult.returns ("", some err)
        | Except.ok msg => GoResult.returns (msg.Content, none)

/-- Lines 150-204 of `InvokableRun`: consume the stream, then handle an interrupt,
the empty stream, or the output of the last event. The state is returned beside the
result. -/
def agentTool.finish (deps : ToolDeps) (st : Option State) (toolCallID : String)
    (outcome : RunnerOutcome) : GoResult (String × Option String) × Option State :=
  match lastEventLoop none outcome.events with
  | Except.error err => (GoResult.returns ("", some err), st)
  | Except.ok none => (GoResult.returns ("", some "no event returned"), st)
  | Except.ok (some lastEvent) =>
    if lastEvent.isInterrupted then
      match outcome.stored with
      | Except.error err =>
        (GoResult.returns ("", some ("failed to get interrupt info: " ++ err)), st)
      | Except.ok none =>
        (GoResult.returns
          ("", some "interrupt has happened, but cannot find interrupt info"), st)
      | Except.ok (some data) =>
        match st with
        | none =>
          (GoResult.returns ("", some ("failed to save agent tool checkpoint to state: "
            ++ deps.processStateError)), st)
        | some s =>
          let info : agentToolInterruptInfo := { LastEvent := some lastEvent, Data := data }
          let kept := s.AgentToolInterruptData.filter (fun kv => !(kv.1 == toolCallID))
          (GoResult.returns ("", some InterruptAndRerun),
           some { s with AgentToolInterruptData := (toolCallID, info) :: kept })
    else (lastEventContent deps lastEvent, st)

/-- Method `(at *agentTool) InvokableRun`, on the state of the context and the tool
call id of the context: the result, and the state afterwards. -/
def agentTool.InvokableRun (deps : ToolDeps) (tool : agentTool) (st : Option State)
    (toolCallID : String) (argumentsInJSON : String) (opts : List toolOption) :
    GoResult (String × Option String) × Option State :=
  let taken := takeInterruptData st toolCallID
  match tool.start deps taken.2 taken.1 argumentsInJSON opts with
  | Except.error early => (early, taken.2)
  | Except.ok outcome => agentTool.finish deps taken.2 toolCallID outcome

/-- The content of the message output of an event, in the words of the claims: the
empty string without a message output, the content of the message of an output
that is not streaming, the content of the concatenation of a stream that can be
concatenated; nothing otherwise. -/
def messageOutputContent (deps : ToolDeps) (e : AgentEvent) : Option String :=
  match e.Output with
  | none => some ""
  | some out =>
    match out.MessageOutput with
    | none => some ""
    | some output =>
      if output.IsStreaming then
        match deps.ConcatMessageStream output.MessageStream with
        | Except.ok msg => some msg.Content
        | Except.error _ => none
      else output.Message.map (fun msg => msg.Content)

/-- The agent `mockAgentForTool` of agent_tool_test.go: `Run` sends the responses in
order and stops after the first one that carries the Exit action. -/
def newMockAgentForTool (name description : String) (responses : List AgentEvent) : Agent :=
  { name := name, description := description,
    Run := fun _ _ => RunOutcome.stream (mockAgentSends responses),
    Resume := none }

/-- Modelled from the spec: the JSON decoder is not among the source files. This
stand-in accepts the arguments of the shape `{"request":"s"}` that the tests pass,
giving `s`, and rejects every other string. -/
def unmarshalRequestModel (arguments : String) : Except String String :=
  let opening := "\x7b\"request\":\"".data
  let closing := "\"\x7d".data
  if opening.isPrefixOf arguments.data ∧ closing.isSuffixOf arguments.data
      ∧ opening.length + closing.length ≤ arguments.data.length then
    Except.ok (String.mk
      ((arguments.data.drop opening.length).take
        (arguments.data.length - opening.length - closing.length)))
  else Except.error "invalid json"

/-- Modelled from the spec: `rewriteMessage` is not among the source files. The
texts are those TestGetReactHistory expects: a user message "For context: ..."
naming the agent, for the first tool call of an assistant message and for the
result of a tool message. -/
def rewriteMessageModel (msg : Message) (agentName : String) : Message :=
  match msg.Role, msg.ToolCalls with
  | RoleType.Tool, _ =>
    UserMessage ("For context: [" ++ agentName ++ "] `" ++ msg.ToolName
      ++ "` tool returned result: " ++ msg.Content ++ ".")
  | _, tc :: _ =>
    UserMessage ("For context: [" ++ agentName ++ "] called tool: `" ++ tc.Name
      ++ "` with arguments: " ++ tc.Arguments ++ ".")
  | _, [] => UserMessage ("For context: [" ++ agentName ++ "] said: " ++ msg.Content ++ ".")

/-- Modelled from the spec: `GenTransferMessages` is not among the source files. The
two messages are those TestGetReactHistory expects in rewritten form: the assistant
message calling the tool `transfer_to_agent` with the destination as arguments, and
the tool message of its result. -/
def genTransferMessagesModel (destAgentName : String) : Message × Message :=
  ({ Role := RoleType.Assistant, Content := "",
     ToolCalls := [{ ID := "transfer", Name := "transfer_to_agent",
                     Arguments := destAgentName }] },
   { Role := RoleType.Tool,
     Content := "successfully transferred to agent [" ++ destAgentName ++ "]",
     ToolCallID := "transfer", ToolName := "transfer_to_agent" })

/-- Stand-ins for the absent collaborators, for the tests of agent_tool_test.go: the
runner relays the stream of the agent and stores no checkpoint, a stream is
concatenated by joining the contents of its chunks. -/
def testDeps : ToolDeps :=
  { UnmarshalRequest := unmarshalRequestModel,
    RunnerRun := fun agent input _ =>
      { events := (agent.Run 0 (some { Messages := input, EnableStreaming := false })).events,
        stored := Except.ok none },
    RunnerResume := fun _ _ _ => Except.error "no checkpoint",
    ConcatMessageStream := fun chunks =>
      Except.ok { Role := RoleType.Assistant,
                  Content := String.join (chunks.map (fun m => m.Content)) },
    GenTransferMessages := genTransferMessagesModel,
    rewriteMessage := rewriteMessageModel,
    processStateError := "state not found in context" }

/-- The state of TestGetReactHistory: a user query, two assistant messages with a
tool call each, and the result of the first tool call between them. -/
def reactTestState : State :=
  { Messages :=
      [UserMessage "user query",
       { Role := RoleType.Assistant, Content := "",
         ToolCalls := [{ ID := "tool call id 1", Name := "tool1", Arguments := "arguments1" }] },
       { Role := RoleType.Tool, Content := "tool result 1", ToolCallID := "tool call id 1",
         ToolName := "tool1" },
       { Role := RoleType.Assistant, Content := "",
         ToolCalls := [{ ID := "tool call id 2", Name := "tool2", Arguments := "arguments2" }] }],
    AgentName := "MyAgent",
    AgentToolInterruptData := [] }

/-- The history TestGetReactHistory expects for the destination "DestAgentName". -/
def reactTestExpected : List Message :=
  [UserMessage "user query",
   UserMessage "For context: [MyAgent] called tool: `tool1` with arguments: arguments1.",
   UserMessage "For context: [MyAgent] `tool1` tool returned result: tool result 1.",
   UserMessage
     "For context: [MyAgent] called tool: `transfer_to_agent` with arguments: DestAgentName.",
   UserMessage ("For context: [MyAgent] `transfer_to_agent` tool returned result: "
     ++ "successfully transferred to agent [DestAgentName].")]

/-- What the claims and the test say `getReactChatHistory` returns: each message
that is not a system message, of the messages without the last one followed by the
two transfer messages, once and in order, the assistant and tool messages
rewritten. -/
def reactHistorySpec (deps : ToolDeps) (st : State) (destAgentName : String) : List Message :=
  ((st.Messages.take (st.Messages.length - 1)
      ++ [(deps.GenTransferMessages destAgentName).1,
          (deps.GenTransferMessages destAgentName).2]).filter
    (fun msg => !decide (msg.Role = RoleType.System))).map
    (fun msg =>
      if msg.Role = RoleType.Assistant ∨ msg.Role = RoleType.Tool then
        deps.rewriteMessage msg st.AgentName
      else msg)

/-- The agent tool of TestAgentTool_InvokableRun: `NewAgentTool` without options on
the mock agent "TestAgent" with the given responses. -/
def testAgentTool (responses : List AgentEvent) : agentTool :=
  { agent := newMockAgentForTool "TestAgent" "Test agent description" responses,
    fullChatHistoryAsInput := false, inputSchema := none }

/-- The stand-ins of the tests, with a `ConcatMessageStream` that fails on every
stream. -/
def brokenStreamDeps : ToolDeps :=
  { testDeps with ConcatMessageStream := fun _ => Except.error "stream broken" }

/-- An event of "TestAgent" without error or action whose message output is
streaming. -/
def streamingEvent : AgentEvent :=
  { AgentName := "TestAgent",
    Output := some
      { MessageOutput := some
          { IsStreaming := true, Message := none, Role := RoleType.Assistant },
        CustomizedOutput := GoAny.nil },
    Action := none, Err := none }

/-! ## Lemmas on the removal loop -/

/-- The removal loop keeps the entries before the index and filters the rest. -/
theorem replaceLoop_eq_take_append_filter (belongs : List RunStep → List RunStep → Bool)
    (p : List RunStep) (xs : List runContext) (i : Nat) :
    replaceLoop belongs p xs i =
      xs.take i ++ (xs.drop i).filter (fun rc => !belongs p rc.RunPath) := by
  induction xs, i using replaceLoop.induct belongs p with
  | case1 xs i h hb ih =>
    rw [replaceLoop, dif_pos h, if_pos hb, ih]
    have hlen : (List.take i xs).length = i := by
      rw [List.length_take]; omega
    have hb2 : belongs p xs[i].RunPath = true := hb
    rw [List.take_append_eq_append_take, List.drop_append_eq_append_drop]
    simp only [hlen, Nat.sub_self, List.take_zero, List.append_nil, List.drop_zero]
    rw [List.take_of_length_le (by omega), List.drop_of_length_le (by omega)]
    rw [List.drop_eq_getElem_cons h, List.filter_cons, hb2]
    simp
  | case2 xs i h hb ih =>
    rw [replaceLoop, dif_pos h, if_neg hb, ih]
    have hb2 : belongs p xs[i].RunPath = false := by
      simpa using hb
    rw [List.drop_eq_getElem_cons h, List.filter_cons, hb2, List.take_succ,
      List.getElem?_eq_getElem h]
    simp only [Option.toList, List.append_assoc, List.singleton_append, Bool.not_false,
      if_true]
  | case3 xs i h =>
    rw [replaceLoop, dif_neg h]
    rw [List.take_of_length_le (by omega), List.drop_of_length_le (by omega)]
    simp

/-- From index 0 the removal loop is a filter. -/
theorem replaceLoop_zero (belongs : List RunStep → List RunStep → Bool)
    (p : List RunStep) (xs : List runContext) :
    replaceLoop belongs p xs 0 = xs.filter (fun rc => !belongs p rc.RunPath) := by
  rw [replaceLoop_eq_take_append_filter]
  simp

/-- The pending-interrupt list after `replaceInterruptRunCtxWith`. -/
theorem interruptRunCtxs_replaceWith (belongs : List RunStep → List RunStep → Bool)
    (rs : runSession) (n : runContext) :
    (rs.replaceInterruptRunCtxWith belongs n).interruptRunCtxs =
      rs.interruptRunCtxs.filter (fun rc => !belongs n.RunPath rc.RunPath) ++ [n] := by
  simp only [runSession.replaceInterruptRunCtxWith, replaceLoop_zero]

/-- The helper read from the spec is the prefix test. -/
theorem belongToRunPath_iff (newPath rcPath : List RunStep) :
    belongToRunPath newPath rcPath = true ↔ rcPath <+: newPath := by
  unfold belongToRunPath
  exact List.isPrefixOf_iff_prefix

/-- One call keeps the order invariant: no entry is removable by a later one. -/
theorem pairwise_replaceWith (belongs : List RunStep → List RunStep → Bool)
    (rs : runSession) (n : runContext)
    (h : rs.interruptRunCtxs.Pairwise (fun e l => belongs l.RunPath e.RunPath = false)) :
    (rs.replaceInterruptRunCtxWith belongs n).interruptRunCtxs.Pairwise
      (fun e l => belongs l.RunPath e.RunPath = false) := by
  rw [interruptRunCtxs_replaceWith, List.pairwise_append]
  refine ⟨h.filter _, List.pairwise_singleton _ _, ?_⟩
  intro a ha b hb
  rw [List.mem_singleton] at hb
  subst hb
  simpa using (List.mem_filter.mp ha).2

/-- The order invariant holds along any sequence of calls. -/
theorem pairwise_foldl_replaceWith (belongs : List RunStep → List RunStep → Bool)
    (ns : List runContext) (rs : runSession)
    (h : rs.interruptRunCtxs.Pairwise (fun e l => belongs l.RunPath e.RunPath = false)) :
    (ns.foldl (fun rs n => rs.replaceInterruptRunCtxWith belongs n) rs).interruptRunCtxs.Pairwise
      (fun e l => belongs l.RunPath e.RunPath = false) := by
  induction ns generalizing rs with
  | nil => simpa using h
  | cons n ns ih =>
    rw [List.foldl_cons]
    exact ih _ (pairwise_replaceWith belongs rs n h)

/-! ## Lemmas on the event pipe and the workflow model -/

/-- Draining a pipe whose producer first sends `out`. -/
theorem drain_sends_append (out : List AgentEvent) (ops : List GenOp) :
    drain (out.map GenOp.send ++ ops) = (drain ops).map (fun es => out ++ es) := by
  induction out with
  | nil => simp
  | cons e out ih =>
    rw [List.map_cons, List.cons_append, drain, ih, Option.map_map]
    rfl

/-- Call number `out.length` of `Next` after the sends of `out`. -/
theorem next_sends_append (out : List AgentEvent) (ops : List GenOp) :
    AsyncIterator.Next (out.map GenOp.send ++ ops) out.length = AsyncIterator.Next ops 0 := by
  induction out with
  | nil => simp
  | cons e out ih =>
    simpa [AsyncIterator.Next] using ih

/-- The consumer of a producer with a recovery boundary collects the events of the
body, and the panic event after them when the body panicked. -/
theorem drain_recoverBoundary (out : List AgentEvent) (e : PassEnd) :
    drain (recoverBoundary (out, e)) =
      some (out ++ match e with
        | PassEnd.panicked msg => [panicEvent msg]
        | _ => []) := by
  unfold recoverBoundary
  rw [List.append_assoc, drain_sends_append]
  cases e <;> simp [drain]

/-- A stream of normal events is relayed whole, without a stop. -/
theorem relayEvents_normal (wrap : InterruptInfo → InterruptInfo) (inLoop : Bool) (k : Nat)
    (es : List AgentEvent) (h : ∀ e ∈ es, e.isNormal = true) :
    relayEvents wrap inLoop k es = (es, false) := by
  induction es with
  | nil => rfl
  | cons e es ih =>
    have he : e.isNormal = true := h e (List.mem_cons_self _ _)
    have ih2 := ih (fun x hx => h x (List.mem_cons_of_mem _ hx))
    unfold AgentEvent.isNormal at he
    rw [Bool.and_eq_true] at he
    obtain ⟨herr, hact⟩ := he
    have herr2 : e.Err.isSome = false := by
      cases hE : e.Err with
      | none => rfl
      | some m => rw [hE] at herr; exact Bool.noConfusion herr
    cases hA : e.Action with
    | none =>
      unfold relayEvents
      simp only [herr2, hA, ih2]
      rfl
    | some a =>
      rw [hA] at hact
      simp only [Bool.and_eq_true, Bool.not_eq_true_eq_eq_false, Option.isNone_iff_eq_none]
        at hact
      obtain ⟨⟨hexit, hint⟩, hbl⟩ := hact
      unfold relayEvents
      simp only [herr2, hA, hexit, hint, hbl, ih2]
      cases inLoop <;> rfl

/-- A normal outcome is a stream of normal events. -/
theorem RunOutcome.isNormal_iff (o : RunOutcome) :
    o.isNormal = true ↔ ∃ es, o = RunOutcome.stream es ∧ ∀ e ∈ es, e.isNormal = true := by
  cases o with
  | panics msg => simp [RunOutcome.isNormal]
  | stream es => simp [RunOutcome.isNormal, List.all_eq_true]

/-- A pass over sub-agents that all run normally, followed by further sub-agents:
the events of the first are relayed whole and the pass goes on at the next index. -/
theorem runSequentialFrom_normal_append (inLoop : Bool) (k : Nat) (input : Option AgentInput)
    (pre rest : List Agent) (idx : Nat)
    (h : ∀ a ∈ pre, (a.Run k input).isNormal = true) :
    runSequentialFrom inLoop k input idx none (pre ++ rest) =
      (passEvents pre k input ++
          (runSequentialFrom inLoop k input (idx + pre.length) none rest).1,
        (runSequentialFrom inLoop k input (idx + pre.length) none rest).2) := by
  induction pre generalizing idx with
  | nil => simp [passEvents]
  | cons a pre ih =>
    obtain ⟨es, hrun, hes⟩ := (RunOutcome.isNormal_iff _).mp (h a (List.mem_cons_self _ _))
    have ih2 := ih (idx + 1) (fun x hx => h x (List.mem_cons_of_mem _ hx))
    rw [List.cons_append, runSequentialFrom]
    simp only [invokeSubAgent, hrun, relayEvents_normal _ _ _ es hes, ih2]
    simp [passEvents, hrun, RunOutcome.events, List.flatMap_cons, List.append_assoc,
      Nat.add_assoc, Nat.add_comm 1]

/-- A pass over sub-agents that all run normally completes with the concatenation
of their streams. -/
theorem runSequentialFrom_normal (inLoop : Bool) (k : Nat) (input : Option AgentInput)
    (agents : List Agent) (idx : Nat)
    (h : ∀ a ∈ agents, (a.Run k input).isNormal = true) :
    runSequentialFrom inLoop k input idx none agents =
      (passEvents agents k input, PassEnd.completed) := by
  have := runSequentialFrom_normal_append inLoop k input agents [] idx h
  simpa [runSequentialFrom] using this

/-- Length of the loop events when every pass has the same length. -/
theorem loopEvents_length (agents : List Agent) (input : Option AgentInput) (len : Nat)
    (n k0 : Nat) (h : ∀ k, k0 ≤ k → k < k0 + n → (passEvents agents k input).length = len) :
    (loopEvents agents input n k0).length = n * len := by
  induction n generalizing k0 with
  | zero => simp [loopEvents]
  | succ n ih =>
    rw [loopEvents, List.length_append, h k0 (Nat.le_refl _) (by omega),
      ih (k0 + 1) (fun k h1 h2 => h k (by omega) (by omega))]
    rw [Nat.succ_mul]
    omega

/-- A loop whose passes all run normally completes after `n` passes. -/
theorem runLoopFrom_normal (agents : List Agent) (input : Option AgentInput) (n k0 : Nat)
    (h : ∀ k, k0 ≤ k → k < k0 + n → ∀ a ∈ agents, (a.Run k input).isNormal = true) :
    runLoopFrom agents input n k0 = (loopEvents agents input n k0, PassEnd.completed) := by
  induction n generalizing k0 with
  | zero => rfl
  | succ n ih =>
    rw [runLoopFrom, runSequentialFrom_normal true k0 input agents 0
      (h k0 (Nat.le_refl _) (by omega))]
    simp only [ih (k0 + 1) (fun k h1 h2 => h k (by omega) (by omega)), loopEvents]

/-- A loop whose first `j` passes run normally goes on with pass `k0 + j`. -/
theorem runLoopFrom_after_normal (agents : List Agent) (input : Option AgentInput)
    (j m k0 : Nat)
    (h : ∀ k, k0 ≤ k → k < k0 + j → ∀ a ∈ agents, (a.Run k input).isNormal = true) :
    runLoopFrom agents input (j + m) k0 =
      (loopEvents agents input j k0 ++ (runLoopFrom agents input m (k0 + j)).1,
       (runLoopFrom agents input m (k0 + j)).2) := by
  induction j generalizing k0 with
  | zero => simp [loopEvents]
  | succ j ih =>
    rw [Nat.succ_add, runLoopFrom, runSequentialFrom_normal true k0 input agents 0
      (h k0 (Nat.le_refl _) (by omega))]
    simp only [ih (k0 + 1) (fun k h1 h2 => h k (by omega) (by omega)), loopEvents,
      List.append_assoc]
    have e : k0 + 1 + j = k0 + (j + 1) := by omega
    rw [e]

/-- Normal events in front of a stream are relayed and the relay goes on. -/
theorem relayEvents_normal_append (wrap : InterruptInfo → InterruptInfo) (inLoop : Bool)
    (k : Nat) (l rest : List AgentEvent) (h : ∀ e ∈ l, e.isNormal = true) :
    relayEvents wrap inLoop k (l ++ rest) =
      (l ++ (relayEvents wrap inLoop k rest).1, (relayEvents wrap inLoop k rest).2) := by
  induction l with
  | nil => simp
  | cons e l ih =>
    have he : e.isNormal = true := h e (List.mem_cons_self _ _)
    have ih2 := ih (fun x hx => h x (List.mem_cons_of_mem _ hx))
    unfold AgentEvent.isNormal at he
    rw [Bool.and_eq_true] at he
    obtain ⟨herr, hact⟩ := he
    have herr2 : e.Err.isSome = false := by
      cases hE : e.Err with
      | none => rfl
      | some m => rw [hE] at herr; exact Bool.noConfusion herr
    rw [List.cons_append]
    cases hA : e.Action with
    | none =>
      rw [relayEvents]
      simp only [herr2, hA, ih2]
      rfl
    | some a =>
      rw [hA] at hact
      simp only [Bool.and_eq_true, Bool.not_eq_true_eq_eq_false, Option.isNone_iff_eq_none]
        at hact
      obtain ⟨⟨hexit, hint⟩, hbl⟩ := hact
      rw [relayEvents]
      simp only [herr2, hA, hexit, hint, hbl, ih2]
      cases inLoop <;> rfl

/-- Inside a loop an event whose action is BreakLoop only is forwarded with Done set
and the iteration count, and stops the relay. -/
theorem relayEvents_breakLoop (wrap : InterruptInfo → InterruptInfo) (k : Nat)
    (x : AgentEvent) (act : AgentAction) (b : BreakLoopAction) (tl : List AgentEvent)
    (herr : x.Err = none) (hact : x.Action = some act) (hexit : act.Exit = false)
    (hint : act.Interrupted = none) (hb : act.BreakLoop = some b) :
    relayEvents wrap true k (x :: tl) = ([breakLoopForwarded x act b k], true) := by
  rw [relayEvents]
  simp only [hact, hb, breakLoopForwarded]
  simp [herr, hexit, hint]

/-! ## Lemmas on the fan-in of parallel branches -/

/-- Taking the head off branch `i` removes one element from the pooled events. -/
theorem perm_cons_flatten_set (bs : List (List AgentEvent)) (i : Nat) (e : AgentEvent)
    (es : List AgentEvent) (h : bs.get? i = some (e :: es)) :
    (e :: (bs.set i es).flatten).Perm bs.flatten := by
  induction bs generalizing i with
  | nil => simp at h
  | cons b bs ih =>
    cases i with
    | zero =>
      simp only [List.get?_cons_zero, Option.some.injEq] at h
      subst h
      simp
    | succ i =>
      simp only [List.get?_cons_succ] at h
      simp only [List.set_cons_succ, List.flatten_cons]
      exact (List.perm_middle.symm).trans ((ih i h).append_left b)

/-- The fan-in delivers exactly the events of the branches, as a multiset. -/
theorem fanIn_perm (sched : List Nat) (bs : List (List AgentEvent)) :
    (fanIn sched bs).Perm bs.flatten := by
  induction sched generalizing bs with
  | nil => exact List.Perm.refl _
  | cons i sched ih =>
    rw [fanIn]
    cases hg : bs.get? i with
    | none => exact ih bs
    | some b =>
      cases b with
      | nil => exact ih bs
      | cons e es =>
        exact ((ih (bs.set i es)).cons e).trans (perm_cons_flatten_set bs i e es hg)

/-- The fan-in keeps the order of the events of every single branch. -/
theorem fanIn_sublist (sched : List Nat) (bs : List (List AgentEvent)) (j : Nat)
    (b : List AgentEvent) (h : bs.get? j = some b) : b.Sublist (fanIn sched bs) := by
  induction sched generalizing bs b with
  | nil =>
    rw [fanIn]
    exact List.sublist_flatten_of_mem (List.get?_mem h)
  | cons i sched ih =>
    rw [fanIn]
    cases hg : bs.get? i with
    | none => exact ih bs b h
    | some c =>
      cases c with
      | nil => exact ih bs b h
      | cons e es =>
        show b.Sublist (e :: fanIn sched (bs.set i es))
        by_cases hij : i = j
        · subst hij
          rw [hg] at h
          cases h
          have hi : i < bs.length := by
            rcases Nat.lt_or_ge i bs.length with hlt | hge
            · exact hlt
            · rw [List.get?_eq_none.mpr hge] at hg
              exact Option.noConfusion hg
          have hs : (bs.set i es).get? i = some es := by
            rw [List.get?_eq_getElem?, List.getElem?_set_self hi]
          exact (ih (bs.set i es) es hs).cons₂ e
        · have hs : (bs.set i es).get? j = some b := by
            rw [List.get?_eq_getElem?, List.getElem?_set_ne hij, ← List.get?_eq_getElem?]
            exact h
          exact (ih (bs.set i es) b hs).cons e

/-- A normal event carries no Interrupted action. -/
theorem interrupted_none_of_normal (e : AgentEvent) (he : e.isNormal = true) :
    e.Action.bind (fun a => a.Interrupted) = none := by
  unfold AgentEvent.isNormal at he
  rw [Bool.and_eq_true] at he
  cases hA : e.Action with
  | none => rfl
  | some a =>
    have h2 := he.2
    rw [hA] at h2
    simp only [Bool.and_eq_true, Bool.not_eq_true_eq_eq_false,
      Option.isNone_iff_eq_none] at h2
    simpa using h2.1.2

/-- A stream without Interrupted action records no interrupt and is relayed whole. -/
theorem branchInterrupt_none (es : List AgentEvent)
    (h : ∀ e ∈ es, e.Action.bind (fun a => a.Interrupted) = none) :
    branchInterrupt es = none ∧ branchRelayed es = es := by
  induction es with
  | nil => exact ⟨rfl, rfl⟩
  | cons e es ih =>
    have hnone := h e (List.mem_cons_self _ _)
    have ih2 := ih (fun x hx => h x (List.mem_cons_of_mem _ hx))
    constructor
    · rw [branchInterrupt, hnone]
      exact ih2.1
    · rw [branchRelayed, hnone, ih2.2]

/-- Streams without Interrupted action record no interrupt and are relayed whole. -/
theorem parallel_streams_none (streams : List (List AgentEvent)) (i : Nat)
    (h : ∀ es ∈ streams, ∀ e ∈ es, e.Action.bind (fun a => a.Interrupted) = none) :
    parallelInterrupts i streams = [] ∧ streams.map branchRelayed = streams := by
  induction streams generalizing i with
  | nil => exact ⟨rfl, rfl⟩
  | cons es streams ih =>
    have h1 := branchInterrupt_none es (h es (List.mem_cons_self _ _))
    have h2 := ih (i + 1) (fun x hx => h x (List.mem_cons_of_mem _ hx))
    constructor
    · rw [parallelInterrupts, h1.1]
      exact h2.1
    · rw [List.map_cons, h1.2, h2.2]

/-- Streams of normal events record no interrupt and are relayed whole. -/
theorem parallel_normal_streams (streams : List (List AgentEvent)) (i : Nat)
    (h : ∀ es ∈ streams, ∀ e ∈ es, e.isNormal = true) :
    parallelInterrupts i streams = [] ∧ streams.map branchRelayed = streams :=
  parallel_streams_none streams i
    (fun es hes e he => interrupted_none_of_normal e (h es hes e he))

/-- Call number `out.length + k` of `Next` after the sends of `out`. -/
theorem next_sends_append_add (out : List AgentEvent) (ops : List GenOp) (k : Nat) :
    AsyncIterator.Next (out.map GenOp.send ++ ops) (out.length + k)
      = AsyncIterator.Next ops k := by
  induction out with
  | nil => simp
  | cons e out ih =>
    have e1 : (e :: out).length + k = (out.length + k) + 1 := by
      simp only [List.length_cons]; omega
    rw [e1, List.map_cons, List.cons_append, AsyncIterator.Next]
    exact ih

/-- After the sends of a body that panicked, the panic event comes and then the end
of the stream. -/
theorem next_recoverBoundary_panicked (out : List AgentEvent) (msg : String) :
    AsyncIterator.Next (recoverBoundary (out, PassEnd.panicked msg)) out.length
        = NextResult.value (panicEvent msg)
      ∧ AsyncIterator.Next (recoverBoundary (out, PassEnd.panicked msg)) (out.length + 1)
        = NextResult.done := by
  unfold recoverBoundary
  constructor
  · rw [List.append_assoc, next_sends_append]
    rfl
  · rw [List.append_assoc, next_sends_append_add]
    rfl

/-- A pass in which the sub-agents before `p` run normally and `p` panics relays the
events before and ends as panicked. -/
theorem runSequentialFrom_panic (inLoop : Bool) (k : Nat) (input : Option AgentInput)
    (pre post : List Agent) (p : Agent) (msg : String) (idx : Nat)
    (hpre : ∀ q ∈ pre, (q.Run k input).isNormal = true)
    (hp : p.Run k input = RunOutcome.panics msg) :
    runSequentialFrom inLoop k input idx none (pre ++ p :: post)
      = (passEvents pre k input, PassEnd.panicked msg) := by
  rw [runSequentialFrom_normal_append inLoop k input pre (p :: post) idx hpre, runSequentialFrom]
  simp [invokeSubAgent, hp]

/-- A resumed pass whose resumed sub-agent panics in `Resume` relays nothing and
ends as panicked. -/
theorem runSequentialFrom_resume_panic (inLoop : Bool) (k : Nat) (input : Option AgentInput)
    (r : Agent) (rest : List Agent) (f : ResumeInfo → RunOutcome) (info : ResumeInfo)
    (msg : String) (idx : Nat) (hr : r.Resume = some f) (hf : f info = RunOutcome.panics msg) :
    runSequentialFrom inLoop k input idx (some info) (r :: rest)
      = ([], PassEnd.panicked msg) := by
  rw [runSequentialFrom]
  simp [invokeSubAgent, hr, hf]

/-! ## Lemmas on the serializer model -/

/-- Hook replacement keeps the type of a value. -/
theorem typeOf_throughHooks (env : TypeEnv) : ∀ v : GoValue,
    (v.throughHooks env).typeOf = v.typeOf
  | GoValue.int _ _ => rfl
  | GoValue.str _ => rfl
  | GoValue.bool _ => rfl
  | GoValue.struct name fields => by
    rw [GoValue.throughHooks]
    cases env.hooks name <;> rfl
  | GoValue.nil _ => rfl
  | GoValue.ptr v => by
    rw [GoValue.throughHooks, GoValue.typeOf, GoValue.typeOf, typeOf_throughHooks env v]
  | GoValue.iface _ => rfl
  | GoValue.slice _ _ => rfl
  | GoValue.map _ _ _ => rfl

/-- A value is assignable to its own type, unchanged. -/
theorem assignAlloc_self (v : GoValue) (t : GoType) (h : v.typeOf = t) :
    assignAlloc v t = Except.ok v := by
  cases t <;> simp [assignAlloc, h]

/-- A value is assignable to a destination of its own type, unchanged. -/
theorem assignValue_self (v : GoValue) : assignValue v v.typeOf = Except.ok v := by
  cases v with
  | ptr w => simp [assignValue]
  | int t n => exact assignAlloc_self _ _ rfl
  | str s => exact assignAlloc_self _ _ rfl
  | bool b => exact assignAlloc_self _ _ rfl
  | struct name fields => exact assignAlloc_self _ _ rfl
  | nil t => exact assignAlloc_self _ _ rfl
  | iface w => exact assignAlloc_self _ _ rfl
  | slice elem vs => exact assignAlloc_self _ _ rfl
  | map key val kvs => exact assignAlloc_self _ _ rfl

mutual
/-- Encoding an encodable value succeeds and decoding gives the value passed through
the hooks. -/
theorem unmarshal_marshal_value (env : TypeEnv) : ∀ v : GoValue, v.encodable env = true →
    ∃ p, marshalValue env v = Except.ok p ∧
      unmarshalValue env p = Except.ok (v.throughHooks env)
  | GoValue.int t n, _ => ⟨Payload.int t n, rfl, rfl⟩
  | GoValue.str s, _ => ⟨Payload.str s, rfl, rfl⟩
  | GoValue.bool b, _ => ⟨Payload.bool b, rfl, rfl⟩
  | GoValue.nil t, _ => ⟨Payload.nil t, rfl, rfl⟩
  | GoValue.struct name fields, h => by
    cases hh : env.hooks name with
    | some hk =>
      refine ⟨Payload.hooked name (hk.MarshalJSON fields), ?_, ?_⟩
      · simp [marshalValue, hh]
      · simp [unmarshalValue, GoValue.throughHooks, hh]
    | none =>
      rw [GoValue.encodable, hh] at h
      obtain ⟨ps, h1, h2⟩ := unmarshal_marshal_fields env fields h
      refine ⟨Payload.struct name ps, ?_, ?_⟩
      · simp [marshalValue, hh, h1]
      · simp [unmarshalValue, GoValue.throughHooks, hh, h2]
  | GoValue.ptr v, h => by
    rw [GoValue.encodable] at h
    obtain ⟨p, h1, h2⟩ := unmarshal_marshal_value env v h
    refine ⟨Payload.ptr p, ?_, ?_⟩
    · simp [marshalValue, h1]
    · simp [unmarshalValue, GoValue.throughHooks, h2]
  | GoValue.iface v, h => by
    rw [GoValue.encodable, Bool.and_eq_true] at h
    obtain ⟨p, h1, h2⟩ := unmarshal_marshal_value env v h.2
    refine ⟨Payload.iface v.typeOf p, ?_, ?_⟩
    · simp [marshalValue, h.1, h1]
    · simp [unmarshalValue, GoValue.throughHooks, h.1, h2]
  | GoValue.slice elem vs, h => by
    rw [GoValue.encodable] at h
    obtain ⟨ps, h1, h2⟩ := unmarshal_marshal_list env vs h
    refine ⟨Payload.slice elem ps, ?_, ?_⟩
    · simp [marshalValue, h1]
    · simp [unmarshalValue, GoValue.throughHooks, h2]
  | GoValue.map key val kvs, h => by
    rw [GoValue.encodable] at h
    obtain ⟨ps, h1, h2⟩ := unmarshal_marshal_pairs env kvs h
    refine ⟨Payload.map key val ps, ?_, ?_⟩
    · simp [marshalValue, h1]
    · simp [unmarshalValue, GoValue.throughHooks, h2]
/-- Round trip of the fields of a struct. -/
theorem unmarshal_marshal_fields (env : TypeEnv) : ∀ fs : List (String × GoValue),
    encodableFields env fs = true →
    ∃ ps, marshalFields env fs = Except.ok ps ∧
      unmarshalFields env ps = Except.ok (throughHooksFields env fs)
  | [], _ => ⟨[], rfl, rfl⟩
  | (n, v) :: fs, h => by
    rw [encodableFields, Bool.and_eq_true] at h
    obtain ⟨p, h1, h2⟩ := unmarshal_marshal_value env v h.1
    obtain ⟨ps, h3, h4⟩ := unmarshal_marshal_fields env fs h.2
    refine ⟨(n, p) :: ps, ?_, ?_⟩
    · simp [marshalFields, h1, h3]
    · simp [unmarshalFields, throughHooksFields, h2, h4]
/-- Round trip of the elements of a slice. -/
theorem unmarshal_marshal_list (env : TypeEnv) : ∀ vs : List GoValue,
    encodableList env vs = true →
    ∃ ps, marshalList env vs = Except.ok ps ∧
      unmarshalList env ps = Except.ok (throughHooksList env vs)
  | [], _ => ⟨[], rfl, rfl⟩
  | v :: vs, h => by
    rw [encodableList, Bool.and_eq_true] at h
    obtain ⟨p, h1, h2⟩ := unmarshal_marshal_value env v h.1
    obtain ⟨ps, h3, h4⟩ := unmarshal_marshal_list env vs h.2
    refine ⟨p :: ps, ?_, ?_⟩
    · simp [marshalList, h1, h3]
    · simp [unmarshalList, throughHooksList, h2, h4]
/-- Round trip of the entries of a map. -/
theorem unmarshal_marshal_pairs (env : TypeEnv) : ∀ kvs : List (GoValue × GoValue),
    encodablePairs env kvs = true →
    ∃ ps, marshalPairs env kvs = Except.ok ps ∧
      unmarshalPairs env ps = Except.ok (throughHooksPairs env kvs)
  | [], _ => ⟨[], rfl, rfl⟩
  | (k, v) :: kvs, h => by
    rw [encodablePairs, Bool.and_eq_true, Bool.and_eq_true] at h
    obtain ⟨pk, h1, h2⟩ := unmarshal_marshal_value env k h.1.1
    obtain ⟨pv, h3, h4⟩ := unmarshal_marshal_value env v h.1.2
    obtain ⟨ps, h5, h6⟩ := unmarshal_marshal_pairs env kvs h.2
    refine ⟨(pk, pv) :: ps, ?_, ?_⟩
    · simp [marshalPairs, h1, h3, h5]
    · simp [unmarshalPairs, throughHooksPairs, h2, h4, h6]
end

mutual
/-- A value of supported shape is encodable. -/
theorem encodable_of_supported (env : TypeEnv) : ∀ v : GoValue, v.supported env = true →
    v.encodable env = true
  | GoValue.int _ _, _ => rfl
  | GoValue.str _, _ => rfl
  | GoValue.bool _, _ => rfl
  | GoValue.nil _, _ => rfl
  | GoValue.struct name fields, h => by
    rw [GoValue.encodable]
    cases hh : env.hooks name with
    | some hk => rfl
    | none =>
      rw [GoValue.supported, hh, Bool.and_eq_true] at h
      exact encodableFields_of_supported env fields h.2
  | GoValue.ptr v, h => by
    rw [GoValue.supported] at h
    rw [GoValue.encodable]
    exact encodable_of_supported env v h
  | GoValue.iface v, h => by
    rw [GoValue.supported, Bool.and_eq_true] at h
    rw [GoValue.encodable, Bool.and_eq_true]
    exact ⟨h.1, encodable_of_supported env v h.2⟩
  | GoValue.slice elem vs, h => by
    rw [GoValue.supported] at h
    rw [GoValue.encodable]
    exact encodableList_of_supported env vs h
  | GoValue.map key val kvs, h => by
    rw [GoValue.supported] at h
    rw [GoValue.encodable]
    exact encodablePairs_of_supported env kvs h
/-- Fields of supported shape are encodable. -/
theorem encodableFields_of_supported (env : TypeEnv) : ∀ fs : List (String × GoValue),
    supportedFields env fs = true → encodableFields env fs = true
  | [], _ => rfl
  | (n, v) :: fs, h => by
    rw [supportedFields, Bool.and_eq_true] at h
    rw [encodableFields, Bool.and_eq_true]
    exact ⟨encodable_of_supported env v h.1, encodableFields_of_supported env fs h.2⟩
/-- Elements of supported shape are encodable. -/
theorem encodableList_of_supported (env : TypeEnv) : ∀ vs : List GoValue,
    supportedList env vs = true → encodableList env vs = true
  | [], _ => rfl
  | v :: vs, h => by
    rw [supportedList, Bool.and_eq_true] at h
    rw [encodableList, Bool.and_eq_true]
    exact ⟨encodable_of_supported env v h.1, encodableList_of_supported env vs h.2⟩
/-- Entries of supported shape are encodable. -/
theorem encodablePairs_of_supported (env : TypeEnv) : ∀ kvs : List (GoValue × GoValue),
    supportedPairs env kvs = true → encodablePairs env kvs = true
  | [], _ => rfl
  | (k, v) :: kvs, h => by
    rw [supportedPairs, Bool.and_eq_true, Bool.and_eq_true] at h
    rw [encodablePairs, Bool.and_eq_true, Bool.and_eq_true]
    exact ⟨⟨encodable_of_supported env k h.1.1, encodable_of_supported env v h.1.2⟩,
      encodablePairs_of_supported env kvs h.2⟩
end

/-- The registry is consulted for a plain struct: a value of the type `myStruct3`,
which the tests never register and which has no hooks, is not of a supported shape,
though the encoding succeeds on it. -/
theorem unregistered_struct_unsupported :
    (GoValue.struct "myStruct3" [("FieldA", GoValue.str "1")]).supported testEnv = false
    ∧ (GoValue.struct "myStruct3" [("FieldA", GoValue.str "1")]).encodable testEnv = true := by
  constructor
  · decide
  · decide

mutual
/-- When the hooks invert each other on the values inside, hook replacement changes
nothing. -/
theorem throughHooks_eq_self (env : TypeEnv) : ∀ v : GoValue, v.hooksInvert env →
    v.throughHooks env = v
  | GoValue.int _ _, _ => rfl
  | GoValue.str _, _ => rfl
  | GoValue.bool _, _ => rfl
  | GoValue.nil _, _ => rfl
  | GoValue.struct name fields, h => by
    rw [GoValue.hooksInvert] at h
    rw [GoValue.throughHooks]
    cases hh : env.hooks name with
    | some hk =>
      rw [hh] at h
      simp only [h]
    | none =>
      rw [hh] at h
      simp only [throughHooksFields_eq_self env fields h]
  | GoValue.ptr v, h => by
    rw [GoValue.hooksInvert] at h
    rw [GoValue.throughHooks, throughHooks_eq_self env v h]
  | GoValue.iface v, h => by
    rw [GoValue.hooksInvert] at h
    rw [GoValue.throughHooks, throughHooks_eq_self env v h]
  | GoValue.slice elem vs, h => by
    rw [GoValue.hooksInvert] at h
    rw [GoValue.throughHooks, throughHooksList_eq_self env vs h]
  | GoValue.map key val kvs, h => by
    rw [GoValue.hooksInvert] at h
    rw [GoValue.throughHooks, throughHooksPairs_eq_self env kvs h]
/-- Hook replacement in fields, under hook inversion. -/
theorem throughHooksFields_eq_self (env : TypeEnv) : ∀ fs : List (String × GoValue),
    hooksInvertFields env fs → throughHooksFields env fs = fs
  | [], _ => rfl
  | (n, v) :: fs, h => by
    rw [hooksInvertFields] at h
    rw [throughHooksFields, throughHooks_eq_self env v h.1,
      throughHooksFields_eq_self env fs h.2]
/-- Hook replacement in slice elements, under hook inversion. -/
theorem throughHooksList_eq_self (env : TypeEnv) : ∀ vs : List GoValue,
    hooksInvertList env vs → throughHooksList env vs = vs
  | [], _ => rfl
  | v :: vs, h => by
    rw [hooksInvertList] at h
    rw [throughHooksList, throughHooks_eq_self env v h.1, throughHooksList_eq_self env vs h.2]
/-- Hook replacement in map entries, under hook inversion. -/
theorem throughHooksPairs_eq_self (env : TypeEnv) : ∀ kvs : List (GoValue × GoValue),
    hooksInvertPairs env kvs → throughHooksPairs env kvs = kvs
  | [], _ => rfl
  | (k, v) :: kvs, h => by
    rw [hooksInvertPairs] at h
    rw [throughHooksPairs, throughHooks_eq_self env k h.1, throughHooks_eq_self env v h.2.1,
      throughHooksPairs_eq_self env kvs h.2.2]
end

/-! ## Claims on the pending-interrupt list -/

/-- C1: after `replaceInterruptRunCtx(n)` the pending-interrupt list is the old list
without the entries whose RunPath is a prefix of (or equal to) the RunPath of `n`,
followed by `n`; every entry whose RunPath is not such a prefix is kept, and the
event log and the value store are untouched. -/
theorem replaceInterruptRunCtx_prefix_dedup (rs : runSession) (n : runContext) :
    (rs.replaceInterruptRunCtx n).interruptRunCtxs =
        rs.interruptRunCtxs.filter (fun rc => decide (¬ rc.RunPath <+: n.RunPath)) ++ [n]
      ∧ (∀ rc ∈ rs.interruptRunCtxs, ¬ rc.RunPath <+: n.RunPath →
          rc ∈ (rs.replaceInterruptRunCtx n).interruptRunCtxs)
      ∧ (∀ rc ∈ (rs.replaceInterruptRunCtx n).interruptRunCtxs,
          rc = n ∨ (rc ∈ rs.interruptRunCtxs ∧ ¬ rc.RunPath <+: n.RunPath))
      ∧ (rs.replaceInterruptRunCtx n).Events = rs.Events
      ∧ (rs.replaceInterruptRunCtx n).Values = rs.Values := by
  have key : (rs.replaceInterruptRunCtx n).interruptRunCtxs =
      rs.interruptRunCtxs.filter (fun rc => decide (¬ rc.RunPath <+: n.RunPath)) ++ [n] := by
    unfold runSession.replaceInterruptRunCtx
    rw [interruptRunCtxs_replaceWith]
    congr 1
    apply List.filter_congr
    intro rc _
    by_cases hp : rc.RunPath <+: n.RunPath
    · simp [hp, (belongToRunPath_iff n.RunPath rc.RunPath).mpr hp]
    · have : belongToRunPath n.RunPath rc.RunPath = false := by
        cases hb : belongToRunPath n.RunPath rc.RunPath
        · rfl
        · exact absurd ((belongToRunPath_iff _ _).mp hb) hp
      simp [hp, this]
  refine ⟨key, ?_, ?_, rfl, rfl⟩
  · intro rc hrc hp
    rw [key]
    exact List.mem_append_left _ (List.mem_filter.mpr ⟨hrc, by simpa using hp⟩)
  · intro rc hrc
    rw [key, List.mem_append, List.mem_filter, List.mem_singleton] at hrc
    rcases hrc with ⟨hm, hd⟩ | heq
    · exact Or.inr ⟨hm, by simpa using hd⟩
    · exact Or.inl heq

/-- C2, as stated, fails: inserting the path [A, B] and then the path [A] leaves
both entries pending although [A] is a prefix of [A, B]. With the converse prefix
test in the helper the same happens on inserting [A] and then [A, B]. -/
theorem lineage_overlap_reachable :
    (insertAll [ctxOfPath ["A", "B"], ctxOfPath ["A"]]).interruptRunCtxs
        = [ctxOfPath ["A", "B"], ctxOfPath ["A"]]
      ∧ ¬ NoLineageOverlap (insertAll [ctxOfPath ["A", "B"], ctxOfPath ["A"]]).interruptRunCtxs
      ∧ ¬ NoLineageOverlap
          (insertAllWith (fun newPath rcPath => newPath.isPrefixOf rcPath)
            [ctxOfPath ["A"], ctxOfPath ["A", "B"]]).interruptRunCtxs := by
  have e1 : (insertAll [ctxOfPath ["A", "B"], ctxOfPath ["A"]]).interruptRunCtxs
      = [ctxOfPath ["A", "B"], ctxOfPath ["A"]] := by
    simp only [insertAll, List.foldl_cons, List.foldl_nil, runSession.replaceInterruptRunCtx,
      interruptRunCtxs_replaceWith]
    decide
  have e2 : (insertAllWith (fun newPath rcPath => newPath.isPrefixOf rcPath)
      [ctxOfPath ["A"], ctxOfPath ["A", "B"]]).interruptRunCtxs
      = [ctxOfPath ["A"], ctxOfPath ["A", "B"]] := by
    simp only [insertAllWith, List.foldl_cons, List.foldl_nil, interruptRunCtxs_replaceWith]
    decide
  refine ⟨e1, ?_, ?_⟩
  · rw [e1]
    unfold NoLineageOverlap
    decide
  · rw [e2]
    unfold NoLineageOverlap
    decide

/-- C2, amended: in every pending-interrupt list reachable from the empty list by
`replaceInterruptRunCtx` calls, no entry could be removed by an entry that stands
later in the list: for the helper as a parameter, `belongToRunPath(l.RunPath,
e.RunPath)` is false whenever `e` stands before `l`; for the prefix test of the
spec, no entry has a RunPath that is a prefix of (or equal to) the RunPath of a
later entry. -/
theorem earlier_entry_not_prefix_of_later
    (belongs : List RunStep → List RunStep → Bool) (ns : List runContext) :
    (insertAllWith belongs ns).interruptRunCtxs.Pairwise
        (fun e l => belongs l.RunPath e.RunPath = false)
      ∧ (insertAll ns).interruptRunCtxs.Pairwise
        (fun e l => ¬ e.RunPath <+: l.RunPath) := by
  constructor
  · exact pairwise_foldl_replaceWith belongs ns (sessionOfMap 0) List.Pairwise.nil
  · have h := pairwise_foldl_replaceWith belongToRunPath ns (sessionOfMap 0) List.Pairwise.nil
    refine List.Pairwise.imp ?_ h
    intro e l hb hp
    rw [(belongToRunPath_iff _ _).mpr hp] at hb
    exact Bool.noConfusion hb

/-- After the sends of the body the next call of `Next` answers end of stream,
when the body did not panic. -/
theorem next_recoverBoundary_done (out : List AgentEvent) (e : PassEnd)
    (h : ∀ msg, e ≠ PassEnd.panicked msg) :
    AsyncIterator.Next (recoverBoundary (out, e)) out.length = NextResult.done := by
  unfold recoverBoundary
  rw [List.append_assoc, next_sends_append]
  cases e with
  | completed => rfl
  | stopped => rfl
  | panicked msg => exact absurd rfl (h msg)

/-! ## Claims on the serializer -/

/-- C3, as stated, fails for custom-hook types: `myStruct5{FieldA: "1"}` of
serialization_test.go is of a registered type with custom hooks, so of a supported
shape; `Marshal` gives the output "1" of the encode hook and `Unmarshal` of it into
a `*myStruct5` gives `myStruct5{FieldA: "FieldA"}`, which differs from the value
marshalled. -/
theorem custom_hook_round_trip_differs :
    testEnv.registered.contains "myStruct5" = true
    ∧ myStruct5Value.supported testEnv = true
    ∧ InternalSerializer.Marshal testEnv myStruct5Value
        = Except.ok (Payload.hooked "myStruct5" "1")
    ∧ InternalSerializer.Unmarshal testEnv (Payload.hooked "myStruct5" "1")
          (Destination.pointer myStruct5Value.typeOf)
        = Except.ok (GoValue.struct "myStruct5" [("FieldA", GoValue.str "FieldA")])
    ∧ GoValue.struct "myStruct5" [("FieldA", GoValue.str "FieldA")] ≠ myStruct5Value := by
  refine ⟨by decide, rfl, rfl, rfl, ?_⟩
  intro h
  unfold myStruct5Value at h
  injection h with _ h2
  injection h2 with h3 _
  injection h3 with _ h4
  injection h4 with h5
  exact absurd h5 (by decide)

/-- C3, amended: for every value of a supported shape (scalars, registered structs,
pointers, interfaces including nil whose concrete types are registered, maps, slices,
custom-hook types), `Marshal` succeeds and `Unmarshal` of the result into a fresh
destination of the value's type succeeds and yields the value in which every value
of a custom-hook type is replaced by what its decode hook makes of the output of its
encode hook; so it yields the value itself whenever the hooks invert each other on
the values inside (in particular when no custom-hook type occurs). -/
theorem marshal_unmarshal_through_hooks (env : TypeEnv) (v : GoValue)
    (h : v.supported env = true) :
    ∃ data, InternalSerializer.Marshal env v = Except.ok data
      ∧ InternalSerializer.Unmarshal env data (Destination.pointer v.typeOf)
          = Except.ok (v.throughHooks env)
      ∧ (v.hooksInvert env →
          InternalSerializer.Unmarshal env data (Destination.pointer v.typeOf)
            = Except.ok v) := by
  obtain ⟨p, h1, h2⟩ := unmarshal_marshal_value env v (encodable_of_supported env v h)
  have h3 : InternalSerializer.Unmarshal env p (Destination.pointer v.typeOf)
      = Except.ok (v.throughHooks env) := by
    simp only [InternalSerializer.Unmarshal, h2]
    rw [← typeOf_throughHooks env v]
    exact assignValue_self _
  refine ⟨p, h1, h3, ?_⟩
  intro hinv
  rw [h3, throughHooks_eq_self env v hinv]

/-- C3 amended, on a value in the shape of the test's `myStruct2`, whose struct
types are registered (`myStruct2`, `myStruct`) or have custom hooks (`myStruct4`):
the value is of a supported shape and the round trip gives the value back, the hooks
of `myStruct4` inverting each other. -/
theorem marshal_unmarshal_through_hooks_witness :
    myStruct2Value.supported testEnv = true
    ∧ ∃ data, InternalSerializer.Marshal testEnv myStruct2Value = Except.ok data
      ∧ InternalSerializer.Unmarshal testEnv data (Destination.pointer myStruct2Value.typeOf)
          = Except.ok myStruct2Value := by
  obtain ⟨data, h1, _, h3⟩ := marshal_unmarshal_through_hooks testEnv myStruct2Value (by decide)
  refine ⟨by decide, data, h1, h3 ?_⟩
  simp [myStruct2Value, GoValue.hooksInvert, hooksInvertFields, hooksInvertList,
    hooksInvertPairs, testEnv, myStruct4Hooks]

/-! ## Claims on the workflow state machine -/

/-- C4: a sequential workflow whose sub-agents all hand back finite streams of
normal events yields the concatenation of those streams in sub-agent order, each
event unchanged, and then signals end of stream. -/
theorem sequential_run_concat (cfg : SequentialAgentConfig) (sched : List Nat)
    (input : Option AgentInput)
    (h : ∀ a ∈ cfg.SubAgents, (a.Run 0 input).isNormal = true) :
    drain ((NewSequentialAgent cfg).Run sched input)
        = some (cfg.SubAgents.flatMap (fun a => (a.Run 0 input).events))
      ∧ AsyncIterator.Next ((NewSequentialAgent cfg).Run sched input)
          (cfg.SubAgents.flatMap (fun a => (a.Run 0 input).events)).length
        = NextResult.done := by
  have hb : (NewSequentialAgent cfg).runBody sched input
      = (passEvents cfg.SubAgents 0 input, PassEnd.completed) := by
    simp only [workflowAgent.runBody, NewSequentialAgent]
    exact runSequentialFrom_normal false 0 input cfg.SubAgents 0 h
  unfold workflowAgent.Run
  rw [hb]
  constructor
  · rw [drain_recoverBoundary]
    simp [passEvents]
  · exact next_recoverBoundary_done _ _ (fun msg hm => PassEnd.noConfusion hm)

/-- C4 on the agents of TestSequentialAgent: two events, Agent1 then Agent2. -/
theorem sequential_run_concat_witness :
    drain ((NewSequentialAgent
        { Name := "SequentialTestAgent", Description := "Test sequential agent",
          SubAgents :=
            [newMockAgent "Agent1" "First agent" [testEvent "Agent1" "Response from Agent1" none],
             newMockAgent "Agent2" "Second agent"
               [testEvent "Agent2" "Response from Agent2" none]] }).Run [] none)
      = some [testEvent "Agent1" "Response from Agent1" none,
              testEvent "Agent2" "Response from Agent2" none] :=
  (sequential_run_concat _ [] none (by decide)).1

/-- C5: in a sequential workflow, when the sub-agents before `a` hand back normal
events only and `a` emits normal events `es1` and then an event `x` with the Exit
action, the workflow yields the events up to and including `x` and ends the stream;
the result is the same whatever sub-agents `post` follow (they are not invoked) and
whatever `a` would have emitted after `x`. -/
theorem sequential_exit_stops (name description : String) (pre post : List Agent)
    (a : Agent) (es1 es2 : List AgentEvent) (x : AgentEvent) (sched : List Nat)
    (input : Option AgentInput)
    (hpre : ∀ p ∈ pre, (p.Run 0 input).isNormal = true)
    (ha : a.Run 0 input = RunOutcome.stream (es1 ++ x :: es2))
    (hes1 : ∀ e ∈ es1, e.isNormal = true)
    (hx : x.hasExit = true) :
    drain ((NewSequentialAgent
        { Name := name, Description := description, SubAgents := pre ++ a :: post }).Run
          sched input)
        = some (passEvents pre 0 input ++ es1 ++ [x])
      ∧ AsyncIterator.Next ((NewSequentialAgent
        { Name := name, Description := description, SubAgents := pre ++ a :: post }).Run
          sched input) (passEvents pre 0 input ++ es1 ++ [x]).length
        = NextResult.done := by
  have hrelay : ∀ (wrap : InterruptInfo → InterruptInfo) (tl : List AgentEvent),
      relayEvents wrap false 0 (x :: tl) = ([x], true) := by
    intro wrap tl
    unfold AgentEvent.hasExit at hx
    unfold relayEvents
    by_cases herr : x.Err.isSome = true
    · simp [herr]
    · cases hA : x.Action with
      | none => rw [hA] at hx; exact Bool.noConfusion hx
      | some act =>
        rw [hA] at hx
        simp only [herr, hA]
        simp at hx
        simp [hx]
  have hrelay2 : ∀ (wrap : InterruptInfo → InterruptInfo) (l : List AgentEvent),
      (∀ e ∈ l, e.isNormal = true) →
      relayEvents wrap false 0 (l ++ x :: es2) = (l ++ [x], true) := by
    intro wrap l hl
    induction l with
    | nil => simpa using hrelay wrap es2
    | cons e l ih =>
      have ih2 := ih (fun y hy => hl y (List.mem_cons_of_mem _ hy))
      have he := relayEvents_normal wrap false 0 [e] (by
        intro y hy
        rw [List.mem_singleton] at hy
        subst hy
        exact hl _ (List.mem_cons_self _ _))
      have he2 : e.isNormal = true := hl _ (List.mem_cons_self _ _)
      unfold AgentEvent.isNormal at he2
      rw [Bool.and_eq_true] at he2
      obtain ⟨herr, hact⟩ := he2
      have herr2 : e.Err.isSome = false := by
        cases hE : e.Err with
        | none => rfl
        | some m => rw [hE] at herr; exact Bool.noConfusion herr
      rw [List.cons_append]
      unfold relayEvents
      cases hA : e.Action with
      | none => simp only [herr2, hA, ih2]; rfl
      | some act =>
        rw [hA] at hact
        simp only [Bool.and_eq_true, Bool.not_eq_true_eq_eq_false, Option.isNone_iff_eq_none]
          at hact
        obtain ⟨⟨hexit, hint⟩, hbl⟩ := hact
        simp only [herr2, hA, hexit, hint, hbl, ih2]
        rfl
  have hb : (NewSequentialAgent
        { Name := name, Description := description, SubAgents := pre ++ a :: post }).runBody
          sched input
      = (passEvents pre 0 input ++ es1 ++ [x], PassEnd.stopped) := by
    simp only [workflowAgent.runBody, NewSequentialAgent]
    rw [runSequentialFrom_normal_append false 0 input pre (a :: post) 0 hpre]
    rw [runSequentialFrom]
    simp only [invokeSubAgent, ha, hrelay2 _ es1 hes1]
    simp [List.append_assoc]
  unfold workflowAgent.Run
  rw [hb]
  constructor
  · rw [drain_recoverBoundary]
    simp
  · exact next_recoverBoundary_done _ _ (fun msg hm => PassEnd.noConfusion hm)

/-- C5 on the agents of TestSequentialAgentWithExit: one event, Agent2 not run. -/
theorem sequential_exit_stops_witness :
    drain ((NewSequentialAgent
        { Name := "SequentialTestAgent", Description := "Test sequential agent",
          SubAgents := [] ++
            newMockAgent "Agent1" "First agent"
              [testEvent "Agent1" "Response from Agent1" (some exitAction)] ::
            [newMockAgent "Agent2" "Second agent"
              [testEvent "Agent2" "Response from Agent2" none]] }).Run [] none)
      = some (passEvents [] 0 none ++ [] ++
          [testEvent "Agent1" "Response from Agent1" (some exitAction)]) :=
  (sequential_exit_stops "SequentialTestAgent" "Test sequential agent" []
    [newMockAgent "Agent2" "Second agent" [testEvent "Agent2" "Response from Agent2" none]]
    (newMockAgent "Agent1" "First agent"
      [testEvent "Agent1" "Response from Agent1" (some exitAction)])
    [] [] (testEvent "Agent1" "Response from Agent1" (some exitAction)) [] none
    (by decide) rfl (by decide) rfl).1

/-- C6: a loop workflow with `MaxIterations = n` whose sub-agents hand back normal
events only on every call yields the `n` sequential passes one after the other and
then ends; when every pass emits `len` events it yields `n * len` events. -/
theorem loop_run_repeats (cfg : LoopAgentConfig) (sched : List Nat)
    (input : Option AgentInput)
    (h : ∀ k, k < cfg.MaxIterations → ∀ a ∈ cfg.SubAgents, (a.Run k input).isNormal = true) :
    drain ((NewLoopAgent cfg).Run sched input)
        = some (loopEvents cfg.SubAgents input cfg.MaxIterations 0)
      ∧ AsyncIterator.Next ((NewLoopAgent cfg).Run sched input)
          (loopEvents cfg.SubAgents input cfg.MaxIterations 0).length = NextResult.done
      ∧ ∀ len, (∀ k, k < cfg.MaxIterations →
            (passEvents cfg.SubAgents k input).length = len) →
          (loopEvents cfg.SubAgents input cfg.MaxIterations 0).length
            = cfg.MaxIterations * len := by
  have hb : (NewLoopAgent cfg).runBody sched input
      = (loopEvents cfg.SubAgents input cfg.MaxIterations 0, PassEnd.completed) := by
    simp only [workflowAgent.runBody, NewLoopAgent]
    exact runLoopFrom_normal cfg.SubAgents input cfg.MaxIterations 0
      (fun k _ h2 => h k (by omega))
  unfold workflowAgent.Run
  rw [hb]
  refine ⟨?_, ?_, ?_⟩
  · rw [drain_recoverBoundary]
    simp
  · exact next_recoverBoundary_done _ _ (fun msg hm => PassEnd.noConfusion hm)
  · intro len hl
    exact loopEvents_length cfg.SubAgents input len cfg.MaxIterations 0
      (fun k _ h2 => hl k (by omega))

/-- C6 on the configuration of TestLoopAgent: three events. -/
theorem loop_run_repeats_witness :
    drain ((NewLoopAgent
        { Name := "LoopTestAgent", Description := "Test loop agent",
          SubAgents := [newMockAgent "LoopAgent" "Loop agent"
            [testEvent "LoopAgent" "Loop iteration" none]],
          MaxIterations := 3 }).Run [] none)
      = some [testEvent "LoopAgent" "Loop iteration" none,
              testEvent "LoopAgent" "Loop iteration" none,
              testEvent "LoopAgent" "Loop iteration" none] :=
  (loop_run_repeats
    { Name := "LoopTestAgent", Description := "Test loop agent",
      SubAgents := [newMockAgent "LoopAgent" "Loop agent"
        [testEvent "LoopAgent" "Loop iteration" none]],
      MaxIterations := 3 } [] none
    (by
      intro k _ a ha
      rw [List.mem_singleton] at ha
      subst ha
      rfl)).1

/-- C7: in a loop workflow, let the first `j` iterations complete with normal events
only and let, in iteration `j`, the sub-agents before `a` emit normal events only
and `a` emit normal events `es1` and then an event `x` whose action is BreakLoop.
Then the workflow yields the events so far and, as its last event, `x` with
`BreakLoop.Done = true`, `BreakLoop.From` as the originating agent gave it, and
`BreakLoop.CurrentIterations = j`; no further sub-agent or iteration runs (the
result does not depend on `post`, on `es2` or on later iterations). -/
theorem loop_break_stops (name description : String) (pre post : List Agent) (a : Agent)
    (n j : Nat) (es1 es2 : List AgentEvent) (x : AgentEvent) (act : AgentAction)
    (b : BreakLoopAction) (sched : List Nat) (input : Option AgentInput)
    (hj : j < n)
    (hbefore : ∀ k, k < j → ∀ p ∈ pre ++ a :: post, (p.Run k input).isNormal = true)
    (hpre : ∀ p ∈ pre, (p.Run j input).isNormal = true)
    (ha : a.Run j input = RunOutcome.stream (es1 ++ x :: es2))
    (hes1 : ∀ e ∈ es1, e.isNormal = true)
    (herr : x.Err = none) (hact : x.Action = some act) (hexit : act.Exit = false)
    (hint : act.Interrupted = none) (hb : act.BreakLoop = some b) :
    drain ((NewLoopAgent
        { Name := name, Description := description, SubAgents := pre ++ a :: post,
          MaxIterations := n }).Run sched input)
      = some (loopEvents (pre ++ a :: post) input j 0 ++ passEvents pre j input ++ es1 ++
          [breakLoopForwarded x act b j])
    ∧ (breakLoopForwarded x act b j).Action.bind (fun c => c.BreakLoop)
      = some { From := b.From, Done := true, CurrentIterations := j } := by
  have hpass : runSequentialFrom true j input 0 none (pre ++ a :: post)
      = (passEvents pre j input ++ es1 ++ [breakLoopForwarded x act b j],
         PassEnd.stopped) := by
    rw [runSequentialFrom_normal_append true j input pre (a :: post) 0 hpre]
    rw [runSequentialFrom]
    simp only [invokeSubAgent, ha]
    rw [relayEvents_normal_append _ true j es1 (x :: es2) hes1,
      relayEvents_breakLoop _ j x act b es2 herr hact hexit hint hb]
    simp [List.append_assoc]
  have hloop : runLoopFrom (pre ++ a :: post) input n 0
      = (loopEvents (pre ++ a :: post) input j 0 ++ passEvents pre j input ++ es1 ++
          [breakLoopForwarded x act b j], PassEnd.stopped) := by
    obtain ⟨m, rfl⟩ : ∃ m, n = j + (m + 1) := ⟨n - j - 1, by omega⟩
    rw [runLoopFrom_after_normal (pre ++ a :: post) input j (m + 1) 0
      (fun k _ h2 => hbefore k (by omega))]
    rw [Nat.zero_add, runLoopFrom, hpass]
    simp [List.append_assoc]
  constructor
  · unfold workflowAgent.Run
    simp only [workflowAgent.runBody, NewLoopAgent]
    rw [hloop, drain_recoverBoundary]
    simp
  · simp [breakLoopForwarded]

/-- C7 on the configuration of TestLoopAgentWithBreakLoop: one event, with Done set,
From the agent name and CurrentIterations 0. -/
theorem loop_break_stops_witness :
    drain ((NewLoopAgent
        { Name := "LoopTestAgent", Description := "Test loop agent",
          SubAgents := [] ++ newMockAgent "LoopAgent" "Loop agent"
            [testEvent "LoopAgent" "Loop iteration with break loop"
              (some (NewBreakLoopAction "LoopAgent"))] :: [],
          MaxIterations := 3 }).Run [] none)
      = some (loopEvents ([] ++ newMockAgent "LoopAgent" "Loop agent"
            [testEvent "LoopAgent" "Loop iteration with break loop"
              (some (NewBreakLoopAction "LoopAgent"))] :: []) none 0 0
          ++ passEvents [] 0 none ++ [] ++
          [breakLoopForwarded
            (testEvent "LoopAgent" "Loop iteration with break loop"
              (some (NewBreakLoopAction "LoopAgent")))
            (NewBreakLoopAction "LoopAgent")
            { From := "LoopAgent", Done := false, CurrentIterations := 0 } 0]) :=
  (loop_break_stops "LoopTestAgent" "Test loop agent" [] []
    (newMockAgent "LoopAgent" "Loop agent"
      [testEvent "LoopAgent" "Loop iteration with break loop"
        (some (NewBreakLoopAction "LoopAgent"))])
    3 0 [] []
    (testEvent "LoopAgent" "Loop iteration with break loop"
      (some (NewBreakLoopAction "LoopAgent")))
    (NewBreakLoopAction "LoopAgent")
    { From := "LoopAgent", Done := false, CurrentIterations := 0 } [] none
    (by decide) (by intro k hk; exact absurd hk (Nat.not_lt_zero k))
    (by intro p hp; exact absurd hp (List.not_mem_nil p)) rfl
    (by intro e he; exact absurd he (List.not_mem_nil e)) rfl rfl rfl rfl rfl).1

/-- C8: `Resume` with an `InterruptInfo.Data` that is not a `*WorkflowInterruptInfo`
yields exactly one event, an error whose message names the expected type and the
actual type of `Data`, and then ends the stream; the result is the same for every
workflow agent, so no sub-agent is invoked. -/
theorem resume_invalid_data_type (a : workflowAgent) (sched : List Nat) (streaming : Bool)
    (goType : String) :
    drain (a.Resume sched ⟨streaming, InterruptInfo.data goType⟩)
      = some [errorEvent ("type of InterruptInfo.Data is expected to " ++
          expectedInterruptType ++ ", actual: " ++ goType)]
    ∧ AsyncIterator.Next (a.Resume sched ⟨streaming, InterruptInfo.data goType⟩) 1 = NextResult.done
    ∧ expectedInterruptType.data <:+: ("type of InterruptInfo.Data is expected to " ++
          expectedInterruptType ++ ", actual: " ++ goType).data
    ∧ ("actual: " ++ goType).data <:+: ("type of InterruptInfo.Data is expected to " ++
          expectedInterruptType ++ ", actual: " ++ goType).data := by
  refine ⟨rfl, rfl, ?_, ?_⟩
  · simp only [String.data_append]
    exact ⟨"type of InterruptInfo.Data is expected to ".data, ", actual: ".data ++ goType.data,
      by simp⟩
  · simp only [String.data_append]
    refine ⟨"type of InterruptInfo.Data is expected to ".data ++ expectedInterruptType.data
      ++ [',', ' '], [], ?_⟩
    simp

/-- C10: a parallel workflow whose sub-agents hand back normal events only yields,
for every arrival order, a stream that is closed, holds exactly the events of all
sub-agents (as a multiset; their number is the sum of the branch counts) and holds
the events of every single sub-agent in that sub-agent's own order. -/
theorem parallel_run_interleaves (cfg : ParallelAgentConfig) (sched : List Nat)
    (input : Option AgentInput)
    (h : ∀ a ∈ cfg.SubAgents, (a.Run 0 input).isNormal = true) :
    ∃ out, drain ((NewParallelAgent cfg).Run sched input) = some out
      ∧ AsyncIterator.Next ((NewParallelAgent cfg).Run sched input) out.length
          = NextResult.done
      ∧ out.Perm (passEvents cfg.SubAgents 0 input)
      ∧ out.length = (cfg.SubAgents.map (fun a => (a.Run 0 input).events.length)).sum
      ∧ ∀ a ∈ cfg.SubAgents, (a.Run 0 input).events.Sublist out := by
  have hstream : ∀ a ∈ cfg.SubAgents,
      branchStream a input none = (a.Run 0 input).events := by
    intro a ha
    obtain ⟨es, hrun, _⟩ := (RunOutcome.isNormal_iff _).mp (h a ha)
    simp [branchStream, invokeSubAgent, hrun, RunOutcome.events]
  have hmap : cfg.SubAgents.map (fun a => branchStream a input none)
      = cfg.SubAgents.map (fun a => (a.Run 0 input).events) :=
    List.map_congr_left hstream
  have hnormal : ∀ es ∈ cfg.SubAgents.map (fun a => (a.Run 0 input).events),
      ∀ e ∈ es, e.isNormal = true := by
    intro es hes e he
    obtain ⟨a, ha, rfl⟩ := List.mem_map.mp hes
    obtain ⟨es2, hrun, hall⟩ := (RunOutcome.isNormal_iff _).mp (h a ha)
    rw [hrun] at he
    exact hall e he
  have hpar := parallel_normal_streams _ 0 hnormal
  have hb : (NewParallelAgent cfg).runBody sched input
      = (fanIn sched (cfg.SubAgents.map (fun a => (a.Run 0 input).events)),
         PassEnd.completed) := by
    simp only [workflowAgent.runBody, NewParallelAgent, runParallel, runParallelStreams, hmap,
      hpar.1, hpar.2]
  have hperm : (fanIn sched (cfg.SubAgents.map (fun a => (a.Run 0 input).events))).Perm
      (passEvents cfg.SubAgents 0 input) := by
    have := fanIn_perm sched (cfg.SubAgents.map (fun a => (a.Run 0 input).events))
    rwa [← List.flatMap_def] at this
  refine ⟨fanIn sched (cfg.SubAgents.map (fun a => (a.Run 0 input).events)), ?_, ?_, hperm,
    ?_, ?_⟩
  · unfold workflowAgent.Run
    rw [hb, drain_recoverBoundary]
    simp
  · unfold workflowAgent.Run
    rw [hb]
    exact next_recoverBoundary_done _ _ (fun msg hm => PassEnd.noConfusion hm)
  · rw [hperm.length_eq, passEvents, List.flatMap_def, List.length_flatten, List.map_map]
    rfl
  · intro a ha
    obtain ⟨j, hj, hget⟩ := List.getElem_of_mem ha
    apply fanIn_sublist sched _ j
    rw [List.get?_eq_getElem?, List.getElem?_map, List.getElem?_eq_getElem hj, hget]
    rfl

/-- C10 on the agents of TestParallelAgent, with Agent2 arriving first. -/
theorem parallel_run_interleaves_witness :
    ∃ out, drain ((NewParallelAgent
        { Name := "ParallelTestAgent", Description := "Test parallel agent",
          SubAgents :=
            [newMockAgent "Agent1" "First agent" [testEvent "Agent1" "Response from Agent1" none],
             newMockAgent "Agent2" "Second agent"
               [testEvent "Agent2" "Response from Agent2" none]] }).Run [1, 0] none) = some out
      ∧ out.length = 2 := by
  obtain ⟨out, h1, _, _, h4, _⟩ := parallel_run_interleaves
    { Name := "ParallelTestAgent", Description := "Test parallel agent",
      SubAgents :=
        [newMockAgent "Agent1" "First agent" [testEvent "Agent1" "Response from Agent1" none],
         newMockAgent "Agent2" "Second agent"
           [testEvent "Agent2" "Response from Agent2" none]] } [1, 0] none (by decide)
  exact ⟨out, h1, h4⟩

/-- C9, as stated, fails: in a sequential workflow whose first sub-agent emits one
normal event and whose second sub-agent panics in `Run`, the output stream holds two
events, the relayed event and then the panic event, not exactly one. -/
theorem panic_after_relayed_event_two_events :
    drain ((NewSequentialAgent
        { Name := "PanicTestAgent", Description := "Test agent with panic",
          SubAgents :=
            [newMockAgent "Agent1" "First agent" [testEvent "Agent1" "Response from Agent1" none],
             panicMockAgent "PanicAgent" "Agent that panics"] }).Run [] none)
      = some [testEvent "Agent1" "Response from Agent1" none,
              panicEvent "test panic in agent"]
    ∧ (drain ((NewSequentialAgent
        { Name := "PanicTestAgent", Description := "Test agent with panic",
          SubAgents :=
            [newMockAgent "Agent1" "First agent" [testEvent "Agent1" "Response from Agent1" none],
             panicMockAgent "PanicAgent" "Agent that panics"] }).Run [] none)).map List.length
      ≠ some 1 := by
  constructor
  · rfl
  · intro h
    have h2 : (some 2 : Option Nat) = some 1 := h
    exact absurd (Option.some.inj h2) (by decide)

/-- C9, amended, in three parts, each under its own conditions.
Run: when the active sub-agent of a sequential or loop workflow panics in `Run` (in
iteration `j`, after normal iterations and normal sub-agents before it), the output
stream holds the events relayed before the panic, then exactly one more event, an
error whose message contains "panic", and is then closed: the next call of `Next`
answers end of stream.
Resume: when the sub-agent at the recorded index of a sequential or loop workflow
panics in `Resume`, the output stream of the workflow's `Resume` holds exactly one
event, an error whose message contains "panic", and is then closed: the second call
of `Next` answers end of stream.
Parallel: the panic event of the panicking branch is delivered once among the events
of the other branches. -/
theorem panic_recovered :
    (∀ (wf : workflowAgent) (pre post : List Agent) (p : Agent) (j : Nat) (msg : String)
        (sched : List Nat) (input : Option AgentInput),
        ((wf.mode = workflowAgentMode.Sequential ∧ j = 0) ∨
          (wf.mode = workflowAgentMode.Loop ∧ j < wf.maxIterations)) →
        wf.subAgents = pre ++ p :: post →
        (∀ k, k < j → ∀ q ∈ wf.subAgents, (q.Run k input).isNormal = true) →
        (∀ q ∈ pre, (q.Run j input).isNormal = true) →
        p.Run j input = RunOutcome.panics msg →
        drain (wf.Run sched input)
            = some (loopEvents wf.subAgents input j 0 ++ passEvents pre j input
                ++ [panicEvent msg])
          ∧ AsyncIterator.Next (wf.Run sched input)
              ((loopEvents wf.subAgents input j 0 ++ passEvents pre j input).length + 1)
            = NextResult.done
          ∧ (panicEvent msg).Err = some ("panic error: " ++ msg)
          ∧ "panic".data <:+: ("panic error: " ++ msg).data)
    ∧ (∀ (wf : workflowAgent) (sched : List Nat) (streaming : Bool)
        (origInput : Option AgentInput) (idx loopIterations : Nat)
        (nested : InterruptInfo) (par : List (Nat × InterruptInfo)) (r : Agent)
        (rest : List Agent) (f : ResumeInfo → RunOutcome) (msg : String),
        (wf.mode = workflowAgentMode.Sequential ∨ wf.mode = workflowAgentMode.Loop) →
        wf.subAgents.drop idx = r :: rest → r.Resume = some f →
        f ⟨streaming, nested⟩ = RunOutcome.panics msg →
        drain (wf.Resume sched
            ⟨streaming, InterruptInfo.workflow origInput idx (some nested) loopIterations par⟩)
          = some [panicEvent msg]
        ∧ AsyncIterator.Next (wf.Resume sched
            ⟨streaming, InterruptInfo.workflow origInput idx (some nested) loopIterations par⟩)
            0 = NextResult.value (panicEvent msg)
        ∧ AsyncIterator.Next (wf.Resume sched
            ⟨streaming, InterruptInfo.workflow origInput idx (some nested) loopIterations par⟩)
            1 = NextResult.done
        ∧ (panicEvent msg).Err = some ("panic error: " ++ msg)
        ∧ "panic".data <:+: ("panic error: " ++ msg).data)
    ∧ (∀ (cfg : ParallelAgentConfig) (pre post : List Agent) (p : Agent) (msg : String)
        (sched : List Nat) (input : Option AgentInput),
        cfg.SubAgents = pre ++ p :: post →
        (∀ q ∈ pre ++ post, (q.Run 0 input).isNormal = true) →
        p.Run 0 input = RunOutcome.panics msg →
        ∃ out, drain ((NewParallelAgent cfg).Run sched input) = some out
          ∧ out.Perm (passEvents pre 0 input ++ panicEvent msg :: passEvents post 0 input))
    := by
  have hcontains : ∀ msg : String, "panic".data <:+: ("panic error: " ++ msg).data := by
    intro msg
    simp only [String.data_append]
    exact ⟨[], " error: ".data ++ msg.data, by simp⟩
  refine ⟨?_, ?_, ?_⟩
  · intro wf pre post p j msg sched input hmode hsub hbefore hpre hp
    have hb : wf.runBody sched input
        = (loopEvents wf.subAgents input j 0 ++ passEvents pre j input,
           PassEnd.panicked msg) := by
      rcases hmode with ⟨hm, hj⟩ | ⟨hm, hj⟩
      · subst hj
        simp only [workflowAgent.runBody, hm, hsub]
        rw [runSequentialFrom_panic false 0 input pre post p msg 0 hpre hp]
        simp [loopEvents]
      · simp only [workflowAgent.runBody, hm]
        obtain ⟨m, hm2⟩ : ∃ m, wf.maxIterations = j + (m + 1) :=
          ⟨wf.maxIterations - j - 1, by omega⟩
        rw [hm2, runLoopFrom_after_normal wf.subAgents input j (m + 1) 0
          (fun k _ h2 => hbefore k (by omega))]
        rw [Nat.zero_add, runLoopFrom]
        have hpass : runSequentialFrom true j input 0 none wf.subAgents
            = (passEvents pre j input, PassEnd.panicked msg) := by
          rw [hsub]
          exact runSequentialFrom_panic true j input pre post p msg 0 hpre hp
        rw [hpass]
    refine ⟨?_, ?_, rfl, hcontains msg⟩
    · unfold workflowAgent.Run
      rw [hb, drain_recoverBoundary]
    · unfold workflowAgent.Run
      rw [hb]
      exact (next_recoverBoundary_panicked _ msg).2
  · intro wf sched streaming origInput idx loopIterations nested par r rest f msg hmode hdrop
      hr hf
    have hb : wf.resumeBody sched streaming origInput idx (some nested) loopIterations par
        = ([], PassEnd.panicked msg) := by
      rcases hmode with hm | hm
      · simp only [workflowAgent.resumeBody, hm, hdrop]
        exact runSequentialFrom_resume_panic false 0 origInput r rest f _ msg idx hr hf
      · simp only [workflowAgent.resumeBody, hm, hdrop]
        rw [runSequentialFrom_resume_panic true loopIterations origInput r rest f _ msg idx
          hr hf]
    refine ⟨?_, ?_, ?_, rfl, hcontains msg⟩
    · simp only [workflowAgent.Resume]
      rw [hb, drain_recoverBoundary]
      rfl
    · simp only [workflowAgent.Resume]
      rw [hb]
      exact (next_recoverBoundary_panicked [] msg).1
    · simp only [workflowAgent.Resume]
      rw [hb]
      exact (next_recoverBoundary_panicked [] msg).2
  · intro cfg pre2 post2 p2 msg2 sched input hcfg hnorm hp2
    have hstream : ∀ a ∈ pre2 ++ post2,
        branchStream a input none = (a.Run 0 input).events := by
      intro a ha
      obtain ⟨es, hrun, _⟩ := (RunOutcome.isNormal_iff _).mp (hnorm a ha)
      simp [branchStream, invokeSubAgent, hrun, RunOutcome.events]
    have hp3 : branchStream p2 input none = [panicEvent msg2] := by
      simp [branchStream, invokeSubAgent, hp2]
    have hmap : cfg.SubAgents.map (fun a => branchStream a input none)
        = pre2.map (fun a => (a.Run 0 input).events) ++ [panicEvent msg2] ::
            post2.map (fun a => (a.Run 0 input).events) := by
      rw [hcfg, List.map_append, List.map_cons, hp3]
      congr 1
      · exact List.map_congr_left (fun a ha => hstream a (List.mem_append_left _ ha))
      · congr 1
        exact List.map_congr_left (fun a ha => hstream a (List.mem_append_right _ ha))
    have hnone : ∀ es ∈ pre2.map (fun a => (a.Run 0 input).events) ++ [panicEvent msg2] ::
        post2.map (fun a => (a.Run 0 input).events),
        ∀ e ∈ es, e.Action.bind (fun a => a.Interrupted) = none := by
      intro es hes e he
      have hcase : es = [panicEvent msg2] ∨
          ∃ a ∈ pre2 ++ post2, es = (a.Run 0 input).events := by
        rw [List.mem_append, List.mem_cons] at hes
        rcases hes with h1 | h1 | h1
        · obtain ⟨a, ha, rfl⟩ := List.mem_map.mp h1
          exact Or.inr ⟨a, List.mem_append_left _ ha, rfl⟩
        · exact Or.inl h1
        · obtain ⟨a, ha, rfl⟩ := List.mem_map.mp h1
          exact Or.inr ⟨a, List.mem_append_right _ ha, rfl⟩
      rcases hcase with h1 | ⟨a, ha, h1⟩
      · subst h1
        rw [List.mem_singleton] at he
        subst he
        rfl
      · subst h1
        obtain ⟨es2, hrun, hall⟩ := (RunOutcome.isNormal_iff _).mp (hnorm a ha)
        rw [hrun] at he
        exact interrupted_none_of_normal e (hall e he)
    have hpar := parallel_streams_none _ 0 hnone
    refine ⟨fanIn sched (pre2.map (fun a => (a.Run 0 input).events) ++ [panicEvent msg2] ::
        post2.map (fun a => (a.Run 0 input).events)), ?_, ?_⟩
    · unfold workflowAgent.Run
      simp only [workflowAgent.runBody, NewParallelAgent, runParallel, runParallelStreams,
        hmap, hpar.1, hpar.2]
      rw [drain_recoverBoundary]
      simp
    · have := fanIn_perm sched (pre2.map (fun a => (a.Run 0 input).events) ++
        [panicEvent msg2] :: post2.map (fun a => (a.Run 0 input).events))
      simpa [passEvents, List.flatMap_def] using this

/-- C9 amended, on the three configurations. Run, TestWorkflowAgentPanicRecovery:
the panicking agent is the only sub-agent, so the stream holds the panic event alone
and the second call of `Next` answers end of stream. Resume,
TestWorkflowAgentResumePanicRecovery: the only sub-agent runs normally and panics in
`Resume`; resumed at index 0 with nested interrupt data of type string, the stream
holds the panic event alone and the second call of `Next` answers end of stream.
Parallel: a normal branch and a panicking branch give two events. -/
theorem panic_recovered_witness :
    (drain ((NewSequentialAgent
          { Name := "PanicTestAgent", Description := "Test agent with panic",
            SubAgents := [panicMockAgent "PanicAgent" "Agent that panics"] }).Run []
          (some { Messages := [UserMessage "Test input"], EnableStreaming := false }))
        = some [panicEvent "test panic in agent"]
      ∧ AsyncIterator.Next ((NewSequentialAgent
          { Name := "PanicTestAgent", Description := "Test agent with panic",
            SubAgents := [panicMockAgent "PanicAgent" "Agent that panics"] }).Run []
          (some { Messages := [UserMessage "Test input"], EnableStreaming := false })) 1
        = NextResult.done)
    ∧ (drain ((NewSequentialAgent
          { Name := "ResumeTestAgent", Description := "Test agent for resume panic",
            SubAgents :=
              [mockResumableAgent "PanicResumeAgent" "Agent that panics on resume" []] }).Resume
          []
          ⟨false, InterruptInfo.workflow
            (some { Messages := [UserMessage "test"], EnableStreaming := false }) 0
            (some (InterruptInfo.data "string")) 0 []⟩)
        = some [panicEvent "test panic in resume"]
      ∧ AsyncIterator.Next ((NewSequentialAgent
          { Name := "ResumeTestAgent", Description := "Test agent for resume panic",
            SubAgents :=
              [mockResumableAgent "PanicResumeAgent" "Agent that panics on resume" []] }).Resume
          []
          ⟨false, InterruptInfo.workflow
            (some { Messages := [UserMessage "test"], EnableStreaming := false }) 0
            (some (InterruptInfo.data "string")) 0 []⟩) 1
        = NextResult.done)
    ∧ (∃ out, drain ((NewParallelAgent
          { Name := "ParallelPanicAgent", Description := "Test parallel agent with panic",
            SubAgents :=
              [newMockAgent "Agent1" "First agent" [testEvent "Agent1" "Response from Agent1" none],
               panicMockAgent "PanicAgent" "Agent that panics"] }).Run [1, 0] none) = some out
        ∧ out.length = 2) := by
  refine ⟨?_, ?_, ?_⟩
  · have h := panic_recovered.1
      (NewSequentialAgent
        { Name := "PanicTestAgent", Description := "Test agent with panic",
          SubAgents := [panicMockAgent "PanicAgent" "Agent that panics"] })
      [] [] (panicMockAgent "PanicAgent" "Agent that panics") 0 "test panic in agent" []
      (some { Messages := [UserMessage "Test input"], EnableStreaming := false })
      (Or.inl ⟨rfl, rfl⟩) rfl
      (by intro k hk; exact absurd hk (Nat.not_lt_zero k))
      (by intro q hq; exact absurd hq (List.not_mem_nil q)) rfl
    exact ⟨h.1, h.2.1⟩
  · have h := panic_recovered.2.1
      (NewSequentialAgent
        { Name := "ResumeTestAgent", Description := "Test agent for resume panic",
          SubAgents :=
            [mockResumableAgent "PanicResumeAgent" "Agent that panics on resume" []] })
      [] false (some { Messages := [UserMessage "test"], EnableStreaming := false }) 0 0
      (InterruptInfo.data "string") []
      (mockResumableAgent "PanicResumeAgent" "Agent that panics on resume" []) []
      (fun _ => RunOutcome.panics "test panic in resume") "test panic in resume"
      (Or.inl rfl) rfl rfl rfl
    exact ⟨h.1, h.2.2.1⟩
  · obtain ⟨out, h1, h2⟩ := panic_recovered.2.2
      { Name := "ParallelPanicAgent", Description := "Test parallel agent with panic",
        SubAgents :=
          [newMockAgent "Agent1" "First agent" [testEvent "Agent1" "Response from Agent1" none],
           panicMockAgent "PanicAgent" "Agent that panics"] }
      [newMockAgent "Agent1" "First agent" [testEvent "Agent1" "Response from Agent1" none]]
      [] (panicMockAgent "PanicAgent" "Agent that panics") "test panic in agent" [1, 0] none
      rfl (by decide) rfl
    exact ⟨out, h1, by rw [h2.length_eq]; rfl⟩

/-! ## Claims on protocol errors of the workflow agent -/

/-- C11: a workflow agent whose mode is none of sequential, parallel or loop yields,
on `Run`, exactly one event, an error whose message contains "unsupported workflow
agent mode", and then ends the stream: the second call of `Next` answers end of
stream. The result is the same for every input, sub-agent list and arrival order,
so no sub-agent is invoked. -/
theorem run_unsupported_mode (a : workflowAgent) (sched : List Nat)
    (input : Option AgentInput) (n : Int) (h : a.mode = workflowAgentMode.other n) :
    drain (a.Run sched input)
        = some [errorEvent ("unsupported workflow agent mode: " ++ toString n)]
      ∧ AsyncIterator.Next (a.Run sched input) 0
        = NextResult.value (errorEvent ("unsupported workflow agent mode: " ++ toString n))
      ∧ AsyncIterator.Next (a.Run sched input) 1 = NextResult.done
      ∧ (errorEvent ("unsupported workflow agent mode: " ++ toString n)).Err
        = some ("unsupported workflow agent mode: " ++ toString n)
      ∧ "unsupported workflow agent mode".data
          <:+: ("unsupported workflow agent mode: " ++ toString n).data := by
  have hrun : a.Run sched input
      = [GenOp.send (errorEvent ("unsupported workflow agent mode: " ++ toString n)),
         GenOp.close] := by
    simp only [workflowAgent.Run, workflowAgent.runBody, h, recoverBoundary, List.map_cons,
      List.map_nil, List.append_nil, List.cons_append, List.nil_append]
  rw [hrun]
  refine ⟨rfl, rfl, rfl, rfl, ?_⟩
  simp only [String.data_append]
  exact ⟨[], [':', ' '] ++ (toString n).data, by simp⟩

/-- C11 on the agent of TestWorkflowAgentUnsupportedMode: mode 999 and no
sub-agent. -/
theorem run_unsupported_mode_witness :
    drain (workflowAgent.Run
        { name := "UnsupportedModeAgent", description := "Agent with unsupported mode",
          subAgents := [], mode := workflowAgentMode.other 999, maxIterations := 0 }
        [] (some { Messages := [{ Role := RoleType.User, Content := "Test input" }],
                   EnableStreaming := false }))
      = some [errorEvent ("unsupported workflow agent mode: " ++ toString (999 : Int))] :=
  (run_unsupported_mode _ [] _ 999 rfl).1

/-! ## Claims on the destination and the hooks of the serializer -/

/-- C12: for every payload (also one that cannot be decoded) and every destination
that is not a pointer or is a nil pointer, `Unmarshal` returns an error, whose
message contains "value must be a non-nil pointer"; it returns, so it does not
panic. -/
theorem unmarshal_requires_non_nil_pointer (env : TypeEnv) (data : Payload)
    (dest : Destination) (h : ∀ elem, dest ≠ Destination.pointer elem) :
    ∃ msg, InternalSerializer.Unmarshal env data dest = Except.error msg
      ∧ "value must be a non-nil pointer".data <:+: msg.data := by
  cases dest with
  | notPointer t => exact ⟨_, rfl, List.infix_refl _⟩
  | nilPointer elem => exact ⟨_, rfl, List.infix_refl _⟩
  | pointer elem => exact absurd rfl (h elem)

/-- C12 on the cases of TestInternalSerializer_Unmarshal: the marshalled 123 into
an `int` and into a nil `*int`, and a payload that cannot be decoded into an
`int`. -/
theorem unmarshal_requires_non_nil_pointer_witness :
    (∃ msg, InternalSerializer.Unmarshal testEnv (Payload.int GoType.int 123)
        (Destination.notPointer GoType.int) = Except.error msg
      ∧ "value must be a non-nil pointer".data <:+: msg.data)
    ∧ (∃ msg, InternalSerializer.Unmarshal testEnv (Payload.int GoType.int 123)
        (Destination.nilPointer GoType.int) = Except.error msg
      ∧ "value must be a non-nil pointer".data <:+: msg.data)
    ∧ (∃ msg, InternalSerializer.Unmarshal testEnv (Payload.hooked "noSuchType" "")
        (Destination.notPointer GoType.int) = Except.error msg
      ∧ "value must be a non-nil pointer".data <:+: msg.data) :=
  ⟨unmarshal_requires_non_nil_pointer testEnv _ _ (by intro elem h; cases h),
   unmarshal_requires_non_nil_pointer testEnv _ _ (by intro elem h; cases h),
   unmarshal_requires_non_nil_pointer testEnv _ _ (by intro elem h; cases h)⟩

/-- The entries of a map of registered custom-hook structs are of an encodable
shape. -/
theorem encodablePairs_hooked (env : TypeEnv) (name : String) (hk : Hooks)
    (hh : env.hooks name = some hk) (hreg : env.registered.contains name = true)
    (entries : List (String × List (String × GoValue))) :
    encodablePairs env
      (entries.map (fun e => (GoValue.str e.1, GoValue.iface (GoValue.struct name e.2))))
      = true := by
  induction entries with
  | nil => rfl
  | cons e es ih =>
    simp only [List.map_cons, encodablePairs, GoValue.encodable, hh, GoValue.typeOf,
      GoType.isRegistered, hreg, ih, Bool.and_self]

/-- Hook replacement in the entries of a map of custom-hook structs. -/
theorem throughHooksPairs_hooked (env : TypeEnv) (name : String) (hk : Hooks)
    (hh : env.hooks name = some hk) (entries : List (String × List (String × GoValue))) :
    throughHooksPairs env
      (entries.map (fun e => (GoValue.str e.1, GoValue.iface (GoValue.struct name e.2))))
      = (entries.map (fun e => (e.1, hk.UnmarshalJSON (hk.MarshalJSON e.2)))).map
          (fun e => (GoValue.str e.1, GoValue.iface (GoValue.struct name e.2))) := by
  induction entries with
  | nil => rfl
  | cons e es ih =>
    simp only [List.map_cons, throughHooksPairs, GoValue.throughHooks, hh, ih]

/-- C14: for every registered type with custom hooks, `Unmarshal(Marshal(s))` of a
value `s` of the type is the struct the decode hook makes of the output of the
encode hook, and the same holds of every such value held in a `map[string]any`:
the fields of `s` are not traversed, the encoding is the output of the encode
hook. -/
theorem custom_hooks_take_precedence (env : TypeEnv) (name : String) (hk : Hooks)
    (fields : List (String × GoValue)) (entries : List (String × List (String × GoValue)))
    (hh : env.hooks name = some hk) (hreg : env.registered.contains name = true) :
    (InternalSerializer.Marshal env (GoValue.struct name fields)
        = Except.ok (Payload.hooked name (hk.MarshalJSON fields))
      ∧ InternalSerializer.Unmarshal env (Payload.hooked name (hk.MarshalJSON fields))
          (Destination.pointer (GoType.named name))
        = Except.ok (GoValue.struct name (hk.UnmarshalJSON (hk.MarshalJSON fields))))
    ∧ (∃ data, InternalSerializer.Marshal env (hookedMapValue name entries) = Except.ok data
      ∧ InternalSerializer.Unmarshal env data
          (Destination.pointer (GoType.map GoType.string GoType.any))
        = Except.ok (hookedMapValue name
            (entries.map (fun e => (e.1, hk.UnmarshalJSON (hk.MarshalJSON e.2)))))) := by
  refine ⟨⟨?_, ?_⟩, ?_⟩
  · simp [InternalSerializer.Marshal, marshalValue, hh]
  · simp only [InternalSerializer.Unmarshal, unmarshalValue, hh]
    exact assignValue_self (GoValue.struct name (hk.UnmarshalJSON (hk.MarshalJSON fields)))
  · have hs : (hookedMapValue name entries).encodable env = true := by
      rw [hookedMapValue, GoValue.encodable]
      exact encodablePairs_hooked env name hk hh hreg entries
    obtain ⟨p, h1, h2⟩ := unmarshal_marshal_value env _ hs
    refine ⟨p, h1, ?_⟩
    have ht : (hookedMapValue name entries).throughHooks env
        = hookedMapValue name
            (entries.map (fun e => (e.1, hk.UnmarshalJSON (hk.MarshalJSON e.2)))) := by
      rw [hookedMapValue, GoValue.throughHooks, throughHooksPairs_hooked env name hk hh]
      rfl
    simp only [InternalSerializer.Unmarshal, h2, ht]
    exact assignValue_self (hookedMapValue name _)

/-- C14 on TestMarshalStruct: `myStruct5{FieldA: "1"}` comes back as
`myStruct5{FieldA: "FieldA"}`, directly and under the key "1" of a
`map[string]any`; the result is not the value marshalled. -/
theorem custom_hooks_take_precedence_witness :
    InternalSerializer.Unmarshal testEnv (Payload.hooked "myStruct5" "1")
        (Destination.pointer (GoType.named "myStruct5"))
      = Except.ok (GoValue.struct "myStruct5" [("FieldA", GoValue.str "FieldA")])
    ∧ (∃ data, InternalSerializer.Marshal testEnv
          (hookedMapValue "myStruct5" [("1", [("FieldA", GoValue.str "1")])])
        = Except.ok data
      ∧ InternalSerializer.Unmarshal testEnv data
          (Destination.pointer (GoType.map GoType.string GoType.any))
        = Except.ok
          (hookedMapValue "myStruct5" [("1", [("FieldA", GoValue.str "FieldA")])])) :=
  ⟨(custom_hooks_take_precedence testEnv "myStruct5" myStruct5Hooks
      [("FieldA", GoValue.str "1")] [("1", [("FieldA", GoValue.str "1")])] rfl
      (by decide)).1.2,
   (custom_hooks_take_precedence testEnv "myStruct5" myStruct5Hooks
      [("FieldA", GoValue.str "1")] [("1", [("FieldA", GoValue.str "1")])] rfl
      (by decide)).2⟩

/-! ## Claims on assignment and conversion in the serializer -/

/-- A value of a type that is not a pointer type is assigned without being
dereferenced. -/
theorem assignValue_of_not_isPtr (v : GoValue) (t : GoType) (h : v.typeOf.isPtr = false) :
    assignValue v t = assignAlloc v t := by
  cases v with
  | ptr w => simp [GoValue.typeOf, GoType.isPtr] at h
  | int s n => rfl
  | str s => rfl
  | bool b => rfl
  | struct name fields => rfl
  | nil s => rfl
  | iface w => rfl
  | slice elem vs => rfl
  | map key val kvs => rfl

/-- Allocation through the pointer levels of the destination ends in "cannot
assign" when the value neither has the type under the pointers nor converts to
it. -/
theorem assignAlloc_cannot_assign (v : GoValue) (hp : v.typeOf.isPtr = false) :
    ∀ t : GoType, v.typeOf ≠ t.stripPtr → t.stripPtr ≠ GoType.any →
      convertScalar v t.stripPtr = none →
      assignAlloc v t = Except.error "cannot assign" := by
  intro t
  induction t with
  | ptr elem ih =>
    intro h1 h2 h3
    have hne : v.typeOf ≠ GoType.ptr elem := by
      intro h
      rw [h] at hp
      exact Bool.noConfusion hp
    rw [assignAlloc, if_neg hne, ih h1 h2 h3]
  | any => intro _ h2 _; exact absurd rfl h2
  | int => intro h1 _ h3; simp [assignAlloc, GoType.stripPtr] at *; simp [h1, h3]
  | int32 => intro h1 _ h3; simp [assignAlloc, GoType.stripPtr] at *; simp [h1, h3]
  | int64 => intro h1 _ h3; simp [assignAlloc, GoType.stripPtr] at *; simp [h1, h3]
  | string => intro h1 _ h3; simp [assignAlloc, GoType.stripPtr] at *; simp [h1, h3]
  | bool => intro h1 _ h3; simp [assignAlloc, GoType.stripPtr] at *; simp [h1, h3]
  | named name => intro h1 _ h3; simp [assignAlloc, GoType.stripPtr] at *; simp [h1, h3]
  | slice elem _ => intro h1 _ h3; simp [assignAlloc, GoType.stripPtr] at *; simp [h1, h3]
  | map key val _ _ => intro h1 _ h3; simp [assignAlloc, GoType.stripPtr] at *; simp [h1, h3]

/-- Wrapping to a width leaves a value of that width's range as it is. -/
theorem wrapInt_of_range (bits : Nat) (n : Int) (hb : 0 < bits)
    (hlo : -(2 : Int) ^ (bits - 1) ≤ n) (hhi : n < (2 : Int) ^ (bits - 1)) :
    wrapInt bits n = n := by
  unfold wrapInt
  have hpow : (2 : Int) ^ bits = 2 * 2 ^ (bits - 1) := by
    obtain ⟨k, rfl⟩ : ∃ k, bits = k + 1 := ⟨bits - 1, by omega⟩
    simp [pow_succ, mul_comm]
  rw [Int.emod_eq_of_lt (by omega) (by omega)]
  omega

/-- An integer value in the range of an integer kind is stored, converted to that
kind, behind the pointer levels of the destination. -/
theorem assignAlloc_int_convert (s : GoType) (n : Int) (hs : s.intBits.isSome = true) :
    ∀ t : GoType, ∀ bits : Nat, t.stripPtr.intBits = some bits →
      -(2 : Int) ^ (bits - 1) ≤ n → n < (2 : Int) ^ (bits - 1) →
      assignAlloc (GoValue.int s n) t
        = Except.ok (allocThrough t (GoValue.int t.stripPtr n)) := by
  intro t
  induction t with
  | ptr elem ih =>
    intro bits hb hlo hhi
    by_cases he : (GoValue.int s n).typeOf = GoType.ptr elem
    · simp only [GoValue.typeOf] at he
      subst he
      exact Bool.noConfusion hs
    · rw [assignAlloc, if_neg he, ih bits hb hlo hhi]
      rfl
  | int =>
    intro bits hb hlo hhi
    simp only [GoType.stripPtr, GoType.intBits, Option.some.injEq] at hb
    subst hb
    by_cases he : (GoValue.int s n).typeOf = GoType.int
    · simp only [GoValue.typeOf] at he
      subst he
      rfl
    · simp only [assignAlloc, if_neg he, convertScalar, GoType.intBits, allocThrough,
        GoType.stripPtr]
      rw [wrapInt_of_range 64 n (by decide) hlo hhi]
  | int32 =>
    intro bits hb hlo hhi
    simp only [GoType.stripPtr, GoType.intBits, Option.some.injEq] at hb
    subst hb
    by_cases he : (GoValue.int s n).typeOf = GoType.int32
    · simp only [GoValue.typeOf] at he
      subst he
      rfl
    · simp only [assignAlloc, if_neg he, convertScalar, GoType.intBits, allocThrough,
        GoType.stripPtr]
      rw [wrapInt_of_range 32 n (by decide) hlo hhi]
  | int64 =>
    intro bits hb hlo hhi
    simp only [GoType.stripPtr, GoType.intBits, Option.some.injEq] at hb
    subst hb
    by_cases he : (GoValue.int s n).typeOf = GoType.int64
    · simp only [GoValue.typeOf] at he
      subst he
      rfl
    · simp only [assignAlloc, if_neg he, convertScalar, GoType.intBits, allocThrough,
        GoType.stripPtr]
      rw [wrapInt_of_range 64 n (by decide) hlo hhi]
  | any => intro bits hb; simp [GoType.stripPtr, GoType.intBits] at hb
  | string => intro bits hb; simp [GoType.stripPtr, GoType.intBits] at hb
  | bool => intro bits hb; simp [GoType.stripPtr, GoType.intBits] at hb
  | named name => intro bits hb; simp [GoType.stripPtr, GoType.intBits] at hb
  | slice elem _ => intro bits hb; simp [GoType.stripPtr, GoType.intBits] at hb
  | map key val _ _ => intro bits hb; simp [GoType.stripPtr, GoType.intBits] at hb

/-- C13, as stated, fails: the marshalled `int` 12345 of the case "pointer to pointer
destination" of TestInternalSerializer_Unmarshal goes into a destination `**int`,
whose element type `*int` the type `int` is neither assignable nor convertible to,
and `Unmarshal` succeeds: the destination holds a pointer to 12345. -/
theorem unmarshal_allocates_through_pointer :
    InternalSerializer.Marshal testEnv (GoValue.int GoType.int 12345)
        = Except.ok (Payload.int GoType.int 12345)
    ∧ GoType.assignableTo (GoValue.int GoType.int 12345).typeOf (GoType.ptr GoType.int)
        = false
    ∧ GoType.convertibleTo (GoValue.int GoType.int 12345).typeOf (GoType.ptr GoType.int)
        = false
    ∧ InternalSerializer.Unmarshal testEnv (Payload.int GoType.int 12345)
          (Destination.pointer (GoType.ptr GoType.int))
        = Except.ok (GoValue.ptr (GoValue.int GoType.int 12345))
    ∧ ¬ ∃ msg, InternalSerializer.Unmarshal testEnv (Payload.int GoType.int 12345)
          (Destination.pointer (GoType.ptr GoType.int)) = Except.error msg := by
  refine ⟨rfl, by decide, by decide, rfl, ?_⟩
  rintro ⟨msg, h⟩
  have h2 : InternalSerializer.Unmarshal testEnv (Payload.int GoType.int 12345)
      (Destination.pointer (GoType.ptr GoType.int))
      = Except.ok (GoValue.ptr (GoValue.int GoType.int 12345)) := rfl
  rw [h2] at h
  cases h

/-- C13, amended: let `v` be a marshalled value of a type that is not a pointer type
and `t` the element type of the destination, with `t0` the type `t` without its
leading pointer levels. When the type of `v` is not convertible (so also not
assignable) to `t0`, `Unmarshal` returns the error "cannot assign". When `v` is an
integer and `t0` an integer kind whose range holds `v`, `Unmarshal` succeeds and
the destination holds, behind the pointer levels of `t`, the integer of kind `t0`
with the same numerical value. -/
theorem unmarshal_assign_or_convert (env : TypeEnv) (v : GoValue) (t : GoType)
    (henc : v.encodable env = true) (hp : v.typeOf.isPtr = false)
    (hk : v.kindOk = true) :
    ∃ data, InternalSerializer.Marshal env v = Except.ok data
      ∧ (GoType.convertibleTo v.typeOf t.stripPtr = false →
          InternalSerializer.Unmarshal env data (Destination.pointer t)
            = Except.error "cannot assign")
      ∧ (∀ s n bits, v = GoValue.int s n → t.stripPtr.intBits = some bits →
          -(2 : Int) ^ (bits - 1) ≤ n → n < (2 : Int) ^ (bits - 1) →
          InternalSerializer.Unmarshal env data (Destination.pointer t)
            = Except.ok (allocThrough t (GoValue.int t.stripPtr n))) := by
  obtain ⟨p, h1, h2⟩ := unmarshal_marshal_value env v henc
  refine ⟨p, h1, ?_, ?_⟩
  · intro hc
    simp only [GoType.convertibleTo, GoType.assignableTo, Bool.or_eq_false_iff,
      decide_eq_false_iff_not, Bool.and_eq_false_iff] at hc
    obtain ⟨⟨hne, hany⟩, hint⟩ := hc
    have hp2 : (v.throughHooks env).typeOf.isPtr = false := by
      rw [typeOf_throughHooks]; exact hp
    have hconv : convertScalar (v.throughHooks env) t.stripPtr = none := by
      cases v with
      | int s n =>
        simp only [GoValue.kindOk] at hk
        simp only [GoValue.typeOf, hk] at hint
        rcases hint with hint | hint
        · exact Bool.noConfusion hint
        · simp only [GoValue.throughHooks, convertScalar]
          cases hb : t.stripPtr.intBits with
          | none => rfl
          | some b => rw [hb] at hint; exact Bool.noConfusion hint
      | str s => rfl
      | bool b => rfl
      | struct name fields =>
        simp only [GoValue.throughHooks]
        cases env.hooks name <;> rfl
      | nil s => rfl
      | ptr w => rfl
      | iface w => rfl
      | slice elem vs => rfl
      | map key val kvs => rfl
    simp only [InternalSerializer.Unmarshal, h2]
    rw [assignValue_of_not_isPtr _ _ hp2]
    exact assignAlloc_cannot_assign _ hp2 t (by rw [typeOf_throughHooks]; exact hne) hany hconv
  · intro s n bits hv hb hlo hhi
    subst hv
    simp only [InternalSerializer.Unmarshal, h2, GoValue.throughHooks]
    rw [assignValue_of_not_isPtr _ _ hp]
    exact assignAlloc_int_convert s n hk t bits hb hlo hhi

/-- C13 amended, on the cases of TestInternalSerializer_Unmarshal: a string into
`*int` and an `int` into `*bool` give "cannot assign", and the `int32` 42 into
`*int64` gives the `int64` 42. -/
theorem unmarshal_assign_or_convert_witness :
    InternalSerializer.Unmarshal testEnv (Payload.str "i am a string")
        (Destination.pointer GoType.int) = Except.error "cannot assign"
    ∧ InternalSerializer.Unmarshal testEnv (Payload.int GoType.int 123)
        (Destination.pointer GoType.bool) = Except.error "cannot assign"
    ∧ InternalSerializer.Unmarshal testEnv (Payload.int GoType.int32 42)
        (Destination.pointer GoType.int64) = Except.ok (GoValue.int GoType.int64 42) := by
  obtain ⟨d1, m1, e1, _⟩ := unmarshal_assign_or_convert testEnv (GoValue.str "i am a string")
    GoType.int rfl rfl rfl
  obtain ⟨d2, m2, e2, _⟩ := unmarshal_assign_or_convert testEnv (GoValue.int GoType.int 123)
    GoType.bool rfl rfl rfl
  obtain ⟨d3, m3, _, c3⟩ := unmarshal_assign_or_convert testEnv (GoValue.int GoType.int32 42)
    GoType.int64 rfl rfl rfl
  cases m1
  cases m2
  cases m3
  exact ⟨e1 (by decide), e2 (by decide),
    c3 GoType.int32 42 64 rfl rfl (by decide) (by decide)⟩

/-! ## Lemmas on the memory model -/

/-- Reading the address just written. -/
theorem upd_same {α : Type} (f : Nat → α) (p : Nat) (x : α) : upd f p x p = x := by
  simp [upd]

/-- Reading another address than the one written. -/
theorem upd_other {α : Type} (f : Nat → α) (p q : Nat) (x : α) (h : q ≠ p) :
    upd f p x q = f q := by
  simp [upd, h]

/-- What `initRunCtx` leaves alone: it returns the next free run-context address,
under which the returned context carries the new run context, and every other run
context, every allocated array, every session and every map is as before. -/
theorem initRunCtx_frame (h : Heap) (ctx : Context) (name : String)
    (input : Option AgentInput) :
    (initRunCtx h ctx name input).2.2 = h.nextRunCtx
    ∧ getRunCtx (initRunCtx h ctx name input).2.1 = some h.nextRunCtx
    ∧ (initRunCtx h ctx name input).1.nextRunCtx = h.nextRunCtx + 1
    ∧ (∀ q, q ≠ h.nextRunCtx → (initRunCtx h ctx name input).1.runCtxs q = h.runCtxs q)
    ∧ (∀ a, a < h.nextArray → (initRunCtx h ctx name input).1.arrays a = h.arrays a)
    ∧ h.nextArray ≤ (initRunCtx h ctx name input).1.nextArray
    ∧ (∀ s, s < h.nextSession → (initRunCtx h ctx name input).1.sessions s = h.sessions s)
    ∧ h.nextSession ≤ (initRunCtx h ctx name input).1.nextSession
    ∧ (∀ m, m < h.nextMap → (initRunCtx h ctx name input).1.maps m = h.maps m)
    ∧ h.nextMap ≤ (initRunCtx h ctx name input).1.nextMap
    ∧ (initRunCtx h ctx name input).1.spare = h.spare := by
  cases hg : getRunCtx ctx with
  | none =>
    simp only [initRunCtx, initRunCtxStart, hg, newRunSession, Heap.makeMap, Heap.newRunCtx,
      Heap.sliceAppend, Slice.nil, upd_same, Nat.lt_irrefl, if_false]
    refine ⟨trivial, ?_, trivial, ?_, ?_, ?_, ?_, ?_, ?_, ?_, trivial⟩
    · rfl
    · intro q hq; simp [upd_other _ _ _ _ hq]
    · intro a ha; exact upd_other _ _ _ _ (Nat.ne_of_lt ha)
    · exact Nat.le_succ _
    · intro s hs; exact upd_other _ _ _ _ (Nat.ne_of_lt hs)
    · exact Nat.le_succ _
    · intro m hm; exact upd_other _ _ _ _ (Nat.ne_of_lt hm)
    · exact Nat.le_succ _
  | some r =>
    simp only [initRunCtx, initRunCtxStart, hg, runContext.deepCopy, Heap.makeSlice,
      Heap.newRunCtx, Heap.sliceCopy, Heap.sliceAppend, upd_same, Nat.lt_irrefl, if_false]
    refine ⟨trivial, ?_, trivial, ?_, ?_, ?_, ?_, ?_, ?_, ?_, trivial⟩
    · rfl
    · intro q hq; simp [upd_other _ _ _ _ hq]
    · intro a ha
      rw [upd_other _ _ _ _ (by omega), upd_other _ _ _ _ (Nat.ne_of_lt ha),
        upd_other _ _ _ _ (Nat.ne_of_lt ha)]
    · omega
    · intro s hs; trivial
    · exact Nat.le_refl _
    · intro m hm; trivial
    · exact Nat.le_refl _

/-- In a well-formed heap the run path read from an allocated run context has the
length its slice header says. -/
theorem Heap.WF.length_RunPathOf {h : Heap} (hw : h.WF) (p : Nat) (hp : p < h.nextRunCtx) :
    (h.RunPathOf p).length = (h.runCtxs p).RunPath.len := by
  have h1 := hw.slice_len p hp
  have h2 := hw.slice_cap p hp
  simp only [Heap.RunPathOf, Heap.sliceElems, List.length_take]
  omega

/-- The cell of the run context derived from an ambient one, and its backing
array. -/
theorem initRunCtx_ambient_cell (h : Heap) (ctx : Context) (r : Nat)
    (hg : getRunCtx ctx = some r) (name : String) (input : Option AgentInput) :
    (initRunCtx h ctx name input).1.runCtxs h.nextRunCtx
        = { RootInput := if (h.runCtxs r).RunPath.len = 0 then input
              else (h.runCtxs r).RootInput,
            RunPath := { array := h.nextArray + 1, len := (h.runCtxs r).RunPath.len + 1,
                         cap := (h.runCtxs r).RunPath.len + 1
                           + h.spare (h.runCtxs r).RunPath.len },
            Session := (h.runCtxs r).Session }
    ∧ (initRunCtx h ctx name input).1.arrays (h.nextArray + 1)
        = ((upd h.arrays h.nextArray
              (List.replicate (h.runCtxs r).RunPath.len { agentName := "" })
              (h.runCtxs r).RunPath.array).take (h.runCtxs r).RunPath.len
            ++ (List.replicate (h.runCtxs r).RunPath.len
                  ({ agentName := "" } : RunStep)).drop (h.runCtxs r).RunPath.len).take
              (h.runCtxs r).RunPath.len
          ++ { agentName := name }
            :: List.replicate (h.spare (h.runCtxs r).RunPath.len) { agentName := "" }
    ∧ (initRunCtx h ctx name input).1.nextArray = h.nextArray + 2
    ∧ (initRunCtx h ctx name input).1.nextSession = h.nextSession
    ∧ (initRunCtx h ctx name input).1.nextMap = h.nextMap
    ∧ (initRunCtx h ctx name input).1.sessions = h.sessions
    ∧ (initRunCtx h ctx name input).1.maps = h.maps := by
  simp only [initRunCtx, initRunCtxStart, hg, runContext.deepCopy, Heap.makeSlice,
    Heap.newRunCtx, Heap.sliceCopy, Heap.sliceAppend, upd_same, Nat.lt_irrefl, if_false,
    Heap.sliceElems, runContextCell.isRoot, Nat.min_self]
  refine ⟨?_, trivial, trivial, trivial, trivial, trivial, trivial⟩
  by_cases h0 : (h.runCtxs r).RunPath.len = 0
  · simp [h0]
  · simp [h0]

/-- The run context derived from an ambient one: its path is the ambient path and
the new step, its session is the ambient session, and its root input is the
ambient one unless the ambient path is empty. -/
theorem initRunCtx_ambient (h : Heap) (hw : h.WF) (ctx : Context) (r : Nat)
    (hg : getRunCtx ctx = some r) (hr : r < h.nextRunCtx) (name : String)
    (input : Option AgentInput) :
    (initRunCtx h ctx name input).1.RunPathOf h.nextRunCtx
        = h.RunPathOf r ++ [{ agentName := name }]
    ∧ ((initRunCtx h ctx name input).1.runCtxs h.nextRunCtx).Session = (h.runCtxs r).Session
    ∧ ((initRunCtx h ctx name input).1.runCtxs h.nextRunCtx).RootInput
        = (if (h.runCtxs r).RunPath.len = 0 then input else (h.runCtxs r).RootInput)
    ∧ ((initRunCtx h ctx name input).1.runCtxs h.nextRunCtx).RunPath.len
        = (h.runCtxs r).RunPath.len + 1 := by
  obtain ⟨hcell, harr, _⟩ := initRunCtx_ambient_cell h ctx r hg name input
  have hlen := hw.length_RunPathOf r hr
  have h1 := hw.slice_len r hr
  have h3 := hw.slice_arr r hr
  refine ⟨?_, by rw [hcell], by rw [hcell], by rw [hcell]⟩
  have hA : (upd h.arrays h.nextArray
      (List.replicate (h.runCtxs r).RunPath.len ({ agentName := "" } : RunStep))
      (h.runCtxs r).RunPath.array).take (h.runCtxs r).RunPath.len = h.RunPathOf r := by
    by_cases he : (h.runCtxs r).RunPath.array = h.nextArray
    · have h0 : (h.runCtxs r).RunPath.len = 0 := by omega
      simp [Heap.RunPathOf, Heap.sliceElems, h0]
    · rw [upd_other _ _ _ _ he]
      rfl
  rw [Heap.RunPathOf, Heap.sliceElems, hcell, harr, hA]
  simp only [List.drop_replicate, Nat.sub_self, List.replicate_zero, List.append_nil]
  rw [List.take_of_length_le (Nat.le_of_eq hlen)]
  rw [List.take_append_eq_append_take, List.take_of_length_le (by omega), hlen]
  simp

/-- The run context made without an ambient one: a path of the one new step, the
given root input, and a new session whose map is new and empty. -/
theorem initRunCtx_fresh (h : Heap) (ctx : Context) (hg : getRunCtx ctx = none)
    (name : String) (input : Option AgentInput) :
    (initRunCtx h ctx name input).1.RunPathOf h.nextRunCtx = [{ agentName := name }]
    ∧ (initRunCtx h ctx name input).1.runCtxs h.nextRunCtx
        = { RootInput := input,
            RunPath := { array := h.nextArray, len := 1, cap := 1 + h.spare 0 },
            Session := some h.nextSession }
    ∧ (initRunCtx h ctx name input).1.arrays h.nextArray
        = { agentName := name } :: List.replicate (h.spare 0) { agentName := "" }
    ∧ (initRunCtx h ctx name input).1.nextArray = h.nextArray + 1
    ∧ (initRunCtx h ctx name input).1.sessions h.nextSession = sessionOfMap h.nextMap
    ∧ (initRunCtx h ctx name input).1.nextSession = h.nextSession + 1
    ∧ (initRunCtx h ctx name input).1.maps h.nextMap = ∅
    ∧ (initRunCtx h ctx name input).1.nextMap = h.nextMap + 1 := by
  simp only [initRunCtx, initRunCtxStart, hg, newRunSession, Heap.makeMap, Heap.newRunCtx,
    Heap.sliceAppend, Slice.nil, upd_same, Nat.lt_irrefl, if_false, Heap.RunPathOf,
    Heap.sliceElems, runContextCell.isRoot]
  simp [upd_same]

/-- What `initRunCtx` leaves alone, read through the pointers: in a well-formed
heap every allocated run context reads as before. -/
theorem initRunCtx_readRunCtx (h : Heap) (hw : h.WF) (ctx : Context) (name : String)
    (input : Option AgentInput) (q : Nat) (hq : q < h.nextRunCtx) :
    (initRunCtx h ctx name input).1.readRunCtx q = h.readRunCtx q := by
  obtain ⟨_, _, _, hcells, harrs, _⟩ := initRunCtx_frame h ctx name input
  have hc := hcells q (Nat.ne_of_lt hq)
  have h1 := hw.slice_len q hq
  have h3 := hw.slice_arr q hq
  simp only [Heap.readRunCtx, Heap.RunPathOf, Heap.sliceElems, hc]
  rcases h3 with h0 | ha
  · have hl : (h.runCtxs q).RunPath.len = 0 := by omega
    simp [hl]
  · rw [harrs _ ha]

/-- `initRunCtx` keeps the heap well-formed, when the ambient run context, if any,
is allocated. -/
theorem initRunCtx_WF (h : Heap) (hw : h.WF) (ctx : Context) (name : String)
    (input : Option AgentInput) (hv : ∀ r, getRunCtx ctx = some r → r < h.nextRunCtx) :
    (initRunCtx h ctx name input).1.WF := by
  obtain ⟨_, _, hnext, hcells, harrs, hna, hsess, hns, hmaps, hnm, _⟩ :=
    initRunCtx_frame h ctx name input
  have hold : ∀ p, p < h.nextRunCtx →
      (initRunCtx h ctx name input).1.runCtxs p = h.runCtxs p :=
    fun p hp => hcells p (Nat.ne_of_lt hp)
  have hsplit : ∀ p, p < (initRunCtx h ctx name input).1.nextRunCtx →
      p < h.nextRunCtx ∨ p = h.nextRunCtx := by
    intro p hp; rw [hnext] at hp; omega
  cases hg : getRunCtx ctx with
  | none =>
    obtain ⟨_, hcell, harr, hna2, hs, hns2, hm, hnm2⟩ := initRunCtx_fresh h ctx hg name input
    constructor
    · intro p hp
      rcases hsplit p hp with hp | rfl
      · rw [hold p hp]; exact hw.slice_len p hp
      · rw [hcell]; simp
    · intro p hp
      rcases hsplit p hp with hp | rfl
      · rw [hold p hp]
        rcases hw.slice_arr p hp with h0 | ha
        · rw [h0]; exact Nat.zero_le _
        · rw [harrs _ ha]; exact hw.slice_cap p hp
      · rw [hcell]; simp [harr]; omega
    · intro p hp
      rcases hsplit p hp with hp | rfl
      · rw [hold p hp]
        rcases hw.slice_arr p hp with h0 | ha
        · exact Or.inl h0
        · exact Or.inr (Nat.lt_of_lt_of_le ha hna)
      · rw [hcell, hna2]; exact Or.inr (Nat.lt_succ_self _)
    · intro p hp s hs2
      rcases hsplit p hp with hp | rfl
      · rw [hold p hp] at hs2
        exact Nat.lt_of_lt_of_le (hw.session_valid p hp s hs2) hns
      · rw [hcell] at hs2
        simp only [Option.some.injEq] at hs2
        rw [hns2, ← hs2]; exact Nat.lt_succ_self _
    · intro s hs2
      rw [hns2] at hs2
      rcases Nat.lt_succ_iff_lt_or_eq.mp hs2 with hlt | rfl
      · rw [hsess s hlt]
        obtain ⟨m, hm1, hm2⟩ := hw.map_valid s hlt
        exact ⟨m, hm1, Nat.lt_of_lt_of_le hm2 hnm⟩
      · rw [hs]; exact ⟨h.nextMap, rfl, by rw [hnm2]; exact Nat.lt_succ_self _⟩
  | some r =>
    have hr := hv r hg
    obtain ⟨hcell, harr, hna2, hns3, _⟩ := initRunCtx_ambient_cell h ctx r hg name input
    have hlen := hw.length_RunPathOf r hr
    constructor
    · intro p hp
      rcases hsplit p hp with hp | rfl
      · rw [hold p hp]; exact hw.slice_len p hp
      · rw [hcell]; simp
    · intro p hp
      rcases hsplit p hp with hp | rfl
      · rw [hold p hp]
        rcases hw.slice_arr p hp with h0 | ha
        · rw [h0]; exact Nat.zero_le _
        · rw [harrs _ ha]; exact hw.slice_cap p hp
      · rw [hcell]
        simp only [harr, List.length_append, List.length_cons, List.length_replicate,
          List.length_take, List.drop_replicate, Nat.sub_self, List.replicate_zero,
          List.append_nil]
        have h1 := hw.slice_len r hr
        have h2 := hw.slice_cap r hr
        have h3 := hw.slice_arr r hr
        by_cases he : (h.runCtxs r).RunPath.array = h.nextArray
        · have h0 : (h.runCtxs r).RunPath.len = 0 := by omega
          simp [h0]
          omega
        · rw [upd_other _ _ _ _ he]
          omega
    · intro p hp
      rcases hsplit p hp with hp | rfl
      · rw [hold p hp]
        rcases hw.slice_arr p hp with h0 | ha
        · exact Or.inl h0
        · exact Or.inr (Nat.lt_of_lt_of_le ha hna)
      · rw [hcell, hna2]; exact Or.inr (by simp)
    · intro p hp s hs2
      rcases hsplit p hp with hp | rfl
      · rw [hold p hp] at hs2
        exact Nat.lt_of_lt_of_le (hw.session_valid p hp s hs2) hns
      · rw [hcell] at hs2
        exact Nat.lt_of_lt_of_le (hw.session_valid r hr s hs2) hns
    · intro s hs2
      rw [hns3] at hs2
      rw [hsess s hs2]
      obtain ⟨m, hm1, hm2⟩ := hw.map_valid s hs2
      exact ⟨m, hm1, Nat.lt_of_lt_of_le hm2 hnm⟩

/-- The empty heap is well-formed. -/
theorem Heap.empty_WF (spare : Nat → Nat) : (Heap.empty spare).WF := by
  constructor <;> intro p hp <;> exact absurd hp (Nat.not_lt_zero p)

/-- The heap of the root run is well-formed. -/
theorem rootRun_WF : rootRun.1.WF :=
  initRunCtx_WF _ (Heap.empty_WF _) _ _ _ (by intro r hr; cases hr)

/-- In a well-formed heap an allocated run context is root iff the path read from
it has length 1. -/
theorem Heap.WF.isRoot_iff {h : Heap} (hw : h.WF) (p : Nat) (hp : p < h.nextRunCtx) :
    (h.runCtxs p).isRoot = true ↔ (h.RunPathOf p).length = 1 := by
  rw [hw.length_RunPathOf p hp, runContextCell.isRoot, beq_iff_eq]

/-! ## Claims on the derivation of run contexts -/

/-- C16: `initRunCtx(ctx, name, input)` returns the pointer to a run context, carried
by the returned context, whose RunPath is the RunPath `p` of the ambient run context
followed by `RunStep{name}`, so of length `len(p) + 1`, and is `[RunStep{name}]`
when the context carries no run context. `isRoot` holds of an allocated run context,
the new one included, iff its RunPath has length 1. -/
theorem initRunCtx_runPath (h : Heap) (hw : h.WF) (ctx : Context) (name : String)
    (input : Option AgentInput)
    (hv : ∀ r, getRunCtx ctx = some r → r < h.nextRunCtx) :
    getRunCtx (initRunCtx h ctx name input).2.1 = some (initRunCtx h ctx name input).2.2
    ∧ (∀ r, getRunCtx ctx = some r →
        (initRunCtx h ctx name input).1.RunPathOf (initRunCtx h ctx name input).2.2
            = h.RunPathOf r ++ [{ agentName := name }]
        ∧ ((initRunCtx h ctx name input).1.RunPathOf (initRunCtx h ctx name input).2.2).length
            = (h.RunPathOf r).length + 1)
    ∧ (getRunCtx ctx = none →
        (initRunCtx h ctx name input).1.RunPathOf (initRunCtx h ctx name input).2.2
            = [{ agentName := name }])
    ∧ (((initRunCtx h ctx name input).1.runCtxs (initRunCtx h ctx name input).2.2).isRoot = true
        ↔ ((initRunCtx h ctx name input).1.RunPathOf
            (initRunCtx h ctx name input).2.2).length = 1)
    ∧ (∀ q, q < h.nextRunCtx →
        ((h.runCtxs q).isRoot = true ↔ (h.RunPathOf q).length = 1)) := by
  obtain ⟨hptr, hget, hnext, _⟩ := initRunCtx_frame h ctx name input
  have hw2 := initRunCtx_WF h hw ctx name input hv
  refine ⟨by rw [hptr]; exact hget, ?_, ?_, ?_, fun q hq => hw.isRoot_iff q hq⟩
  · intro r hg
    have hp := (initRunCtx_ambient h hw ctx r hg (hv r hg) name input).1
    rw [hptr, hp]
    exact ⟨rfl, by simp⟩
  · intro hg
    rw [hptr]
    exact (initRunCtx_fresh h ctx hg name input).1
  · rw [hptr]
    exact hw2.isRoot_iff _ (by rw [hnext]; exact Nat.lt_succ_self _)

/-- C16 on a root run and on a sub-agent run inside it: the paths are [A] and
[A, B], and only the first is root. -/
theorem initRunCtx_runPath_witness :
    rootRun.1.RunPathOf rootRun.2.2 = [{ agentName := "A" }]
    ∧ childRun.1.RunPathOf childRun.2.2 = [{ agentName := "A" }, { agentName := "B" }]
    ∧ (rootRun.1.runCtxs rootRun.2.2).isRoot = true
    ∧ (childRun.1.runCtxs childRun.2.2).isRoot = false := by
  have h1 := (initRunCtx_runPath (Heap.empty (fun cap => cap)) (Heap.empty_WF _)
    Context.Background "A"
    (some { Messages := [{ Role := RoleType.User, Content := "Test input" }],
            EnableStreaming := false })
    (by intro r hr; cases hr)).2.2.1 rfl
  have h2 := ((initRunCtx_runPath rootRun.1 rootRun_WF rootRun.2.1 "B" none
    (by intro r hr; cases hr; decide)).2.1 0 rfl).1
  exact ⟨h1, h2, by decide, by decide⟩

/-- C17: the run context returned by `initRunCtx(ctx, name, input)` has `RootInput`
equal to `input` when its RunPath has length 1, which is the case exactly when the
context carries no run context or one with an empty path (as the one of
`ctxWithNewRunCtx`); otherwise its `RootInput` is that of the ambient run context,
whatever `input` is. -/
theorem initRunCtx_rootInput (h : Heap) (hw : h.WF) (ctx : Context) (name : String)
    (input : Option AgentInput)
    (hv : ∀ r, getRunCtx ctx = some r → r < h.nextRunCtx) :
    (((initRunCtx h ctx name input).1.RunPathOf (initRunCtx h ctx name input).2.2).length = 1
        ↔ (getRunCtx ctx = none ∨ ∃ r, getRunCtx ctx = some r ∧ h.RunPathOf r = []))
    ∧ (((initRunCtx h ctx name input).1.RunPathOf (initRunCtx h ctx name input).2.2).length = 1 →
        ((initRunCtx h ctx name input).1.runCtxs (initRunCtx h ctx name input).2.2).RootInput
          = input)
    ∧ (∀ r, getRunCtx ctx = some r →
        ((initRunCtx h ctx name input).1.RunPathOf (initRunCtx h ctx name input).2.2).length ≠ 1 →
        ((initRunCtx h ctx name input).1.runCtxs (initRunCtx h ctx name input).2.2).RootInput
          = (h.runCtxs r).RootInput) := by
  obtain ⟨hptr, _⟩ := initRunCtx_frame h ctx name input
  rw [hptr]
  cases hg : getRunCtx ctx with
  | none =>
    obtain ⟨hpath, hcell, _⟩ := initRunCtx_fresh h ctx hg name input
    refine ⟨?_, ?_, ?_⟩
    · rw [hpath]; simp
    · intro _; rw [hcell]
    · intro r hr; cases hr
  | some r =>
    have hr := hv r hg
    obtain ⟨hpath, _, hroot, _⟩ := initRunCtx_ambient h hw ctx r hg hr name input
    have hlen := hw.length_RunPathOf r hr
    have hnil : h.RunPathOf r = [] ↔ (h.runCtxs r).RunPath.len = 0 := by
      rw [← hlen, List.length_eq_zero]
    refine ⟨?_, ?_, ?_⟩
    · rw [hpath, List.length_append, List.length_singleton]
      constructor
      · intro hl
        exact Or.inr ⟨r, rfl, List.length_eq_zero.mp (by omega)⟩
      · rintro (hn | ⟨r2, hr2, he⟩)
        · cases hn
        · cases hr2
          rw [he]; rfl
    · intro hl
      rw [hpath, List.length_append, List.length_singleton] at hl
      rw [hroot, if_pos (by omega)]
    · intro r2 hr2 hl
      cases hr2
      rw [hpath, List.length_append, List.length_singleton] at hl
      rw [hroot, if_neg (by omega)]

/-- C17 on a root run and on a sub-agent run inside it: the root run context holds
the input of the root, and so does the run context of the sub-agent, although
`initRunCtx` was given no input for it. -/
theorem initRunCtx_rootInput_witness :
    (rootRun.1.runCtxs rootRun.2.2).RootInput
        = some { Messages := [{ Role := RoleType.User, Content := "Test input" }],
                 EnableStreaming := false }
    ∧ (childRun.1.runCtxs childRun.2.2).RootInput = (rootRun.1.runCtxs rootRun.2.2).RootInput :=
  ⟨(initRunCtx_rootInput (Heap.empty (fun cap => cap)) (Heap.empty_WF _)
      Context.Background "A"
      (some { Messages := [{ Role := RoleType.User, Content := "Test input" }],
              EnableStreaming := false })
      (by intro r hr; cases hr)).2.1 (by decide),
   (initRunCtx_rootInput rootRun.1 rootRun_WF rootRun.2.1 "B" none
      (by intro r hr; cases hr; decide)).2.2 0 rfl (by decide)⟩

/-- C18: `initRunCtx` leaves every allocated run context, the ambient one included,
as it was: read through its pointer it has the same RunPath, RootInput and Session
before and after. Two children derived one after the other from the same parent,
with names `a` and `b`, have the RunPaths `p ++ [a]` and `p ++ [b]`, whichever is
derived first, and the first child reads the same before and after the derivation
of the second. -/
theorem initRunCtx_parent_unchanged (h : Heap) (hw : h.WF) (ctx : Context) (r : Nat)
    (hg : getRunCtx ctx = some r) (hr : r < h.nextRunCtx) (a b : String)
    (ia ib : Option AgentInput) :
    (∀ q, q < h.nextRunCtx → (initRunCtx h ctx a ia).1.readRunCtx q = h.readRunCtx q)
    ∧ (initRunCtx h ctx a ia).1.readRunCtx r = h.readRunCtx r
    ∧ (initRunCtx (initRunCtx h ctx a ia).1 ctx b ib).1.readRunCtx r = h.readRunCtx r
    ∧ (initRunCtx (initRunCtx h ctx a ia).1 ctx b ib).1.readRunCtx (initRunCtx h ctx a ia).2.2
        = (initRunCtx h ctx a ia).1.readRunCtx (initRunCtx h ctx a ia).2.2
    ∧ (initRunCtx (initRunCtx h ctx a ia).1 ctx b ib).1.RunPathOf (initRunCtx h ctx a ia).2.2
        = h.RunPathOf r ++ [{ agentName := a }]
    ∧ (initRunCtx (initRunCtx h ctx a ia).1 ctx b ib).1.RunPathOf
          (initRunCtx (initRunCtx h ctx a ia).1 ctx b ib).2.2
        = h.RunPathOf r ++ [{ agentName := b }]
    ∧ (initRunCtx (initRunCtx h ctx b ib).1 ctx a ia).1.RunPathOf
          (initRunCtx (initRunCtx h ctx b ib).1 ctx a ia).2.2
        = h.RunPathOf r ++ [{ agentName := a }]
    ∧ (initRunCtx (initRunCtx h ctx b ib).1 ctx a ia).1.RunPathOf (initRunCtx h ctx b ib).2.2
        = h.RunPathOf r ++ [{ agentName := b }]
    ∧ (initRunCtx (initRunCtx h ctx a ia).1 ctx b ib).2.2 ≠ (initRunCtx h ctx a ia).2.2 := by
  have hv : ∀ r2, getRunCtx ctx = some r2 → r2 < h.nextRunCtx := by
    intro r2 h2; rw [hg] at h2; cases h2; exact hr
  -- the general step: a second derivation keeps the first child and the parent
  have step : ∀ (x y : String) (ix iy : Option AgentInput),
      (initRunCtx (initRunCtx h ctx x ix).1 ctx y iy).1.readRunCtx r = h.readRunCtx r
      ∧ (initRunCtx (initRunCtx h ctx x ix).1 ctx y iy).1.readRunCtx (initRunCtx h ctx x ix).2.2
          = (initRunCtx h ctx x ix).1.readRunCtx (initRunCtx h ctx x ix).2.2
      ∧ (initRunCtx (initRunCtx h ctx x ix).1 ctx y iy).1.RunPathOf (initRunCtx h ctx x ix).2.2
          = h.RunPathOf r ++ [{ agentName := x }]
      ∧ (initRunCtx (initRunCtx h ctx x ix).1 ctx y iy).1.RunPathOf
            (initRunCtx (initRunCtx h ctx x ix).1 ctx y iy).2.2
          = h.RunPathOf r ++ [{ agentName := y }]
      ∧ (initRunCtx (initRunCtx h ctx x ix).1 ctx y iy).2.2 ≠ (initRunCtx h ctx x ix).2.2 := by
    intro x y ix iy
    obtain ⟨hptr1, _, hnext1, _⟩ := initRunCtx_frame h ctx x ix
    obtain ⟨hptr2, _⟩ := initRunCtx_frame (initRunCtx h ctx x ix).1 ctx y iy
    have hw1 := initRunCtx_WF h hw ctx x ix hv
    have hr1 : r < (initRunCtx h ctx x ix).1.nextRunCtx := by rw [hnext1]; omega
    have hc1 : (initRunCtx h ctx x ix).2.2 < (initRunCtx h ctx x ix).1.nextRunCtx := by
      rw [hnext1, hptr1]; omega
    have keep1 := initRunCtx_readRunCtx h hw ctx x ix r hr
    have keep2 := initRunCtx_readRunCtx _ hw1 ctx y iy r hr1
    have keep3 := initRunCtx_readRunCtx _ hw1 ctx y iy _ hc1
    have p1 := (initRunCtx_ambient h hw ctx r hg hr x ix).1
    have p2 := (initRunCtx_ambient _ hw1 ctx r hg hr1 y iy).1
    have hpar : (initRunCtx h ctx x ix).1.RunPathOf r = h.RunPathOf r :=
      congrArg runContext.RunPath keep1
    refine ⟨keep2.trans keep1, keep3, ?_, ?_, ?_⟩
    · have := congrArg runContext.RunPath keep3
      simp only [Heap.readRunCtx] at this
      rw [this, hptr1, p1]
    · rw [hptr2, p2, hpar]
    · rw [hptr2, hptr1, hnext1]; omega
  obtain ⟨s1, s2, s3, s4, s5⟩ := step a b ia ib
  obtain ⟨_, _, t3, t4, _⟩ := step b a ib ia
  exact ⟨fun q hq => initRunCtx_readRunCtx h hw ctx a ia q hq,
    initRunCtx_readRunCtx h hw ctx a ia r hr, s1, s2, s3, s4, t4, t3, s5⟩

/-- C18 on the root run: after deriving the runs of the sub-agents "B" and "C" from
it, the root run context still reads as before, and the children have the paths
[A, B] and [A, C]. -/
theorem initRunCtx_parent_unchanged_witness :
    (initRunCtx childRun.1 rootRun.2.1 "C" none).1.readRunCtx rootRun.2.2
        = rootRun.1.readRunCtx rootRun.2.2
    ∧ (initRunCtx childRun.1 rootRun.2.1 "C" none).1.RunPathOf childRun.2.2
        = [{ agentName := "A" }, { agentName := "B" }]
    ∧ (initRunCtx childRun.1 rootRun.2.1 "C" none).1.RunPathOf
          (initRunCtx childRun.1 rootRun.2.1 "C" none).2.2
        = [{ agentName := "A" }, { agentName := "C" }] :=
  ⟨(initRunCtx_parent_unchanged rootRun.1 rootRun_WF rootRun.2.1 0 rfl (by decide)
      "B" "C" none none).2.2.1,
   (initRunCtx_parent_unchanged rootRun.1 rootRun_WF rootRun.2.1 0 rfl (by decide)
      "B" "C" none none).2.2.2.2.1,
   (initRunCtx_parent_unchanged rootRun.1 rootRun_WF rootRun.2.1 0 rfl (by decide)
      "B" "C" none none).2.2.2.2.2.1⟩

/-! ## Lemmas on sessions and their value stores -/

/-- A context carrying an allocated run context has the same session after an
`initRunCtx`. -/
theorem getSession_initRunCtx_old (h : Heap) (ctx : Context) (name : String)
    (input : Option AgentInput) (c : Context) (q : Nat) (hc : getRunCtx c = some q)
    (hq : q < h.nextRunCtx) :
    getSession (initRunCtx h ctx name input).1 c = getSession h c := by
  obtain ⟨_, _, _, hcells, _⟩ := initRunCtx_frame h ctx name input
  simp only [getSession, hc, hcells q (Nat.ne_of_lt hq)]

/-- The context returned by `initRunCtx` has the session of the ambient run
context. -/
theorem getSession_initRunCtx_new (h : Heap) (ctx : Context) (r : Nat)
    (hg : getRunCtx ctx = some r) (name : String) (input : Option AgentInput) :
    getSession (initRunCtx h ctx name input).1 (initRunCtx h ctx name input).2.1
      = getSession h ctx := by
  obtain ⟨_, hget, _⟩ := initRunCtx_frame h ctx name input
  obtain ⟨hcell, _⟩ := initRunCtx_ambient_cell h ctx r hg name input
  simp only [getSession, hget, hg, hcell]

/-- A map assignment keeps the heap well-formed. -/
theorem mapAssign_WF (h : Heap) (hw : h.WF) (m : Nat) (k : String) (v : GoAny) :
    (h.mapAssign m k v).WF :=
  ⟨hw.slice_len, hw.slice_cap, hw.slice_arr, hw.session_valid, hw.map_valid⟩

/-- The value read through a context is the same after an `initRunCtx`, in a
well-formed heap. -/
theorem GetSessionValue_initRunCtx (h : Heap) (hw : h.WF) (ctx : Context) (name : String)
    (input : Option AgentInput) (c : Context) (q : Nat) (hc : getRunCtx c = some q)
    (hq : q < h.nextRunCtx) (k : String) :
    GetSessionValue (initRunCtx h ctx name input).1 c k = GetSessionValue h c k := by
  obtain ⟨_, _, _, _, _, _, hsess, _, hmaps, _, _⟩ := initRunCtx_frame h ctx name input
  rw [GetSessionValue, GetSessionValue, getSession_initRunCtx_old h ctx name input c q hc hq]
  cases hs : getSession h c with
  | none => rfl
  | some s =>
    have hs2 : (h.runCtxs q).Session = some s := by
      simpa only [getSession, hc] using hs
    have hlt := hw.session_valid q hq s hs2
    obtain ⟨m, hm1, hm2⟩ := hw.map_valid s hlt
    simp only [runSession.getValue, hsess s hlt, hm1, Heap.mapIndex, hmaps m hm2]

/-- A value added through one context is read through every context of the same
session; the run contexts, the sessions and the allocation state are as before. -/
theorem AddSessionValue_shared (h : Heap) (c c2 : Context) (s m : Nat)
    (hc : getSession h c = some s) (hc2 : getSession h c2 = some s)
    (hm : (h.sessions s).Values = some m) (k : String) (v : GoAny) :
    AddSessionValue h c k v = some (h.mapAssign m k v)
    ∧ GetSessionValue (h.mapAssign m k v) c2 k = (v, true) := by
  constructor
  · simp only [AddSessionValue, hc, runSession.addValue, hm]
  · have hc3 : getSession (h.mapAssign m k v) c2 = some s := hc2
    simp only [GetSessionValue, hc3, runSession.getValue]
    simp only [Heap.mapIndex, Heap.mapAssign, hm, upd_same, AList.lookup_insert]

/-- The value read through the context returned by `initRunCtx` is the one read
through the context it was derived from, in a well-formed heap. -/
theorem GetSessionValue_initRunCtx_new (h : Heap) (hw : h.WF) (ctx : Context) (r : Nat)
    (hg : getRunCtx ctx = some r) (hr : r < h.nextRunCtx) (name : String)
    (input : Option AgentInput) (k : String) :
    GetSessionValue (initRunCtx h ctx name input).1 (initRunCtx h ctx name input).2.1 k
      = GetSessionValue h ctx k := by
  obtain ⟨_, _, _, _, _, _, hsess, _, hmaps, _, _⟩ := initRunCtx_frame h ctx name input
  rw [GetSessionValue, GetSessionValue, getSession_initRunCtx_new h ctx r hg name input]
  cases hs : getSession h ctx with
  | none => rfl
  | some s =>
    have hs2 : (h.runCtxs r).Session = some s := by
      simpa only [getSession, hg] using hs
    have hlt := hw.session_valid r hr s hs2
    obtain ⟨m, hm1, hm2⟩ := hw.map_valid s hlt
    simp only [runSession.getValue, hsess s hlt, hm1, Heap.mapIndex, hmaps m hm2]

/-! ## Claims on the shared session -/

/-- C15: the run context `initRunCtx` derives from an ambient run context references
the session of the ambient one. So, with two contexts derived from the same parent
context, a value stored with `AddSessionValue(k, v)` through the first is returned
as `(v, true)` by `GetSessionValue(k)` through the parent context, through the first
and the second derived context, and through every context derived afterwards from
the parent or from the first derived context. -/
theorem session_shared_with_children (h : Heap) (hw : h.WF) (ctx : Context) (r s : Nat)
    (hg : getRunCtx ctx = some r) (hr : r < h.nextRunCtx)
    (hs : (h.runCtxs r).Session = some s)
    (a b : String) (ia ib : Option AgentInput) (k : String) (v : GoAny) :
    getSession (initRunCtx h ctx a ia).1 (initRunCtx h ctx a ia).2.1 = getSession h ctx
    ∧ getSession (deriveTwo h ctx a b ia ib).1 (deriveTwo h ctx a b ia ib).2.1 = some s
    ∧ getSession (deriveTwo h ctx a b ia ib).1 (deriveTwo h ctx a b ia ib).2.2 = some s
    ∧ getSession (deriveTwo h ctx a b ia ib).1 ctx = some s
    ∧ ∃ h3, AddSessionValue (deriveTwo h ctx a b ia ib).1 (deriveTwo h ctx a b ia ib).2.1 k v
          = some h3
      ∧ GetSessionValue h3 ctx k = (v, true)
      ∧ GetSessionValue h3 (deriveTwo h ctx a b ia ib).2.1 k = (v, true)
      ∧ GetSessionValue h3 (deriveTwo h ctx a b ia ib).2.2 k = (v, true)
      ∧ (∀ c ic, GetSessionValue (initRunCtx h3 ctx c ic).1 (initRunCtx h3 ctx c ic).2.1 k
          = (v, true))
      ∧ (∀ c ic, GetSessionValue
            (initRunCtx h3 (deriveTwo h ctx a b ia ib).2.1 c ic).1
            (initRunCtx h3 (deriveTwo h ctx a b ia ib).2.1 c ic).2.1 k
          = (v, true)) := by
  have hv : ∀ r2, getRunCtx ctx = some r2 → r2 < h.nextRunCtx := by
    intro r2 h2; rw [hg] at h2; cases h2; exact hr
  have hsess0 : getSession h ctx = some s := by simp only [getSession, hg, hs]
  obtain ⟨hptr1, hget1, hnext1, _, _, _, hsess1, hns1, _, _, _⟩ := initRunCtx_frame h ctx a ia
  obtain ⟨hptr2, hget2, hnext2, _, _, _, hsess2, _, _, _, _⟩ :=
    initRunCtx_frame (initRunCtx h ctx a ia).1 ctx b ib
  have hw1 := initRunCtx_WF h hw ctx a ia hv
  have hr1 : r < (initRunCtx h ctx a ia).1.nextRunCtx := by rw [hnext1]; omega
  have hv1 : ∀ r2, getRunCtx ctx = some r2 → r2 < (initRunCtx h ctx a ia).1.nextRunCtx := by
    intro r2 h2; rw [hg] at h2; cases h2; exact hr1
  have hw2 := initRunCtx_WF _ hw1 ctx b ib hv1
  have e1 := getSession_initRunCtx_new h ctx r hg a ia
  have sA : getSession (deriveTwo h ctx a b ia ib).1 (deriveTwo h ctx a b ia ib).2.1 = some s := by
    simp only [deriveTwo]
    rw [getSession_initRunCtx_old _ ctx b ib _ _ hget1 (by rw [hnext1]; omega), e1, hsess0]
  have sB : getSession (deriveTwo h ctx a b ia ib).1 (deriveTwo h ctx a b ia ib).2.2 = some s := by
    simp only [deriveTwo]
    rw [getSession_initRunCtx_new _ ctx r hg b ib,
      getSession_initRunCtx_old h ctx a ia ctx r hg hr, hsess0]
  have sP : getSession (deriveTwo h ctx a b ia ib).1 ctx = some s := by
    simp only [deriveTwo]
    rw [getSession_initRunCtx_old _ ctx b ib ctx r hg hr1,
      getSession_initRunCtx_old h ctx a ia ctx r hg hr, hsess0]
  have hslt := hw.session_valid r hr s hs
  obtain ⟨m, hm1, _⟩ := hw.map_valid s hslt
  have hm2 : ((deriveTwo h ctx a b ia ib).1.sessions s).Values = some m := by
    simp only [deriveTwo]
    rw [hsess2 s (Nat.lt_of_lt_of_le hslt hns1), hsess1 s hslt, hm1]
  have hw3 : ((deriveTwo h ctx a b ia ib).1.mapAssign m k v).WF := mapAssign_WF _ hw2 m k v
  have rP : r < ((deriveTwo h ctx a b ia ib).1.mapAssign m k v).nextRunCtx := by
    show r < (initRunCtx (initRunCtx h ctx a ia).1 ctx b ib).1.nextRunCtx
    rw [hnext2, hnext1]; omega
  have rA : h.nextRunCtx < ((deriveTwo h ctx a b ia ib).1.mapAssign m k v).nextRunCtx := by
    show h.nextRunCtx < (initRunCtx (initRunCtx h ctx a ia).1 ctx b ib).1.nextRunCtx
    rw [hnext2, hnext1]; omega
  have gA : getRunCtx (deriveTwo h ctx a b ia ib).2.1 = some h.nextRunCtx := hget1
  refine ⟨e1, sA, sB, sP, _, (AddSessionValue_shared _ _ ctx s m sA sP hm2 k v).1,
    (AddSessionValue_shared _ _ ctx s m sA sP hm2 k v).2,
    (AddSessionValue_shared _ _ _ s m sA sA hm2 k v).2,
    (AddSessionValue_shared _ _ _ s m sA sB hm2 k v).2, ?_, ?_⟩
  · intro c ic
    rw [GetSessionValue_initRunCtx_new _ hw3 ctx r hg rP c ic k]
    exact (AddSessionValue_shared _ _ ctx s m sA sP hm2 k v).2
  · intro c ic
    rw [GetSessionValue_initRunCtx_new _ hw3 _ _ gA rA c ic k]
    exact (AddSessionValue_shared _ _ _ s m sA sA hm2 k v).2

/-- C15 on the root run: a value stored through the run of the sub-agent "B" is
read through the context of the root run and through the run of a sub-agent "C". -/
theorem session_shared_with_children_witness :
    ∃ h3, AddSessionValue (deriveTwo rootRun.1 rootRun.2.1 "B" "C" none none).1
          (deriveTwo rootRun.1 rootRun.2.1 "B" "C" none none).2.1 "k" (GoAny.int 7) = some h3
      ∧ GetSessionValue h3 rootRun.2.1 "k" = (GoAny.int 7, true)
      ∧ GetSessionValue h3 (deriveTwo rootRun.1 rootRun.2.1 "B" "C" none none).2.2 "k"
          = (GoAny.int 7, true) := by
  obtain ⟨_, _, _, _, h3, e1, e2, _, e4, _⟩ :=
    session_shared_with_children rootRun.1 rootRun_WF rootRun.2.1 0 0 rfl (by decide) rfl
      "B" "C" none none "k" (GoAny.int 7)
  exact ⟨h3, e1, e2, e4⟩

/-- A run of map assignments on one map object: that object gets the entries
inserted in order, everything else in the heap is as before. -/
theorem foldl_mapAssign (a : Nat) (es : List (Sigma (fun _ : String => GoAny))) :
    ∀ h : Heap,
      (es.foldl (fun acc e => acc.mapAssign a e.1 e.2) h).maps a
          = es.foldl (fun m e => m.insert e.1 e.2) (h.maps a)
      ∧ (∀ q, q ≠ a → (es.foldl (fun acc e => acc.mapAssign a e.1 e.2) h).maps q = h.maps q)
      ∧ (es.foldl (fun acc e => acc.mapAssign a e.1 e.2) h).sessions = h.sessions
      ∧ (es.foldl (fun acc e => acc.mapAssign a e.1 e.2) h).runCtxs = h.runCtxs
      ∧ (es.foldl (fun acc e => acc.mapAssign a e.1 e.2) h).arrays = h.arrays
      ∧ (es.foldl (fun acc e => acc.mapAssign a e.1 e.2) h).nextMap = h.nextMap
      ∧ (es.foldl (fun acc e => acc.mapAssign a e.1 e.2) h).nextSession = h.nextSession
      ∧ (es.foldl (fun acc e => acc.mapAssign a e.1 e.2) h).nextRunCtx = h.nextRunCtx
      ∧ (es.foldl (fun acc e => acc.mapAssign a e.1 e.2) h).nextArray = h.nextArray := by
  induction es with
  | nil => intro h; exact ⟨rfl, fun _ _ => rfl, rfl, rfl, rfl, rfl, rfl, rfl, rfl⟩
  | cons e es ih =>
    intro h
    obtain ⟨h1, h2, h3, h4, h5, h6, h7, h8, h9⟩ := ih (h.mapAssign a e.1 e.2)
    rw [List.foldl_cons, List.foldl_cons]
    refine ⟨?_, ?_, h3, h4, h5, h6, h7, h8, h9⟩
    · rw [h1]; simp only [Heap.mapAssign, upd_same]
    · intro q hq
      rw [h2 q hq]
      simp only [Heap.mapAssign, upd_other _ _ _ _ hq]

/-- Inserting entries with distinct keys one after the other, in any order: a key
among them gets its value, every other key keeps the one it had. -/
theorem lookup_foldl_insert (es : List (Sigma (fun _ : String => GoAny)))
    (nd : es.NodupKeys) (acc : GoMap) (k : String) :
    (es.foldl (fun m e => m.insert e.1 e.2) acc).lookup k
      = match es.dlookup k with
        | some v => some v
        | none => acc.lookup k := by
  induction es generalizing acc with
  | nil => rfl
  | cons e es ih =>
    obtain ⟨hnot, nd2⟩ := List.nodupKeys_cons.mp nd
    rw [List.foldl_cons, ih nd2]
    by_cases hk : k = e.1
    · subst hk
      have hnone : List.dlookup e.1 es = none := List.dlookup_eq_none.mpr hnot
      rw [hnone]
      obtain ⟨ek, ev⟩ := e
      simp only [List.dlookup_cons_eq, AList.lookup_insert]
    · rw [List.dlookup_cons_ne _ _ hk, AList.lookup_insert_ne hk]

/-- Writes on one map object leave every other map object and everything else in
the heap as before. -/
theorem applyMapOps_frame (a : Nat) (ops : List MapOp) :
    ∀ h : Heap,
      (∀ q, q ≠ a → (h.applyMapOps a ops).maps q = h.maps q)
      ∧ (h.applyMapOps a ops).sessions = h.sessions
      ∧ (h.applyMapOps a ops).runCtxs = h.runCtxs
      ∧ (h.applyMapOps a ops).nextMap = h.nextMap := by
  induction ops with
  | nil => intro h; exact ⟨fun _ _ => rfl, rfl, rfl, rfl⟩
  | cons op ops ih =>
    intro h
    cases op with
    | assign key value =>
      obtain ⟨h1, h2, h3, h4⟩ := ih (h.mapAssign a key value)
      refine ⟨?_, h2, h3, h4⟩
      intro q hq
      rw [Heap.applyMapOps, h1 q hq]
      simp only [Heap.mapAssign, upd_other _ _ _ _ hq]
    | delete key =>
      obtain ⟨h1, h2, h3, h4⟩ := ih (h.mapDelete a key)
      refine ⟨?_, h2, h3, h4⟩
      intro q hq
      rw [Heap.applyMapOps, h1 q hq]
      simp only [Heap.mapDelete, upd_other _ _ _ _ hq]

/-- The map returned by `getValues` is the next free map object; it holds, under
every key, what the store of the session holds, and the rest of the heap is as
before. -/
theorem getValues_result (h : Heap) (rs : Nat) :
    (runSession.getValues h rs).2 = h.nextMap
    ∧ (∀ k, ((runSession.getValues h rs).1.maps h.nextMap).lookup k
        = (h.mapRange (h.sessions rs).Values).dlookup k)
    ∧ (∀ q, q ≠ h.nextMap → (runSession.getValues h rs).1.maps q = h.maps q)
    ∧ (runSession.getValues h rs).1.sessions = h.sessions
    ∧ (runSession.getValues h rs).1.runCtxs = h.runCtxs
    ∧ (runSession.getValues h rs).1.nextMap = h.nextMap + 1 := by
  have nd : (h.mapRange (h.sessions rs).Values).NodupKeys := by
    cases hv : (h.sessions rs).Values with
    | none => exact List.nodupKeys_nil
    | some m => exact (h.maps m).nodupKeys
  obtain ⟨f1, f2, f3, f4, _, f6, _⟩ :=
    foldl_mapAssign h.nextMap (h.mapRange (h.sessions rs).Values) (h.makeMap).1
  simp only [runSession.getValues]
  refine ⟨rfl, ?_, ?_, f3, f4, f6⟩
  · intro k
    have : (h.makeMap).2 = h.nextMap := rfl
    rw [this, f1, lookup_foldl_insert _ nd]
    simp only [Heap.makeMap, upd_same, AList.lookup_empty]
    cases List.dlookup k (h.mapRange (h.sessions rs).Values) <;> rfl
  · intro q hq
    have : (h.makeMap).2 = h.nextMap := rfl
    rw [this, f2 q hq]
    simp only [Heap.makeMap, upd_other _ _ _ _ hq]

/-- Indexing a map object that holds, under a key, what a map reference holds. -/
theorem mapIndex_of_lookup (h1 h2 : Heap) (a : Nat) (r : Option Nat) (k : String)
    (hl : (h1.maps a).lookup k = (h2.mapRange r).dlookup k) :
    h1.mapIndex (some a) k = h2.mapIndex r k := by
  cases r with
  | none =>
    simp only [Heap.mapRange, List.dlookup_nil] at hl
    simp only [Heap.mapIndex, hl]
  | some m =>
    simp only [Heap.mapRange] at hl
    simp only [Heap.mapIndex, hl]
    rfl

/-- The store of a session reads the same in two heaps that agree on the session
and on its map. -/
theorem getValue_congr (h1 h2 : Heap) (rs : Nat) (k : String)
    (hs : h1.sessions rs = h2.sessions rs)
    (hmap : ∀ m, (h2.sessions rs).Values = some m → h1.maps m = h2.maps m) :
    runSession.getValue h1 rs k = runSession.getValue h2 rs k := by
  simp only [runSession.getValue, hs]
  cases hv : (h2.sessions rs).Values with
  | none => rfl
  | some m => simp only [Heap.mapIndex, hmap m hv]

/-! ## Claims on the value store -/

/-- C19: `getValues` returns a new map that holds exactly the key/value pairs of the
store of the session, whatever the order in which the store is ranged over; adding,
overwriting or deleting keys in the returned map leaves the session as it was, so
that `getValue` gives, for every key, what it gave before, and a later `getValues`
again returns a map holding exactly the pairs of the store. -/
theorem getValues_defensive_copy (h : Heap) (rs : Nat)
    (hm : ∀ m, (h.sessions rs).Values = some m → m < h.nextMap) :
    (h.sessions rs).Values ≠ some (runSession.getValues h rs).2
    ∧ (∀ k, (runSession.getValues h rs).1.mapIndex (some (runSession.getValues h rs).2) k
        = runSession.getValue h rs k)
    ∧ ((runSession.getValues h rs).1.maps (runSession.getValues h rs).2).entries.Perm
        (h.mapRange (h.sessions rs).Values)
    ∧ (∀ es : List (Sigma (fun _ : String => GoAny)),
        es.Perm (h.mapRange (h.sessions rs).Values) → ∀ k,
        (es.foldl (fun m e => m.insert e.1 e.2) (∅ : GoMap)).lookup k
          = ((runSession.getValues h rs).1.maps (runSession.getValues h rs).2).lookup k)
    ∧ (∀ ops k,
        runSession.getValue
            ((runSession.getValues h rs).1.applyMapOps (runSession.getValues h rs).2 ops) rs k
          = runSession.getValue h rs k)
    ∧ (∀ ops,
        ((runSession.getValues h rs).1.applyMapOps (runSession.getValues h rs).2 ops).sessions rs
          = h.sessions rs)
    ∧ (∀ ops k,
        (runSession.getValues
            ((runSession.getValues h rs).1.applyMapOps (runSession.getValues h rs).2 ops)
            rs).1.mapIndex
          (some (runSession.getValues
            ((runSession.getValues h rs).1.applyMapOps (runSession.getValues h rs).2 ops)
            rs).2) k
          = runSession.getValue h rs k) := by
  obtain ⟨g1, g2, g3, g4, _, g6⟩ := getValues_result h rs
  have nd : (h.mapRange (h.sessions rs).Values).NodupKeys := by
    cases hv : (h.sessions rs).Values with
    | none => exact List.nodupKeys_nil
    | some m => exact (h.maps m).nodupKeys
  have hne : (h.sessions rs).Values ≠ some h.nextMap := by
    intro he
    exact Nat.lt_irrefl _ (hm _ he)
  have hidx : ∀ k, (runSession.getValues h rs).1.mapIndex (some h.nextMap) k
      = runSession.getValue h rs k :=
    fun k => mapIndex_of_lookup _ h _ _ k (g2 k)
  have hkeep : ∀ ops k,
      runSession.getValue ((runSession.getValues h rs).1.applyMapOps h.nextMap ops) rs k
        = runSession.getValue h rs k := by
    intro ops k
    obtain ⟨a1, a2, _, _⟩ := applyMapOps_frame h.nextMap ops (runSession.getValues h rs).1
    apply getValue_congr
    · rw [a2, g4]
    · intro m hv
      have hlt := hm m hv
      rw [a1 m (Nat.ne_of_lt hlt), g3 m (Nat.ne_of_lt hlt)]
  rw [g1]
  refine ⟨hne, hidx, ?_, ?_, hkeep, ?_, ?_⟩
  · apply List.lookup_ext (AList.nodupKeys _) nd
    intro x y
    have := g2 x
    simp only [AList.lookup] at this
    rw [this]
  · intro es hp k
    rw [g2 k, lookup_foldl_insert es ((List.perm_nodupKeys hp).mpr nd), AList.lookup_empty,
      List.perm_dlookup k ((List.perm_nodupKeys hp).mpr nd) nd hp]
    cases List.dlookup k (h.mapRange (h.sessions rs).Values) <;> rfl
  · intro ops
    obtain ⟨_, a2, _, _⟩ := applyMapOps_frame h.nextMap ops (runSession.getValues h rs).1
    rw [a2, g4]
  · intro ops k
    obtain ⟨r1, r2, _⟩ := getValues_result
      ((runSession.getValues h rs).1.applyMapOps h.nextMap ops) rs
    rw [r1]
    rw [mapIndex_of_lookup _ _ _ _ k (r2 k)]
    exact hkeep ops k

/-- C19 on the session of the root run, holding "user" and "n": after overwriting
"user", deleting "n" and adding "new" in the map returned by `getValues`, the
session still holds the old "user" and "n" and no "new". -/
theorem getValues_defensive_copy_witness :
    runSession.getValue
        ((runSession.getValues storeRun 0).1.applyMapOps (runSession.getValues storeRun 0).2
          [MapOp.assign "user" (GoAny.str "Bob"), MapOp.delete "n",
           MapOp.assign "new" (GoAny.bool true)]) 0 "user" = (GoAny.str "Ann", true)
    ∧ runSession.getValue
        ((runSession.getValues storeRun 0).1.applyMapOps (runSession.getValues storeRun 0).2
          [MapOp.assign "user" (GoAny.str "Bob"), MapOp.delete "n",
           MapOp.assign "new" (GoAny.bool true)]) 0 "n" = (GoAny.int 1, true)
    ∧ runSession.getValue
        ((runSession.getValues storeRun 0).1.applyMapOps (runSession.getValues storeRun 0).2
          [MapOp.assign "user" (GoAny.str "Bob"), MapOp.delete "n",
           MapOp.assign "new" (GoAny.bool true)]) 0 "new" = (GoAny.nil, false) := by
  have hm : ∀ m, (storeRun.sessions 0).Values = some m → m < storeRun.nextMap := by
    intro m hm
    have h0 : some 0 = some m := hm
    cases h0
    decide
  have key := (getValues_defensive_copy storeRun 0 hm).2.2.2.2.1
    [MapOp.assign "user" (GoAny.str "Bob"), MapOp.delete "n",
     MapOp.assign "new" (GoAny.bool true)]
  exact ⟨(key "user").trans (by decide), (key "n").trans (by decide),
    (key "new").trans (by decide)⟩

/-- On a session whose store is the map object `m`, a run of `addValue` calls is a
run of assignments on `m`, and does not fault. -/
theorem addValueAll_eq (rs m : Nat) (es : List (Sigma (fun _ : String => GoAny))) :
    ∀ h : Heap, (h.sessions rs).Values = some m →
      addValueAll h rs es = some (es.foldl (fun acc e => acc.mapAssign m e.1 e.2) h) := by
  induction es with
  | nil => intro h _; rfl
  | cons e es ih =>
    intro h hm
    have hm2 : ((h.mapAssign m e.1 e.2).sessions rs).Values = some m := hm
    simp only [addValueAll, runSession.addValue, hm, List.foldl_cons]
    exact ih _ hm2

/-- The loop of `addValues` is the run of `addValue` calls on the entries. -/
theorem addValues_eq_addValueAll (rs : Nat) (es : List (Sigma (fun _ : String => GoAny))) :
    ∀ acc : Option Heap,
      es.foldl
          (fun acc e =>
            match acc with
            | some h1 => runSession.addValue h1 rs e.1 e.2
            | none => none) acc
        = match acc with
          | some h => addValueAll h rs es
          | none => none := by
  induction es with
  | nil => intro acc; cases acc <;> rfl
  | cons e es ih =>
    intro acc
    rw [List.foldl_cons, ih]
    cases acc with
    | none => rfl
    | some h =>
      simp only [addValueAll]

/-- Inserting entries leaves a key that is not among them as it was. -/
theorem lookup_foldl_insert_of_not_mem (es : List (Sigma (fun _ : String => GoAny)))
    (k : String) (hk : k ∉ es.keys) (acc : GoMap) :
    (es.foldl (fun m e => m.insert e.1 e.2) acc).lookup k = acc.lookup k := by
  induction es generalizing acc with
  | nil => rfl
  | cons e es ih =>
    simp only [List.keys_cons, List.mem_cons, not_or] at hk
    rw [List.foldl_cons, ih hk.2, AList.lookup_insert_ne hk.1]

/-- C20: on a session with a store, `addValue(k, v)` makes `getValue(k)` return
`(v, true)` and leaves what `getValue` returns for every other key, the event log
and the pending-interrupt list as they were. `addValues(kvs)` is `addValue` for each
pair of `kvs`: afterwards `getValue` returns the value of `kvs` for a key of `kvs`
and what it returned before for every other key, and the event log and the
pending-interrupt list are as before. On a new session `getValue` returns
`(nil, false)` for every key, and still does for a key that is not among the keys
added since. -/
theorem addValue_getValue (h : Heap) (rs m : Nat) (hm : (h.sessions rs).Values = some m)
    (k : String) (v : GoAny) :
    (∃ h1, runSession.addValue h rs k v = some h1
      ∧ runSession.getValue h1 rs k = (v, true)
      ∧ (∀ k2, k2 ≠ k → runSession.getValue h1 rs k2 = runSession.getValue h rs k2)
      ∧ (h1.sessions rs).Events = (h.sessions rs).Events
      ∧ (h1.sessions rs).interruptRunCtxs = (h.sessions rs).interruptRunCtxs
      ∧ h1.sessions = h.sessions)
    ∧ (∀ kvs : GoMap, ∃ h2, runSession.addValues h rs kvs = some h2
      ∧ addValueAll h rs kvs.entries = some h2
      ∧ (∀ k2, runSession.getValue h2 rs k2
          = match kvs.lookup k2 with
            | some w => (w, true)
            | none => runSession.getValue h rs k2)
      ∧ (h2.sessions rs).Events = (h.sessions rs).Events
      ∧ (h2.sessions rs).interruptRunCtxs = (h.sessions rs).interruptRunCtxs
      ∧ h2.sessions = h.sessions)
    ∧ (∀ (h0 : Heap) (k2 : String),
        runSession.getValue (newRunSession h0).1 (newRunSession h0).2 k2 = (GoAny.nil, false))
    ∧ (∀ (h0 : Heap) (es : List (Sigma (fun _ : String => GoAny))) (k2 : String),
        k2 ∉ es.keys →
        ∃ h3, addValueAll (newRunSession h0).1 (newRunSession h0).2 es = some h3
          ∧ runSession.getValue h3 (newRunSession h0).2 k2 = (GoAny.nil, false)) := by
  refine ⟨?_, ?_, ?_, ?_⟩
  · refine ⟨h.mapAssign m k v, ?_, ?_, ?_, rfl, rfl, rfl⟩
    · simp only [runSession.addValue, hm]
    · simp only [runSession.getValue, Heap.mapIndex, Heap.mapAssign, hm, upd_same,
        AList.lookup_insert]
    · intro k2 hk
      simp only [runSession.getValue, Heap.mapIndex, Heap.mapAssign, hm, upd_same,
        AList.lookup_insert_ne hk]
  · intro kvs
    obtain ⟨f1, _, f3, _⟩ := foldl_mapAssign m kvs.entries h
    have hall := addValueAll_eq rs m kvs.entries h hm
    refine ⟨_, ?_, hall, ?_, by rw [f3], by rw [f3], f3⟩
    · rw [runSession.addValues, addValues_eq_addValueAll]
      exact hall
    · intro k2
      have hl : kvs.lookup k2 = List.dlookup k2 kvs.entries := rfl
      simp only [runSession.getValue, f3, hm, Heap.mapIndex, f1,
        lookup_foldl_insert kvs.entries kvs.nodupKeys, hl]
      cases List.dlookup k2 kvs.entries <;> rfl
  · intro h0 k2
    simp only [newRunSession, Heap.makeMap, runSession.getValue, upd_same, sessionOfMap,
      Heap.mapIndex, AList.lookup_empty]
  · intro h0 es k2 hk
    have hm0 : (((newRunSession h0).1).sessions (newRunSession h0).2).Values
        = some h0.nextMap := by
      simp only [newRunSession, Heap.makeMap, upd_same, sessionOfMap]
    obtain ⟨f1, _, f3, _⟩ := foldl_mapAssign h0.nextMap es (newRunSession h0).1
    refine ⟨_, addValueAll_eq _ _ es _ hm0, ?_⟩
    simp only [runSession.getValue, f3, hm0, Heap.mapIndex, f1,
      lookup_foldl_insert_of_not_mem es k2 hk]
    simp only [newRunSession, Heap.makeMap, upd_same, AList.lookup_empty]

/-- C20 on the session of the root run: after `addValue("user", "Ann")` the key reads
`("Ann", true)` and the key "n", never added, reads `(nil, false)`. -/
theorem addValue_getValue_witness :
    ∃ h1, runSession.addValue rootRun.1 0 "user" (GoAny.str "Ann") = some h1
      ∧ runSession.getValue h1 0 "user" = (GoAny.str "Ann", true)
      ∧ runSession.getValue h1 0 "n" = (GoAny.nil, false) := by
  obtain ⟨h1, e1, e2, e3, _⟩ :=
    (addValue_getValue rootRun.1 0 0 rfl "user" (GoAny.str "Ann")).1
  exact ⟨h1, e1, e2, (e3 "n" (by decide)).trans (by decide)⟩

/-! ## Claims on detached contexts and on the event log -/

/-- A context without a run context has no session, in every heap. -/
theorem getSession_of_no_runCtx (h : Heap) (ctx : Context) (hg : getRunCtx ctx = none) :
    getSession h ctx = none := by
  simp only [getSession, hg]

/-- The value read through a context is the same after `initRunCtx` on any context,
in a well-formed heap in which the run context of the reading context, if any, is
allocated. -/
theorem GetSessionValue_initRunCtx_any (h : Heap) (hw : h.WF) (ctx : Context) (name : String)
    (input : Option AgentInput) (c : Context)
    (hv : ∀ q, getRunCtx c = some q → q < h.nextRunCtx) (k : String) :
    GetSessionValue (initRunCtx h ctx name input).1 c k = GetSessionValue h c k := by
  cases hc : getRunCtx c with
  | none =>
    simp only [GetSessionValue, getSession_of_no_runCtx _ c hc]
  | some q => exact GetSessionValue_initRunCtx h hw ctx name input c q hc (hv q hc) k

/-- C21: the context returned by `ClearRunCtx(ctx)` carries no run context:
`getRunCtx` and `getSession` return nil on it, `GetSessionValues` returns a new
empty map and `GetSessionValue` `(nil, false)` for every key, whatever the session
of `ctx` holds. A following `initRunCtx` on it makes a run context with a RunPath of
the one new step and with a new session, whose store is empty; a value added through
the context it returns is read through that context and leaves what is read through
`ctx` as it was. -/
theorem ClearRunCtx_detaches (h : Heap) (hw : h.WF) (ctx : Context)
    (hv : ∀ q, getRunCtx ctx = some q → q < h.nextRunCtx)
    (name : String) (input : Option AgentInput) (k : String) (v : GoAny) :
    getRunCtx (ClearRunCtx ctx) = none
    ∧ getSession h (ClearRunCtx ctx) = none
    ∧ ((GetSessionValues h (ClearRunCtx ctx)).1.maps
          (GetSessionValues h (ClearRunCtx ctx)).2).entries = []
    ∧ (∀ k2, GetSessionValue h (ClearRunCtx ctx) k2 = (GoAny.nil, false))
    ∧ (initRunCtx h (ClearRunCtx ctx) name input).1.RunPathOf
          (initRunCtx h (ClearRunCtx ctx) name input).2.2 = [{ agentName := name }]
    ∧ getSession (initRunCtx h (ClearRunCtx ctx) name input).1
          (initRunCtx h (ClearRunCtx ctx) name input).2.1 = some h.nextSession
    ∧ getSession h ctx ≠ some h.nextSession
    ∧ (∀ k2, GetSessionValue (initRunCtx h (ClearRunCtx ctx) name input).1
          (initRunCtx h (ClearRunCtx ctx) name input).2.1 k2 = (GoAny.nil, false))
    ∧ ∃ h2, AddSessionValue (initRunCtx h (ClearRunCtx ctx) name input).1
          (initRunCtx h (ClearRunCtx ctx) name input).2.1 k v = some h2
      ∧ GetSessionValue h2 (initRunCtx h (ClearRunCtx ctx) name input).2.1 k = (v, true)
      ∧ (∀ k2, GetSessionValue h2 ctx k2 = GetSessionValue h ctx k2) := by
  have hclr : getRunCtx (ClearRunCtx ctx) = none := rfl
  obtain ⟨hptr, hget, hnext, hcells, _, _, hsess, _, hmaps, _, _⟩ :=
    initRunCtx_frame h (ClearRunCtx ctx) name input
  obtain ⟨hpath, hcell, _, _, hs, _, hm, _⟩ :=
    initRunCtx_fresh h (ClearRunCtx ctx) hclr name input
  have hnewS : getSession (initRunCtx h (ClearRunCtx ctx) name input).1
      (initRunCtx h (ClearRunCtx ctx) name input).2.1 = some h.nextSession := by
    simp only [getSession, hget, hcell]
  have hstore : ((initRunCtx h (ClearRunCtx ctx) name input).1.sessions h.nextSession).Values
      = some h.nextMap := by
    rw [hs]; rfl
  have hold : getSession h ctx ≠ some h.nextSession := by
    intro he
    cases hc : getRunCtx ctx with
    | none => rw [getSession_of_no_runCtx h ctx hc] at he; cases he
    | some q =>
      simp only [getSession, hc] at he
      exact Nat.lt_irrefl _ (hw.session_valid q (hv q hc) _ he)
  refine ⟨hclr, rfl, ?_, fun _ => rfl, ?_, hnewS, hold, ?_, ?_⟩
  · simp only [GetSessionValues, getSession_of_no_runCtx h _ hclr, Heap.makeMap, upd_same,
      AList.empty_entries]
  · rw [hptr]; exact hpath
  · intro k2
    simp only [GetSessionValue, hnewS, runSession.getValue, hstore, Heap.mapIndex, hm,
      AList.lookup_empty]
  · obtain ⟨a1, a2⟩ := AddSessionValue_shared _ _ _ h.nextSession h.nextMap hnewS hnewS hstore k v
    refine ⟨_, a1, a2, ?_⟩
    intro k2
    rw [← GetSessionValue_initRunCtx_any h hw (ClearRunCtx ctx) name input ctx hv k2]
    cases hc : getRunCtx ctx with
    | none =>
      simp only [GetSessionValue, getSession_of_no_runCtx _ ctx hc]
    | some q =>
      have hq := hv q hc
      have hsame : getSession ((initRunCtx h (ClearRunCtx ctx) name input).1.mapAssign
          h.nextMap k v) ctx = getSession (initRunCtx h (ClearRunCtx ctx) name input).1 ctx := rfl
      simp only [GetSessionValue, hsame]
      cases hs2 : getSession (initRunCtx h (ClearRunCtx ctx) name input).1 ctx with
      | none => rfl
      | some s =>
        have hs3 : (h.runCtxs q).Session = some s := by
          have := hs2
          simp only [getSession, hc, hcells q (Nat.ne_of_lt hq)] at this
          exact this
        have hlt := hw.session_valid q hq s hs3
        obtain ⟨m, hm1, hm2⟩ := hw.map_valid s hlt
        apply getValue_congr
        · rfl
        · intro m2 hm3
          rw [hsess s hlt, hm1] at hm3
          cases hm3
          simp only [Heap.mapAssign, upd_other _ _ _ _ (Nat.ne_of_lt hm2)]

/-- C21 on the root run holding "user" and "n": through the cleared context nothing
is read, and a value added through a run started on the cleared context is not read
through the context of the root run. -/
theorem ClearRunCtx_detaches_witness :
    GetSessionValue storeRun rootRun.2.1 "user" = (GoAny.str "Ann", true)
    ∧ GetSessionValue storeRun (ClearRunCtx rootRun.2.1) "user" = (GoAny.nil, false)
    ∧ ∃ h2, AddSessionValue (initRunCtx storeRun (ClearRunCtx rootRun.2.1) "Inner" none).1
          (initRunCtx storeRun (ClearRunCtx rootRun.2.1) "Inner" none).2.1 "inner"
          (GoAny.int 1) = some h2
      ∧ GetSessionValue h2 rootRun.2.1 "inner" = (GoAny.nil, false) := by
  have hw : storeRun.WF := mapAssign_WF _ (mapAssign_WF _ rootRun_WF _ _ _) _ _ _
  obtain ⟨_, _, _, e4, _, _, _, _, h2, a1, _, a3⟩ :=
    ClearRunCtx_detaches storeRun hw rootRun.2.1
      (by intro q hq; cases hq; decide) "Inner" none "inner" (GoAny.int 1)
  exact ⟨by decide, e4 "user", h2, a1, (a3 "inner").trans (by decide)⟩

/-- A run of `addValue` calls leaves the sessions as they were. -/
theorem addValueAll_sessions (rs : Nat) (es : List (Sigma (fun _ : String => GoAny))) :
    ∀ h h1 : Heap, addValueAll h rs es = some h1 → h1.sessions = h.sessions := by
  induction es with
  | nil =>
    intro h h1 he
    simp only [addValueAll, Option.some.injEq] at he
    rw [← he]
  | cons e es ih =>
    intro h h1 he
    simp only [addValueAll, runSession.addValue] at he
    cases hv : (h.sessions rs).Values with
    | none => rw [hv] at he; cases he
    | some m =>
      rw [hv] at he
      exact ih (h.mapAssign m e.1 e.2) h1 he

/-- One operation on a session adds to its event log the event it logs, if any,
after the events already there. -/
theorem SessionOp.apply_getEvents (belongs : List RunStep → List RunStep → Bool) (h h1 : Heap)
    (rs : Nat) (op : SessionOp) (he : op.apply belongs h rs = some h1) :
    runSession.getEvents h1 rs = runSession.getEvents h rs ++ loggedEvents [op] := by
  cases op with
  | addValue key value =>
    simp only [SessionOp.apply, runSession.addValue] at he
    cases hv : (h.sessions rs).Values with
    | none => rw [hv] at he; cases he
    | some m =>
      rw [hv] at he
      cases he
      simp [runSession.getEvents, Heap.mapAssign, loggedEvents]
  | addValues kvs =>
    simp only [SessionOp.apply, runSession.addValues, addValues_eq_addValueAll] at he
    have := addValueAll_sessions rs kvs.entries h h1 he
    simp [runSession.getEvents, this, loggedEvents]
  | getValues =>
    simp only [SessionOp.apply, Option.some.injEq] at he
    obtain ⟨_, _, _, g4, _⟩ := getValues_result h rs
    rw [← he]
    simp [runSession.getEvents, g4, loggedEvents]
  | appendInterruptRunCtx runCtx =>
    simp only [SessionOp.apply, Option.some.injEq] at he
    rw [← he]
    simp [runSession.getEvents, runSession.appendInterruptRunCtx, upd_same, loggedEvents]
  | replaceInterruptRunCtx runCtx =>
    simp only [SessionOp.apply, Option.some.injEq] at he
    rw [← he]
    simp [runSession.getEvents, runSession.replaceInterruptRunCtxAt, upd_same,
      runSession.replaceInterruptRunCtxWith, loggedEvents]
  | addEvent event =>
    simp only [SessionOp.apply, Option.some.injEq] at he
    rw [← he]
    simp [runSession.getEvents, runSession.addEvent, upd_same, loggedEvents]

/-- The events logged by a sequence of operations: those of the first operation,
then those of the rest. -/
theorem loggedEvents_cons (op : SessionOp) (ops : List SessionOp) :
    loggedEvents (op :: ops) = loggedEvents [op] ++ loggedEvents ops := by
  cases op <;> rfl

/-- C22: the event log of a session is append-only. After `addEvent(e)`, `getEvents`
is the previous `getEvents` followed by one wrapper of `e`; after any sequence of
session operations (`addValue`, `addValues`, `getValues`, `appendInterruptRunCtx`,
`replaceInterruptRunCtx`, `addEvent`) it is the previous `getEvents` followed by the
wrappers of the events added, in the order of the calls; so every event already
logged stays where it was, unchanged, and an operation other than `addEvent` leaves
the log as it was. -/
theorem event_log_append_only (belongs : List RunStep → List RunStep → Bool) (h : Heap)
    (rs : Nat) (e : AgentEvent) :
    runSession.getEvents (runSession.addEvent h rs e) rs
        = runSession.getEvents h rs ++ [{ AgentEvent := e, concatenatedMessage := none }]
    ∧ (∀ ops h1, applySessionOps belongs rs h ops = some h1 →
        runSession.getEvents h1 rs = runSession.getEvents h rs ++ loggedEvents ops
        ∧ runSession.getEvents h rs <+: runSession.getEvents h1 rs)
    ∧ (∀ op h1, op.apply belongs h rs = some h1 → (∀ ev, op ≠ SessionOp.addEvent ev) →
        runSession.getEvents h1 rs = runSession.getEvents h rs) := by
  refine ⟨?_, ?_, ?_⟩
  · simp [runSession.getEvents, runSession.addEvent, upd_same]
  · intro ops
    induction ops generalizing h with
    | nil =>
      intro h1 he
      simp only [applySessionOps, Option.some.injEq] at he
      rw [← he]
      simp [loggedEvents]
    | cons op ops ih =>
      intro h1 he
      simp only [applySessionOps] at he
      cases hop : op.apply belongs h rs with
      | none => rw [hop] at he; cases he
      | some hmid =>
        rw [hop] at he
        have h1e := SessionOp.apply_getEvents belongs h hmid rs op hop
        obtain ⟨h2e, _⟩ := ih hmid h1 he
        have heq : runSession.getEvents h1 rs
            = runSession.getEvents h rs ++ loggedEvents (op :: ops) := by
          rw [h2e, h1e, loggedEvents_cons op ops, List.append_assoc]
        exact ⟨heq, ⟨_, heq.symm⟩⟩
  · intro op h1 he hne
    have := SessionOp.apply_getEvents belongs h h1 rs op he
    rw [this]
    cases op with
    | addEvent ev => exact absurd rfl (hne ev)
    | addValue key value => simp [loggedEvents]
    | addValues kvs => simp [loggedEvents]
    | getValues => simp [loggedEvents]
    | appendInterruptRunCtx runCtx => simp [loggedEvents]
    | replaceInterruptRunCtx runCtx => simp [loggedEvents]

/-- C22 on the session of the root run: two events logged around a value and a
pending interrupt are the log, in the order logged. -/
theorem event_log_append_only_witness :
    ∃ h1, applySessionOps belongToRunPath 0 rootRun.1
        [SessionOp.addEvent (testEvent "A" "first" none),
         SessionOp.addValue "user" (GoAny.str "Ann"),
         SessionOp.replaceInterruptRunCtx 0,
         SessionOp.addEvent (testEvent "B" "second" none)] = some h1
      ∧ (runSession.getEvents h1 0).map (fun w => w.AgentEvent.AgentName) = ["A", "B"] := by
  refine ⟨_, rfl, ?_⟩
  rw [((event_log_append_only belongToRunPath rootRun.1 0 (testEvent "A" "first" none)).2.1
    [SessionOp.addEvent (testEvent "A" "first" none),
     SessionOp.addValue "user" (GoAny.str "Ann"),
     SessionOp.replaceInterruptRunCtx 0,
     SessionOp.addEvent (testEvent "B" "second" none)] _ rfl).1]
  decide

/-! ## Claims on the removal loop as a refinement -/

/-- The loop with a record returns the slice of the plain loop, and its record is
the part of the slice from the start index on: every entry from there on is asked
about once, in order. -/
theorem replaceLoopExamined_eq (belongs : List RunStep → List RunStep → Bool)
    (p : List RunStep) (xs : List runContext) (i : Nat) :
    (replaceLoopExamined belongs p xs i).1 = replaceLoop belongs p xs i
    ∧ (replaceLoopExamined belongs p xs i).2 = xs.drop i := by
  induction xs, i using replaceLoopExamined.induct belongs p with
  | case1 xs i h hb ih =>
    rw [replaceLoopExamined, dif_pos h, if_pos hb, replaceLoop, dif_pos h, if_pos hb]
    refine ⟨ih.1, ?_⟩
    have hlen : (List.take i xs).length = i := by
      rw [List.length_take]; omega
    show xs.get ⟨i, h⟩ :: (replaceLoopExamined belongs p (xs.take i ++ xs.drop (i + 1)) i).2
      = xs.drop i
    rw [ih.2, List.drop_append_eq_append_drop, hlen, Nat.sub_self, List.drop_zero,
      List.drop_of_length_le (by omega), List.nil_append]
    exact (List.drop_eq_getElem_cons h).symm
  | case2 xs i h hb ih =>
    rw [replaceLoopExamined, dif_pos h, if_neg hb, replaceLoop, dif_pos h, if_neg hb]
    refine ⟨ih.1, ?_⟩
    show xs.get ⟨i, h⟩ :: (replaceLoopExamined belongs p xs (i + 1)).2 = xs.drop i
    rw [ih.2]
    exact (List.drop_eq_getElem_cons h).symm
  | case3 xs i h =>
    rw [replaceLoopExamined, dif_neg h, replaceLoop, dif_neg h]
    exact ⟨rfl, (List.drop_of_length_le (by omega)).symm⟩

/-- C26: `replaceInterruptRunCtx(n)` leaves the pending-interrupt list equal to the
old list filtered to the entries `e` for which `belongToRunPath(n.RunPath,
e.RunPath)` is false, in their original order, followed by `n` as last element. The
loop asks the helper about every entry of the old list exactly once, in order; its
index access is guarded by the loop condition and its recursion is well-founded, so
it neither indexes out of range nor runs for ever; the resulting length is at most
the old length + 1. The same holds of the operation on a session in memory. -/
theorem replaceInterruptRunCtx_refines (belongs : List RunStep → List RunStep → Bool)
    (rs : runSession) (n : runContext) (h : Heap) (s p : Nat) :
    (rs.replaceInterruptRunCtxWith belongs n).interruptRunCtxs
        = replaceSpec belongs rs.interruptRunCtxs n
    ∧ (replaceLoopExamined belongs n.RunPath rs.interruptRunCtxs 0).1
        = replaceLoop belongs n.RunPath rs.interruptRunCtxs 0
    ∧ (replaceLoopExamined belongs n.RunPath rs.interruptRunCtxs 0).2 = rs.interruptRunCtxs
    ∧ (rs.replaceInterruptRunCtxWith belongs n).interruptRunCtxs.getLast? = some n
    ∧ (rs.replaceInterruptRunCtxWith belongs n).interruptRunCtxs.dropLast
        = rs.interruptRunCtxs.filter (fun rc => !belongs n.RunPath rc.RunPath)
    ∧ (rs.replaceInterruptRunCtxWith belongs n).interruptRunCtxs.dropLast.Sublist
        rs.interruptRunCtxs
    ∧ (rs.replaceInterruptRunCtxWith belongs n).interruptRunCtxs.length
        ≤ rs.interruptRunCtxs.length + 1
    ∧ runSession.getInterruptRunCtxs (runSession.replaceInterruptRunCtxAt belongs h s p) s
        = replaceSpec belongs (runSession.getInterruptRunCtxs h s) (h.readRunCtx p) := by
  have key := interruptRunCtxs_replaceWith belongs rs n
  obtain ⟨e1, e2⟩ := replaceLoopExamined_eq belongs n.RunPath rs.interruptRunCtxs 0
  refine ⟨key, e1, by rw [e2, List.drop_zero], ?_, ?_, ?_, ?_, ?_⟩
  · rw [key]; simp
  · rw [key]; simp
  · rw [key]; simp
  · rw [key, List.length_append, List.length_singleton]
    exact Nat.add_le_add_right (List.length_filter_le _ _) 1
  · simp only [runSession.getInterruptRunCtxs, runSession.replaceInterruptRunCtxAt, upd_same]
    exact interruptRunCtxs_replaceWith belongs (h.sessions s) (h.readRunCtx p)

/-! ## Claims on contexts without a run context -/

/-- C27: through a context that carries no run context, as every context returned by
`ClearRunCtx` is, `GetSessionValues` returns a new empty map, `GetSessionValue`
returns `(nil, false)` for every key, in every heap, and `getInterruptRunCtxs`
returns the nil slice; `AddSessionValue`, `AddSessionValues`,
`appendInterruptRunCtx` and `replaceInterruptRunCtx` return without a fault and
leave the heap as it is, so that later reads through the context see no value. -/
theorem no_run_context_no_effect (belongs : List RunStep → List RunStep → Bool) (h : Heap)
    (ctx : Context) (hg : getRunCtx ctx = none) (k : String) (v : GoAny) (kvs : GoMap)
    (p : Nat) :
    (∀ c, getRunCtx (ClearRunCtx c) = none)
    ∧ getSession h ctx = none
    ∧ (GetSessionValues h ctx).2 = h.nextMap
    ∧ (GetSessionValues h ctx).1.nextMap = h.nextMap + 1
    ∧ ((GetSessionValues h ctx).1.maps (GetSessionValues h ctx).2).entries = []
    ∧ (∀ (h2 : Heap) (k2 : String), GetSessionValue h2 ctx k2 = (GoAny.nil, false))
    ∧ getInterruptRunCtxs h ctx = []
    ∧ AddSessionValue h ctx k v = some h
    ∧ AddSessionValues h ctx kvs = some h
    ∧ appendInterruptRunCtx h ctx p = h
    ∧ replaceInterruptRunCtxWith belongs h ctx p = h := by
  have hs : ∀ h2 : Heap, getSession h2 ctx = none := fun h2 => getSession_of_no_runCtx h2 ctx hg
  refine ⟨fun _ => rfl, hs h, ?_, ?_, ?_, ?_, ?_, ?_, ?_, ?_, ?_⟩
  · simp only [GetSessionValues, hs h, Heap.makeMap]
  · simp only [GetSessionValues, hs h, Heap.makeMap]
  · simp only [GetSessionValues, hs h, Heap.makeMap, upd_same, AList.empty_entries]
  · intro h2 k2
    simp only [GetSessionValue, hs h2]
  · simp only [getInterruptRunCtxs, hs h]
  · simp only [AddSessionValue, hs h]
  · simp only [AddSessionValues, hs h]
  · simp only [appendInterruptRunCtx, hs h]
  · simp only [replaceInterruptRunCtxWith, hs h]

/-- C27 on the background context and on the cleared context of the root run, whose
session holds "user": a value added through either is not stored, and nothing is
read through either afterwards. -/
theorem no_run_context_no_effect_witness :
    AddSessionValue storeRun Context.Background "user" (GoAny.str "Bob") = some storeRun
    ∧ GetSessionValue storeRun Context.Background "user" = (GoAny.nil, false)
    ∧ AddSessionValue storeRun (ClearRunCtx rootRun.2.1) "user" (GoAny.str "Bob")
        = some storeRun
    ∧ GetSessionValue storeRun (ClearRunCtx rootRun.2.1) "user" = (GoAny.nil, false)
    ∧ GetSessionValue storeRun rootRun.2.1 "user" = (GoAny.str "Ann", true) :=
  ⟨(no_run_context_no_effect belongToRunPath storeRun Context.Background rfl "user"
      (GoAny.str "Bob") ∅ 0).2.2.2.2.2.2.2.1,
   (no_run_context_no_effect belongToRunPath storeRun Context.Background rfl "user"
      (GoAny.str "Bob") ∅ 0).2.2.2.2.2.1 storeRun "user",
   (no_run_context_no_effect belongToRunPath storeRun (ClearRunCtx rootRun.2.1) rfl "user"
      (GoAny.str "Bob") ∅ 0).2.2.2.2.2.2.2.1,
   (no_run_context_no_effect belongToRunPath storeRun (ClearRunCtx rootRun.2.1) rfl "user"
      (GoAny.str "Bob") ∅ 0).2.2.2.2.2.1 storeRun "user",
   by decide⟩

/-! ## Lemmas on the agent tool -/

/-- The loop over a stream without error events ends with the last event of the
stream, or with the event it started from when the stream is empty. -/
theorem lastEventLoop_ok (events : List AgentEvent) (h : ∀ e ∈ events, e.Err = none) :
    ∀ start : Option AgentEvent,
      lastEventLoop start events
        = Except.ok (match events.getLast? with
            | some e => some e
            | none => start) := by
  induction events with
  | nil => intro start; rfl
  | cons e es ih =>
    intro start
    have he : e.Err = none := h e (List.mem_cons_self _ _)
    rw [lastEventLoop, he]
    simp only []
    rw [ih (fun x hx => h x (List.mem_cons_of_mem _ hx)) (some e)]
    cases es with
    | nil => rfl
    | cons e2 es2 =>
      rw [List.getLast?_cons_cons]
      cases hl : (e2 :: es2).getLast? with
      | none => simp at hl
      | some x => rfl

/-- The loop ends with the error of the first event that carries one, whatever
follows it. -/
theorem lastEventLoop_error (pre rest : List AgentEvent) (e : AgentEvent) (err : String)
    (hpre : ∀ x ∈ pre, x.Err = none) (he : e.Err = some err) :
    ∀ start : Option AgentEvent,
      lastEventLoop start (pre ++ e :: rest) = Except.error err := by
  induction pre with
  | nil =>
    intro start
    rw [List.nil_append, lastEventLoop, he]
  | cons x xs ih =>
    intro start
    have hx : x.Err = none := hpre x (List.mem_cons_self _ _)
    rw [List.cons_append, lastEventLoop, hx]
    exact ih (fun y hy => hpre y (List.mem_cons_of_mem _ hy)) (some x)

/-- Without interrupt data recorded for the tool call, the first `ProcessState`
leaves the state as it is. -/
theorem takeInterruptData_of_none (st : Option State) (toolCallID : String)
    (h : (takeInterruptData st toolCallID).1 = none) :
    takeInterruptData st toolCallID = (none, st) := by
  cases st with
  | none => rfl
  | some s =>
    simp only [takeInterruptData] at h ⊢
    cases hl : s.AgentToolInterruptData.lookup toolCallID with
    | none => rfl
    | some d => rw [hl] at h; cases h

/-- The content returned for a last event whose message output has a content. -/
theorem lastEventContent_of_content (deps : ToolDeps) (e : AgentEvent) (content : String)
    (hc : messageOutputContent deps e = some content) :
    lastEventContent deps e = GoResult.returns (content, none) := by
  unfold messageOutputContent at hc
  unfold lastEventContent
  cases ho : e.Output with
  | none => rw [ho] at hc; cases hc; rfl
  | some out =>
    rw [ho] at hc
    simp only [] at hc ⊢
    cases hm : out.MessageOutput with
    | none => rw [hm] at hc; cases hc; rfl
    | some output =>
      rw [hm] at hc
      simp only [] at hc ⊢
      cases hs : output.IsStreaming with
      | true =>
        rw [hs] at hc
        simp only [if_true] at hc
        simp only [Bool.not_true, Bool.false_eq_true, if_false]
        cases hcat : deps.ConcatMessageStream output.MessageStream with
        | error err => rw [hcat] at hc; cases hc
        | ok msg => rw [hcat] at hc; cases hc; rfl
      | false =>
        rw [hs] at hc
        simp only [Bool.false_eq_true, if_false] at hc
        simp only [Bool.not_false, if_true]
        cases hmsg : output.Message with
        | none => rw [hmsg] at hc; cases hc
        | some msg => rw [hmsg] at hc; cases hc; rfl

/-- The second part of `InvokableRun` on a stream without error events whose last
event is not interrupted: the result is read off the output of the last event. -/
theorem finish_of_last (deps : ToolDeps) (st : Option State) (toolCallID : String)
    (outcome : RunnerOutcome) (pre : List AgentEvent) (last : AgentEvent)
    (hev : outcome.events = pre ++ [last]) (hpre : ∀ e ∈ pre, e.Err = none)
    (hlast : last.Err = none) (hint : last.isInterrupted = false) :
    agentTool.finish deps st toolCallID outcome = (lastEventContent deps last, st) := by
  have hall : ∀ e ∈ pre ++ [last], e.Err = none := by
    intro e he
    rcases List.mem_append.mp he with h1 | h1
    · exact hpre e h1
    · rw [List.mem_singleton.mp h1]; exact hlast
  unfold agentTool.finish
  rw [hev, lastEventLoop_ok _ hall none, List.getLast?_append, List.getLast?_singleton]
  simp only [Option.or_some, hint, Bool.false_eq_true, if_false]

/-- The content returned for a last event whose message output is a stream that
cannot be concatenated: the empty string and the error of the concatenation. -/
theorem lastEventContent_of_concat_error (deps : ToolDeps) (e : AgentEvent)
    (out : AgentOutput) (output : MessageVariant) (err : String)
    (ho : e.Output = some out) (hm : out.MessageOutput = some output)
    (hs : output.IsStreaming = true)
    (hcat : deps.ConcatMessageStream output.MessageStream = Except.error err) :
    lastEventContent deps e = GoResult.returns ("", some err) := by
  unfold lastEventContent
  rw [ho]
  simp only []
  rw [hm]
  simp only [hs, Bool.not_true, Bool.false_eq_true, if_false, hcat]

/-! ## Claims on the agent tool -/

/-- C23, as stated, fails for a streaming output: with the default input schema, the
arguments `{"request":"Test request"}` and an agent whose stream holds one event,
without error and not interrupted, whose message output is streaming, `InvokableRun`
returns the error of `schema.ConcatMessageStream` when the stream cannot be
concatenated, not a nil error. -/
theorem streaming_output_concat_failure :
    (agentTool.InvokableRun
        { testDeps with ConcatMessageStream := fun _ => Except.error "stream broken" }
        { agent := newMockAgentForTool "TestAgent" "Test agent description"
            [{ AgentName := "TestAgent",
               Output := some
                 { MessageOutput := some
                     { IsStreaming := true, Message := none, Role := RoleType.Assistant },
                   CustomizedOutput := GoAny.nil },
               Action := none, Err := none }],
          fullChatHistoryAsInput := false, inputSchema := none }
        none "call-1" "\x7b\"request\":\"Test request\"\x7d" []).1
      = GoResult.returns ("", some "stream broken") := by
  rfl

/-- C23, amended: for an agent tool with the default input schema that takes the
request as input, run afresh on arguments that are valid JSON `{"request": s}`, and
an agent whose stream on the user message `s` is not empty, has no event with an
error and has a last event that is not interrupted, whatever the earlier events are:
when the message output of the last event, if any, is a message or a stream that can
be concatenated, `InvokableRun` returns a nil error and the content of that message
output (the empty string without a message output); when it is a stream that cannot
be concatenated, `InvokableRun` returns the empty string and the error of the
concatenation. The state is left as it is. -/
theorem InvokableRun_returns_last_content (deps : ToolDeps) (tool : agentTool)
    (st : Option State) (toolCallID arguments req : String) (opts : List toolOption)
    (pre : List AgentEvent) (last : AgentEvent)
    (hfresh : (takeInterruptData st toolCallID).1 = none)
    (hfull : tool.fullChatHistoryAsInput = false) (hschema : tool.inputSchema = none)
    (hparse : deps.UnmarshalRequest arguments = Except.ok req)
    (hev : (deps.RunnerRun tool.agent [UserMessage req]
        (getOptionsByAgentName tool.agent.name opts ++ [{ label := "WithCheckPointID" }])).events
      = pre ++ [last])
    (hpre : ∀ e ∈ pre, e.Err = none) (hlast : last.Err = none)
    (hint : last.isInterrupted = false) :
    (∀ content, messageOutputContent deps last = some content →
        tool.InvokableRun deps st toolCallID arguments opts
          = (GoResult.returns (content, none), st))
    ∧ (∀ out output err, last.Output = some out → out.MessageOutput = some output →
        output.IsStreaming = true →
        deps.ConcatMessageStream output.MessageStream = Except.error err →
        tool.InvokableRun deps st toolCallID arguments opts
          = (GoResult.returns ("", some err), st)) := by
  have hrun : tool.InvokableRun deps st toolCallID arguments opts
      = (lastEventContent deps last, st) := by
    unfold agentTool.InvokableRun
    rw [takeInterruptData_of_none st toolCallID hfresh]
    simp only [agentTool.start, hfull, hschema, hparse, Bool.false_eq_true, if_false]
    exact finish_of_last deps st toolCallID _ pre last hev hpre hlast hint
  refine ⟨?_, ?_⟩
  · intro content hc
    rw [hrun, lastEventContent_of_content deps last content hc]
  · intro out output err ho hm hs hcat
    rw [hrun, lastEventContent_of_concat_error deps last out output err ho hm hs hcat]

/-- C23 amended, on the case "successful tool call response" of
TestAgentTool_InvokableRun, with an earlier event added: the content of the last
event is returned; and with a last event whose output is a stream that cannot be
concatenated: the error of the concatenation is returned. -/
theorem InvokableRun_returns_last_content_witness :
    agentTool.InvokableRun testDeps
        (testAgentTool
          [testEvent "TestAgent" "earlier" none, testEvent "TestAgent" "Tool response" none])
        none "call-1" "\x7b\"request\":\"Test tool request\"\x7d" []
      = (GoResult.returns ("Tool response", none), none)
    ∧ agentTool.InvokableRun brokenStreamDeps
        (testAgentTool [testEvent "TestAgent" "earlier" none, streamingEvent])
        none "call-1" "\x7b\"request\":\"Test tool request\"\x7d" []
      = (GoResult.returns ("", some "stream broken"), none) :=
  ⟨(InvokableRun_returns_last_content testDeps
      (testAgentTool
        [testEvent "TestAgent" "earlier" none, testEvent "TestAgent" "Tool response" none])
      none "call-1" "\x7b\"request\":\"Test tool request\"\x7d" "Test tool request" []
      [testEvent "TestAgent" "earlier" none] (testEvent "TestAgent" "Tool response" none)
      rfl rfl rfl rfl rfl
      (by intro e he; rw [List.mem_singleton.mp he]; rfl) rfl rfl).1 "Tool response" rfl,
   (InvokableRun_returns_last_content brokenStreamDeps
      (testAgentTool [testEvent "TestAgent" "earlier" none, streamingEvent])
      none "call-1" "\x7b\"request\":\"Test tool request\"\x7d" "Test tool request" []
      [testEvent "TestAgent" "earlier" none] streamingEvent
      rfl rfl rfl rfl rfl
      (by intro e he; rw [List.mem_singleton.mp he]; rfl) rfl rfl).2
      { MessageOutput := some
          { IsStreaming := true, Message := none, Role := RoleType.Assistant },
        CustomizedOutput := GoAny.nil }
      { IsStreaming := true, Message := none, Role := RoleType.Assistant }
      "stream broken" rfl rfl rfl rfl⟩

/-- C24: for an agent tool with the default input schema that takes the request as
input, run afresh: when the arguments are not valid JSON for the request,
`InvokableRun` returns the empty string and the error of the decoder, whatever the
runner would do, so the agent is not run; when the stream of the agent ends without
an event, it returns the empty string and the error "no event returned"; when some
event carries an error, it returns the empty string and the error of the first such
event, whatever follows that event in the stream. The state is left as it is. -/
theorem InvokableRun_errors (deps : ToolDeps) (tool : agentTool) (st : Option State)
    (toolCallID arguments : String) (opts : List toolOption)
    (hfresh : (takeInterruptData st toolCallID).1 = none)
    (hfull : tool.fullChatHistoryAsInput = false) (hschema : tool.inputSchema = none) :
    (∀ err, deps.UnmarshalRequest arguments = Except.error err →
        ∀ run resume,
          tool.InvokableRun { deps with RunnerRun := run, RunnerResume := resume }
              st toolCallID arguments opts
            = (GoResult.returns ("", some err), st))
    ∧ (∀ req, deps.UnmarshalRequest arguments = Except.ok req →
        (deps.RunnerRun tool.agent [UserMessage req]
            (getOptionsByAgentName tool.agent.name opts
              ++ [{ label := "WithCheckPointID" }])).events = [] →
        tool.InvokableRun deps st toolCallID arguments opts
          = (GoResult.returns ("", some "no event returned"), st))
    ∧ (∀ req pre e rest err, deps.UnmarshalRequest arguments = Except.ok req →
        (deps.RunnerRun tool.agent [UserMessage req]
            (getOptionsByAgentName tool.agent.name opts
              ++ [{ label := "WithCheckPointID" }])).events = pre ++ e :: rest →
        (∀ x ∈ pre, x.Err = none) → e.Err = some err →
        tool.InvokableRun deps st toolCallID arguments opts
          = (GoResult.returns ("", some err), st)) := by
  refine ⟨?_, ?_, ?_⟩
  · intro err hparse run resume
    unfold agentTool.InvokableRun
    rw [takeInterruptData_of_none st toolCallID hfresh]
    simp only [agentTool.start, hfull, hschema, hparse, Bool.false_eq_true, if_false]
  · intro req hparse hev
    unfold agentTool.InvokableRun
    rw [takeInterruptData_of_none st toolCallID hfresh]
    simp only [agentTool.start, hfull, hschema, hparse, Bool.false_eq_true, if_false,
      agentTool.finish, hev, lastEventLoop]
  · intro req pre e rest err hparse hev hpre he
    unfold agentTool.InvokableRun
    rw [takeInterruptData_of_none st toolCallID hfresh]
    simp only [agentTool.start, hfull, hschema, hparse, Bool.false_eq_true, if_false,
      agentTool.finish, hev, lastEventLoop_error pre rest e err hpre he none]

/-- C24 on the cases "invalid request JSON", "no events returned" and "error in
event" of TestAgentTool_InvokableRun. -/
theorem InvokableRun_errors_witness :
    agentTool.InvokableRun testDeps
        { agent := newMockAgentForTool "TestAgent" "Test agent description" [],
          fullChatHistoryAsInput := false, inputSchema := none }
        none "call-1" "invalid json" []
      = (GoResult.returns ("", some "invalid json"), none)
    ∧ agentTool.InvokableRun testDeps
        { agent := newMockAgentForTool "TestAgent" "Test agent description" [],
          fullChatHistoryAsInput := false, inputSchema := none }
        none "call-1" "\x7b\"request\":\"Test request\"\x7d" []
      = (GoResult.returns ("", some "no event returned"), none)
    ∧ agentTool.InvokableRun testDeps
        { agent := newMockAgentForTool "TestAgent" "Test agent description"
            [{ AgentName := "TestAgent", Output := none, Action := none,
               Err := some "assert.AnError general error for testing" }],
          fullChatHistoryAsInput := false, inputSchema := none }
        none "call-1" "\x7b\"request\":\"Test request\"\x7d" []
      = (GoResult.returns ("", some "assert.AnError general error for testing"), none) :=
  ⟨(InvokableRun_errors testDeps _ none "call-1" "invalid json" [] rfl rfl rfl).1
      "invalid json" rfl testDeps.RunnerRun testDeps.RunnerResume,
   (InvokableRun_errors testDeps _ none "call-1" _ [] rfl rfl rfl).2.1
      "Test request" rfl rfl,
   (InvokableRun_errors testDeps _ none "call-1" _ [] rfl rfl rfl).2.2
      "Test request" [] _ [] "assert.AnError general error for testing" rfl rfl
      (by intro x hx; cases hx) rfl⟩

/-- The loop of `getReactChatHistory` appends to the history, in order, the messages
that are not system messages, the assistant and tool messages rewritten. -/
theorem historyLoop_eq (deps : ToolDeps) (agentName : String) (msgs : List Message) :
    ∀ history : List Message,
      historyLoop deps agentName history msgs
        = history ++ (msgs.filter (fun msg => !decide (msg.Role = RoleType.System))).map
            (fun msg =>
              if msg.Role = RoleType.Assistant ∨ msg.Role = RoleType.Tool then
                deps.rewriteMessage msg agentName
              else msg) := by
  induction msgs with
  | nil => intro history; simp [historyLoop]
  | cons m ms ih =>
    intro history
    by_cases hs : m.Role = RoleType.System
    · rw [historyLoop, if_pos hs, ih]
      simp [hs]
    · by_cases ha : m.Role = RoleType.Assistant ∨ m.Role = RoleType.Tool
      · rw [historyLoop, if_neg hs, if_pos ha, ih]
        simp [hs, ha]
      · rw [historyLoop, if_neg hs, if_neg ha, ih]
        simp [hs, ha]

/-- What `getReactChatHistory` returns for a state with messages: the messages
without the last one as they are, the two transfer messages as they are, and then
the messages without the last one again, without the system messages and with the
assistant and tool messages rewritten. -/
theorem getReactChatHistory_eq (deps : ToolDeps) (st : State) (destAgentName : String)
    (hne : st.Messages ≠ []) :
    getReactChatHistory deps (some st) destAgentName
      = GoResult.returns
          (st.Messages.take (st.Messages.length - 1)
            ++ [(deps.GenTransferMessages destAgentName).1,
                (deps.GenTransferMessages destAgentName).2]
            ++ ((st.Messages.take (st.Messages.length - 1)).filter
                  (fun msg => !decide (msg.Role = RoleType.System))).map
                (fun msg =>
                  if msg.Role = RoleType.Assistant ∨ msg.Role = RoleType.Tool then
                    deps.rewriteMessage msg st.AgentName
                  else msg),
           none) := by
  have hlen : st.Messages.length ≠ 0 := fun h => hne (List.length_eq_zero.mp h)
  simp only [getReactChatHistory, hlen, if_false, historyLoop_eq]

/-- C25 fails on the code: on the state of TestGetReactHistory and the destination
"DestAgentName", `getReactChatHistory` returns 8 messages, not the 5 the test
expects: the user query, the first assistant message and the tool message as they
are in the state, the two transfer messages not rewritten, and then the three
messages of the state again, the assistant and the tool message rewritten. What the
claim describes is the history the test expects. -/
theorem getReactChatHistory_on_test_state :
    getReactChatHistory testDeps (some reactTestState) "DestAgentName"
      = GoResult.returns
          (reactTestState.Messages.take 3
            ++ [(genTransferMessagesModel "DestAgentName").1,
                (genTransferMessagesModel "DestAgentName").2]
            ++ reactTestExpected.take 3,
           none)
    ∧ (reactTestState.Messages.take 3
        ++ [(genTransferMessagesModel "DestAgentName").1,
            (genTransferMessagesModel "DestAgentName").2]
        ++ reactTestExpected.take 3).length = 8
    ∧ reactTestExpected.length = 5
    ∧ reactHistorySpec testDeps reactTestState "DestAgentName" = reactTestExpected
    ∧ reactTestState.Messages.take 3
        ++ [(genTransferMessagesModel "DestAgentName").1,
            (genTransferMessagesModel "DestAgentName").2]
        ++ reactTestExpected.take 3 ≠ reactTestExpected := by
  refine ⟨rfl, by decide, by decide, by decide, by decide⟩

/-- C28 fails on the code: `getReactChatHistory` ends in a run-time panic, the slice
expression `messages[:len(messages)-1]` being out of range, for every context from
which the state cannot be read and for every state whose message list is empty; so
does `InvokableRun` of an agent tool that takes the full chat history as input, run
afresh. -/
theorem getReactChatHistory_panics (deps : ToolDeps) (destAgentName agentName : String)
    (data : List (String × agentToolInterruptInfo)) (tool : agentTool)
    (toolCallID arguments : String) (opts : List toolOption) :
    getReactChatHistory deps none destAgentName
        = GoResult.panics "slice bounds out of range [:-1]"
    ∧ getReactChatHistory deps
        (some { Messages := [], AgentName := agentName, AgentToolInterruptData := data })
        destAgentName
        = GoResult.panics "slice bounds out of range [:-1]"
    ∧ (agentTool.InvokableRun deps { tool with fullChatHistoryAsInput := true } none
          toolCallID arguments opts).1
        = GoResult.panics "slice bounds out of range [:-1]" := by
  refine ⟨rfl, rfl, rfl⟩

end Eino
